import Mathlib

/-!
# High bit-depth Wiener convolution (Arm Neon kernel)

A shallow embedding of `av1/common/arm/highbd_wiener_convolve_neon.c`.

* Vector registers are functions from the lane index to an integer lane value.
* Machine integers are mathematical integers; every instruction that can wrap
  or saturate does so explicitly (`wrap16`, `wrap32`, `sat32`, ...).
* Memory is a function from element offsets (in units of `uint16_t`, relative to
  the pointer the caller passed) to the stored 16-bit value.
* Loops carry a fuel argument and return `none` when it runs out.  The C `int`
  loop counters and pointer offsets are unbounded integers (signed overflow is
  undefined in C, and no terminating run comes near it).
* A stage records the offset of every vector load and store it makes.
-/

namespace Wiener

/-! ## Machine integers -/

/-- Two's complement reading of the low 8 bits. -/
def wrap8 (x : Int) : Int := (x + 128) % 256 - 128

/-- Two's complement reading of the low 16 bits (`int16_t`). -/
def wrap16 (x : Int) : Int := (x + 32768) % 65536 - 32768

/-- Two's complement reading of the low 32 bits (`int32_t`). -/
def wrap32 (x : Int) : Int := (x + 2147483648) % 4294967296 - 2147483648

/-- Signed saturation to 32 bits. -/
def sat32 (x : Int) : Int := max (-2147483648) (min 2147483647 x)

/-- Unsigned saturation to 16 bits. -/
def usat16 (x : Int) : Int := max 0 (min 65535 x)

/-- The C expression `x << n` on `int`; where the result does not fit (C leaves
it undefined) the two's complement value is taken. -/
def shl_int (x : Int) (n : Nat) : Int := wrap32 (x * 2 ^ n)

/-! ## Constants of the codec that the kernel uses -/

/-- Modelled from the spec: `FILTER_BITS` (declared in `aom_dsp/aom_filter.h`,
not part of the sources at hand); the filter precision is 7 bits, the true
centre tap being the stored one plus `2^7 = 128`. -/
def FILTER_BITS : Nat := 7

/-- Modelled from the spec: `MAX_SB_SIZE`, the maximum processing-unit size
(declared in `av1/common/enums.h`, not part of the sources at hand). -/
def MAX_SB_SIZE : Int := 128

/-- Modelled from the spec: `WIENER_WIN`, the 7 taps of the filter (declared in
`av1/common/restoration.h`, not part of the sources at hand). -/
def WIENER_WIN : Int := 7

/-- Modelled from the spec: `WIENER_HALFWIN`, the 3 samples of border on each
side (declared in `av1/common/restoration.h`, not part of the sources at hand). -/
def WIENER_HALFWIN : Int := 3

/-- Modelled from the spec: the rounding configuration object
`WienerConvolveParams` (declared in `av1/common/convolve.h`, not part of the
sources at hand), exposing the two non-negative shift amounts. -/
structure WienerConvolveParams where
  round_0 : Nat
  round_1 : Nat

/-! ## Vector registers and the Neon instructions used -/

abbrev int16x4_t := Fin 4 → Int
abbrev int16x8_t := Fin 8 → Int
abbrev int32x2_t := Fin 2 → Int
abbrev int32x4_t := Fin 4 → Int
abbrev uint16x4_t := Fin 4 → Int
abbrev uint16x8_t := Fin 8 → Int

def vaddq_s16 (a b : int16x8_t) : int16x8_t := fun i => wrap16 (a i + b i)

def vadd_s16 (a b : int16x4_t) : int16x4_t := fun i => wrap16 (a i + b i)

def vget_low_s16 (a : int16x8_t) : int16x4_t := fun i => a ⟨i.1, by omega⟩

def vget_high_s16 (a : int16x8_t) : int16x4_t := fun i => a ⟨i.1 + 4, by omega⟩

def vget_low_s32 (a : int32x4_t) : int32x2_t := fun i => a ⟨i.1, by omega⟩

def vget_high_s32 (a : int32x4_t) : int32x2_t := fun i => a ⟨i.1 + 2, by omega⟩

/-- Widening multiply-accumulate by one lane of `v`. -/
def vmlal_lane_s16 (a : int32x4_t) (b : int16x4_t) (v : int16x4_t) (lane : Fin 4) :
    int32x4_t :=
  fun i => wrap32 (a i + b i * v lane)

/-- Multiply-accumulate (32 bit) by one lane of `v`. -/
def vmlaq_lane_s32 (a : int32x4_t) (b : int32x4_t) (v : int32x2_t) (lane : Fin 2) :
    int32x4_t :=
  fun i => wrap32 (a i + b i * v lane)

/-- Sign extension of each lane: the lane values stay the same. -/
def vmovl_s16 (a : int16x4_t) : int32x4_t := fun i => a i

/-- Widening add. -/
def vaddl_s16 (a b : int16x4_t) : int32x4_t := fun i => a i + b i

/-- One lane of `SQRSHL`: the shift amount is the signed low byte of the shift
lane; a negative amount is a rounding right shift; the result saturates. -/
def sqrshl32 (x shift : Int) : Int :=
  let sh := wrap8 shift
  if 0 ≤ sh then sat32 (x * 2 ^ sh.toNat)
  else sat32 ((x + 2 ^ ((-sh).toNat - 1)) / 2 ^ (-sh).toNat)

def vqrshlq_s32 (a : int32x4_t) (shift : int32x4_t) : int32x4_t :=
  fun i => sqrshl32 (a i) (shift i)

def vqmovun_s32 (a : int32x4_t) : uint16x4_t := fun i => usat16 (a i)

def vcombine_u16 (lo hi : uint16x4_t) : uint16x8_t :=
  fun i => if h : i.1 < 4 then lo ⟨i.1, h⟩ else hi ⟨i.1 - 4, by omega⟩

def vminq_u16 (a b : uint16x8_t) : uint16x8_t := fun i => min (a i) (b i)

def vdupq_n_u16 (x : Int) : uint16x8_t := fun _ => x % 65536

def vdupq_n_s32 (x : Int) : int32x4_t := fun _ => wrap32 x

/-- The four 16-bit lanes of a 64-bit constant. -/
def vcreate_s16 (x : Nat) : int16x4_t := fun i => wrap16 ((x / 2 ^ (16 * i.1) % 65536 : Nat))

/-- Loads the first four entries of a filter array. -/
def vld1_s16 (p : Fin 8 → Int) : int16x4_t := fun i => p ⟨i.1, by omega⟩

/-- Loads eight consecutive 16-bit elements, read as `int16_t`. -/
def vld1q_s16 (m : Int → Int) (p : Int) : int16x8_t := fun i => wrap16 (m (p + i.1))

/-- Memory after storing the eight lanes of `v` at offset `p`. -/
def vst1q_u16 (m : Int → Int) (p : Int) (v : uint16x8_t) : Int → Int :=
  fun a => if h : p ≤ a ∧ a < p + 8 then v ⟨(a - p).toNat, by omega⟩ else m a

/-! ## Helpers of `aom_dsp/arm/mem_neon.h` -/

/-- Modelled from the spec: `load_s16_8x7` of `aom_dsp/arm/mem_neon.h` (not part
of the sources at hand) reads 7 vectors of 8 elements, `p` elements apart,
starting at `s`; entry `k` is the vector the C code calls `s<k>`. -/
def load_s16_8x7 (m : Int → Int) (s p : Int) : Fin 7 → int16x8_t :=
  fun k => vld1q_s16 m (s + k.1 * p)

/-- Modelled from the spec: `load_s16_8x10` of `aom_dsp/arm/mem_neon.h` (not part
of the sources at hand) reads 10 vectors of 8 elements, `p` elements apart. -/
def load_s16_8x10 (m : Int → Int) (s p : Int) : Fin 10 → int16x8_t :=
  fun k => vld1q_s16 m (s + k.1 * p)

/-- Modelled from the spec: `store_u16_8x4` of `aom_dsp/arm/mem_neon.h` (not part
of the sources at hand) stores 4 vectors of 8 elements, `p` elements apart. -/
def store_u16_8x4 (m : Int → Int) (d p : Int) (d0 d1 d2 d3 : uint16x8_t) : Int → Int :=
  vst1q_u16 (vst1q_u16 (vst1q_u16 (vst1q_u16 m d d0) (d + p) d1) (d + 2 * p) d2) (d + 3 * p) d3

/-- The offsets of the `n` vector loads of `load_s16_8x<n>`. -/
def load_offsets (n : Nat) (s p : Int) : List Int :=
  (List.range n).map (fun (k : Nat) => s + (k : Int) * p)

/-! ## The two per-vector kernels -/

def highbd_wiener_convolve7_8_2d_h (s0 s1 s2 s3 s4 s5 s6 : int16x8_t)
    (x_filter : int16x4_t) (round_vec shift : int32x4_t) (im_max_val : uint16x8_t) :
    uint16x8_t :=
  let s06 := vaddq_s16 s0 s6
  let s15 := vaddq_s16 s1 s5
  let s24 := vaddq_s16 s2 s4
  let sum_lo := vmlal_lane_s16 round_vec (vget_low_s16 s06) x_filter 0
  let sum_lo := vmlal_lane_s16 sum_lo (vget_low_s16 s15) x_filter 1
  let sum_lo := vmlal_lane_s16 sum_lo (vget_low_s16 s24) x_filter 2
  let sum_lo := vmlal_lane_s16 sum_lo (vget_low_s16 s3) x_filter 3
  let sum_hi := vmlal_lane_s16 round_vec (vget_high_s16 s06) x_filter 0
  let sum_hi := vmlal_lane_s16 sum_hi (vget_high_s16 s15) x_filter 1
  let sum_hi := vmlal_lane_s16 sum_hi (vget_high_s16 s24) x_filter 2
  let sum_hi := vmlal_lane_s16 sum_hi (vget_high_s16 s3) x_filter 3
  let sum_lo := vqrshlq_s32 sum_lo shift
  let sum_hi := vqrshlq_s32 sum_hi shift
  let res := vcombine_u16 (vqmovun_s32 sum_lo) (vqmovun_s32 sum_hi)
  vminq_u16 res im_max_val

def highbd_wiener_convolve7_8_2d_v (s0 s1 s2 s3 s4 s5 s6 : int16x8_t)
    (y_filter : int16x4_t) (round_vec shift : int32x4_t) (res_max_val : uint16x8_t) :
    uint16x8_t :=
  let y_filter_lo := vget_low_s32 (vmovl_s16 y_filter)
  let y_filter_hi := vget_high_s32 (vmovl_s16 y_filter)
  let s06_lo := vaddl_s16 (vget_low_s16 s0) (vget_low_s16 s6)
  let s15_lo := vaddl_s16 (vget_low_s16 s1) (vget_low_s16 s5)
  let s24_lo := vaddl_s16 (vget_low_s16 s2) (vget_low_s16 s4)
  let sum_lo := vmlaq_lane_s32 round_vec s06_lo y_filter_lo 0
  let sum_lo := vmlaq_lane_s32 sum_lo s15_lo y_filter_lo 1
  let sum_lo := vmlaq_lane_s32 sum_lo s24_lo y_filter_hi 0
  let sum_lo := vmlaq_lane_s32 sum_lo (vmovl_s16 (vget_low_s16 s3)) y_filter_hi 1
  let s06_hi := vaddl_s16 (vget_high_s16 s0) (vget_high_s16 s6)
  let s15_hi := vaddl_s16 (vget_high_s16 s1) (vget_high_s16 s5)
  let s24_hi := vaddl_s16 (vget_high_s16 s2) (vget_high_s16 s4)
  let sum_hi := vmlaq_lane_s32 round_vec s06_hi y_filter_lo 0
  let sum_hi := vmlaq_lane_s32 sum_hi s15_hi y_filter_lo 1
  let sum_hi := vmlaq_lane_s32 sum_hi s24_hi y_filter_hi 0
  let sum_hi := vmlaq_lane_s32 sum_hi (vmovl_s16 (vget_high_s16 s3)) y_filter_hi 1
  let sum_lo := vqrshlq_s32 sum_lo shift
  let sum_hi := vqrshlq_s32 sum_hi shift
  let res := vcombine_u16 (vqmovun_s32 sum_lo) (vqmovun_s32 sum_hi)
  vminq_u16 res res_max_val

/-! ## The two stages -/

/-- The memory a stage writes, with the offsets of the vector loads it made
from its input and of the vector stores it made, in the order they happen. -/
structure Stage where
  out : Int → Int
  loads : List Int
  stores : List Int

/-- The inner `do ... while (width != 0)` loop of
`highbd_convolve_add_src_horiz_hip`: one row, 8 columns a step. -/
def horiz_hip_row (src : Int → Int) (x_filter : int16x4_t) (round_vec shift : int32x4_t)
    (im_max_val : uint16x8_t) : Nat → Int → Int → Int → Stage → Option Stage
  | 0, _, _, _, _ => none
  | fuel + 1, s, d, width, st =>
    let r := load_s16_8x7 src s 1
    let d0 := highbd_wiener_convolve7_8_2d_h (r 0) (r 1) (r 2) (r 3) (r 4) (r 5) (r 6)
      x_filter round_vec shift im_max_val
    let st : Stage :=
      { out := vst1q_u16 st.out d d0
        loads := st.loads ++ load_offsets 7 s 1
        stores := st.stores ++ [d] }
    let s := s + 8
    let d := d + 8
    let width := width - 8
    if width ≠ 0 then horiz_hip_row src x_filter round_vec shift im_max_val fuel s d width st
    else some st

/-- The outer `do ... while (--h != 0)` loop over the rows. -/
def highbd_convolve_add_src_horiz_hip (src : Int → Int) (src_stride : Int)
    (dst_stride : Int) (w : Int) (x_filter : int16x4_t) (round_vec shift : int32x4_t)
    (im_max_val : uint16x8_t) : Nat → Int → Int → Int → Stage → Option Stage
  | 0, _, _, _, _ => none
  | fuel + 1, src_ptr, dst_ptr, h, st =>
    match horiz_hip_row src x_filter round_vec shift im_max_val (fuel + 1) src_ptr dst_ptr w
        st with
    | none => none
    | some st =>
      let src_ptr := src_ptr + src_stride
      let dst_ptr := dst_ptr + dst_stride
      let h := h - 1
      if h ≠ 0 then
        highbd_convolve_add_src_horiz_hip src src_stride dst_stride w x_filter round_vec shift
          im_max_val fuel src_ptr dst_ptr h st
      else some st

/-- The loop `while (height > 3)` of `highbd_convolve_add_src_vert_hip`: four
rows a step.  Returns the values of `s`, `d` and `height` at loop exit. -/
def vert_hip_rows4 (src : Int → Int) (src_stride dst_stride : Int) (y_filter : int16x4_t)
    (round_vec shift : int32x4_t) (res_max_val : uint16x8_t) :
    Nat → Int → Int → Int → Stage → Option (Int × Int × Int × Stage)
  | 0, _, _, _, _ => none
  | fuel + 1, s, d, height, st =>
    if height > 3 then
      let r := load_s16_8x10 src s src_stride
      let d0 := highbd_wiener_convolve7_8_2d_v (r 0) (r 1) (r 2) (r 3) (r 4) (r 5) (r 6)
        y_filter round_vec shift res_max_val
      let d1 := highbd_wiener_convolve7_8_2d_v (r 1) (r 2) (r 3) (r 4) (r 5) (r 6) (r 7)
        y_filter round_vec shift res_max_val
      let d2 := highbd_wiener_convolve7_8_2d_v (r 2) (r 3) (r 4) (r 5) (r 6) (r 7) (r 8)
        y_filter round_vec shift res_max_val
      let d3 := highbd_wiener_convolve7_8_2d_v (r 3) (r 4) (r 5) (r 6) (r 7) (r 8) (r 9)
        y_filter round_vec shift res_max_val
      let st : Stage :=
        { out := store_u16_8x4 st.out d dst_stride d0 d1 d2 d3
          loads := st.loads ++ load_offsets 10 s src_stride
          stores := st.stores ++ [d, d + dst_stride, d + 2 * dst_stride, d + 3 * dst_stride] }
      let s := s + 4 * src_stride
      let d := d + 4 * dst_stride
      let height := height - 4
      vert_hip_rows4 src src_stride dst_stride y_filter round_vec shift res_max_val fuel s d
        height st
    else some (s, d, height, st)

/-- The loop `while (height-- != 0)` of `highbd_convolve_add_src_vert_hip`: the
remaining rows, one a step. -/
def vert_hip_rows1 (src : Int → Int) (src_stride dst_stride : Int) (y_filter : int16x4_t)
    (round_vec shift : int32x4_t) (res_max_val : uint16x8_t) :
    Nat → Int → Int → Int → Stage → Option Stage
  | 0, _, _, _, _ => none
  | fuel + 1, s, d, height, st =>
    if height ≠ 0 then
      let height := height - 1
      let r := load_s16_8x7 src s src_stride
      let d0 := highbd_wiener_convolve7_8_2d_v (r 0) (r 1) (r 2) (r 3) (r 4) (r 5) (r 6)
        y_filter round_vec shift res_max_val
      let st : Stage :=
        { out := vst1q_u16 st.out d d0
          loads := st.loads ++ load_offsets 7 s src_stride
          stores := st.stores ++ [d] }
      let s := s + src_stride
      let d := d + dst_stride
      vert_hip_rows1 src src_stride dst_stride y_filter round_vec shift res_max_val fuel s d
        height st
    else some st

/-- The outer `do ... while (w != 0)` loop over the 8-column strips. -/
def highbd_convolve_add_src_vert_hip (src : Int → Int) (src_stride dst_stride : Int) (h : Int)
    (y_filter : int16x4_t) (round_vec shift : int32x4_t) (res_max_val : uint16x8_t) :
    Nat → Int → Int → Int → Stage → Option Stage
  | 0, _, _, _, _ => none
  | fuel + 1, src_ptr, dst_ptr, w, st =>
    match vert_hip_rows4 src src_stride dst_stride y_filter round_vec shift res_max_val
        (fuel + 1) src_ptr dst_ptr h st with
    | none => none
    | some (s, d, height, st) =>
      match vert_hip_rows1 src src_stride dst_stride y_filter round_vec shift res_max_val
          (fuel + 1) s d height st with
      | none => none
      | some st =>
        let src_ptr := src_ptr + 8
        let dst_ptr := dst_ptr + 8
        let w := w - 8
        if w ≠ 0 then
          highbd_convolve_add_src_vert_hip src src_stride dst_stride h y_filter round_vec shift
            res_max_val fuel src_ptr dst_ptr w st
        else some st

/-! ## The entry point -/

/-- What a call leaves behind: the destination plane, the scratch buffer
`im_block`, and the offsets of every vector load and store, in order. -/
structure Machine where
  dst : Int → Int
  im_block : Int → Int
  src_loads : List Int
  im_stores : List Int
  im_loads : List Int
  dst_stores : List Int

/-- How a call ends. -/
inductive Outcome where
  | assert_failed (m : Machine)
  | out_of_fuel
  | returned (m : Machine)

/-- The number of elements of `im_block`. -/
def im_block_size : Int := (MAX_SB_SIZE + WIENER_WIN - 1) * MAX_SB_SIZE

/-- The entry point.  `src` and `dst` are the planes behind `src8` and `dst8`
(`CONVERT_TO_SHORTPTR`), indexed relative to those pointers; `im_block` is the
content the scratch array happens to have at entry; the macro
`WIENER_CLAMP_LIMIT` of `av1/common/convolve.h` is not part of the sources at
hand and is a parameter. -/
def av1_highbd_wiener_convolve_add_src_neon (WIENER_CLAMP_LIMIT : Nat → Nat → Int)
    (fuel : Nat) (im_block : Int → Int)
    (src : Int → Int) (src_stride : Int) (dst : Int → Int) (dst_stride : Int)
    (x_filter : Fin 8 → Int) (x_step_q4 : Int) (y_filter : Fin 8 → Int) (y_step_q4 : Int)
    (w h : Int) (conv_params : WienerConvolveParams) (bd : Nat) : Outcome :=
  let m0 : Machine :=
    { dst := dst, im_block := im_block, src_loads := [], im_stores := [], im_loads := [],
      dst_stores := [] }
  if ¬ (Int.tmod w 8 = 0) then .assert_failed m0
  else if ¬ (w ≤ MAX_SB_SIZE ∧ h ≤ MAX_SB_SIZE) then .assert_failed m0
  else if ¬ (x_step_q4 = 16 ∧ y_step_q4 = 16) then .assert_failed m0
  else if ¬ (x_filter 7 = 0 ∧ y_filter 7 = 0) then .assert_failed m0
  else
    let x_filter_s16 := vld1_s16 x_filter
    let y_filter_s16 := vld1_s16 y_filter
    let x_filter_s16 := vadd_s16 x_filter_s16 (vcreate_s16 (128 * 2 ^ 48))
    let y_filter_s16 := vadd_s16 y_filter_s16 (vcreate_s16 (128 * 2 ^ 48))
    let im_stride := MAX_SB_SIZE
    let im_h := h + WIENER_WIN - 1
    let horiz_offset := WIENER_HALFWIN
    let vert_offset := WIENER_HALFWIN * src_stride
    let extraprec_clamp_limit := WIENER_CLAMP_LIMIT conv_params.round_0 bd
    let im_max_val := vdupq_n_u16 (extraprec_clamp_limit - 1)
    let horiz_shift := vdupq_n_s32 (-(conv_params.round_0 : Int))
    let horiz_round_vec := vdupq_n_s32 (shl_int 1 (bd + FILTER_BITS - 1))
    let res_max_val := vdupq_n_u16 (shl_int 1 bd - 1)
    let vert_shift := vdupq_n_s32 (-(conv_params.round_1 : Int))
    let vert_round_vec := vdupq_n_s32 (-(shl_int 1 (bd + conv_params.round_1 - 1)))
    match highbd_convolve_add_src_horiz_hip src src_stride im_stride w x_filter_s16
        horiz_round_vec horiz_shift im_max_val fuel (0 - horiz_offset - vert_offset) 0 im_h
        { out := im_block, loads := [], stores := [] } with
    | none => .out_of_fuel
    | some im =>
      match highbd_convolve_add_src_vert_hip im.out im_stride dst_stride h y_filter_s16
          vert_round_vec vert_shift res_max_val fuel 0 0 w
          { out := dst, loads := [], stores := [] } with
      | none => .out_of_fuel
      | some out =>
        .returned
          { dst := out.out, im_block := im.out, src_loads := im.loads, im_stores := im.stores,
            im_loads := out.loads, dst_stores := out.stores }

/-! ## Per-lane and per-position readings of the kernels -/

/-- One lane of `highbd_wiener_convolve7_8_2d_h` as a function of the seven
lane inputs, with every wrapping and saturating step of the code kept. -/
def h_lane (f : int16x4_t) (rv sh mx : Int) (s0 s1 s2 s3 s4 s5 s6 : Int) : Int :=
  min (usat16 (sqrshl32 (wrap32 (wrap32 (wrap32 (wrap32 (rv + wrap16 (s0 + s6) * f 0)
    + wrap16 (s1 + s5) * f 1) + wrap16 (s2 + s4) * f 2) + s3 * f 3)) sh)) mx

/-- One lane of `highbd_wiener_convolve7_8_2d_v` as a function of the seven
lane inputs, with every wrapping and saturating step of the code kept. -/
def v_lane (f : int16x4_t) (rv sh mx : Int) (s0 s1 s2 s3 s4 s5 s6 : Int) : Int :=
  min (usat16 (sqrshl32 (wrap32 (wrap32 (wrap32 (wrap32 (rv + (s0 + s6) * f 0)
    + (s1 + s5) * f 1) + (s2 + s4) * f 2) + s3 * f 3)) sh)) mx

/-- The value the horizontal kernel computes from the 7 elements of `src`
that start at offset `p`. -/
def hpix (src : Int → Int) (f : int16x4_t) (rv sh mx : Int) (p : Int) : Int :=
  h_lane f rv sh mx (wrap16 (src p)) (wrap16 (src (p + 1))) (wrap16 (src (p + 2)))
    (wrap16 (src (p + 3))) (wrap16 (src (p + 4))) (wrap16 (src (p + 5))) (wrap16 (src (p + 6)))

/-- The value the vertical kernel computes from the 7 elements of `im` that
start at offset `p` and lie `stride` apart. -/
def vpix (im : Int → Int) (stride : Int) (f : int16x4_t) (rv sh mx : Int) (p : Int) : Int :=
  v_lane f rv sh mx (wrap16 (im p)) (wrap16 (im (p + stride))) (wrap16 (im (p + 2 * stride)))
    (wrap16 (im (p + 3 * stride))) (wrap16 (im (p + 4 * stride))) (wrap16 (im (p + 5 * stride)))
    (wrap16 (im (p + 6 * stride)))

/-- Memory `out'` is memory `out` with the rectangle of rows `r0 ≤ r < r1` and
columns `c0 ≤ c < c1` of the plane at `d` with stride `ds` set to `val r c`. -/
def Wrote (out out' : Int → Int) (d ds : Int) (val : Int → Int → Int) (r0 r1 c0 c1 : Int) :
    Prop :=
  (∀ r c, r0 ≤ r → r < r1 → c0 ≤ c → c < c1 → out' (d + r * ds + c) = val r c) ∧
  (∀ a, (∀ r c, r0 ≤ r → r < r1 → c0 ≤ c → c < c1 → a ≠ d + r * ds + c) → out' a = out a)

/-- The vector the horizontal stage computes from the 7 loads at `s`. -/
def h_batch (src : Int → Int) (f : int16x4_t) (rv sh mx s : Int) : uint16x8_t :=
  highbd_wiener_convolve7_8_2d_h (load_s16_8x7 src s 1 0) (load_s16_8x7 src s 1 1)
    (load_s16_8x7 src s 1 2) (load_s16_8x7 src s 1 3) (load_s16_8x7 src s 1 4)
    (load_s16_8x7 src s 1 5) (load_s16_8x7 src s 1 6) f (fun _ => rv) (fun _ => sh)
    (fun _ => mx)

/-- The vector the vertical stage computes from the 7 loads that start `o`
rows below `p`. -/
def v_batch (im : Int → Int) (ss : Int) (f : int16x4_t) (rv sh mx p : Int) (o : Nat) :
    uint16x8_t :=
  highbd_wiener_convolve7_8_2d_v (vld1q_s16 im (p + ((o + 0 : Nat) : Int) * ss))
    (vld1q_s16 im (p + ((o + 1 : Nat) : Int) * ss)) (vld1q_s16 im (p + ((o + 2 : Nat) : Int) * ss))
    (vld1q_s16 im (p + ((o + 3 : Nat) : Int) * ss)) (vld1q_s16 im (p + ((o + 4 : Nat) : Int) * ss))
    (vld1q_s16 im (p + ((o + 5 : Nat) : Int) * ss)) (vld1q_s16 im (p + ((o + 6 : Nat) : Int) * ss))
    f (fun _ => rv) (fun _ => sh) (fun _ => mx)


/-- The offsets of the vector loads the vertical stage makes for one strip of 8
columns and `h` rows whose first load is at `s`: 10 a step while 4 rows are
written at a time, then 7 a step. -/
def strip_loads (h : Nat) (s ss : Int) : List Int :=
  (List.range (h / 4)).flatMap (fun (i : Nat) => load_offsets 10 (s + 4 * (i : Int) * ss) ss) ++
  (List.range (h % 4)).flatMap (fun (i : Nat) =>
    load_offsets 7 (s + 4 * ((h / 4 : Nat) : Int) * ss + (i : Int) * ss) ss)

/-! ## The parameters the entry point derives, and its per-position result -/

/-- The four taps the entry point hands to a stage: the stored taps with 128
added to tap 3. -/
def filter_s16 (filter : Fin 8 → Int) : int16x4_t :=
  vadd_s16 (vld1_s16 filter) (vcreate_s16 (128 * 2 ^ 48))

/-- A lane of `horiz_round_vec`. -/
def horiz_round (bd : Nat) : Int := wrap32 (shl_int 1 (bd + FILTER_BITS - 1))

/-- A lane of `horiz_shift`. -/
def horiz_shift (conv_params : WienerConvolveParams) : Int :=
  wrap32 (-(conv_params.round_0 : Int))

/-- A lane of `im_max_val`. -/
def im_max (extraprec_clamp_limit : Int) : Int := (extraprec_clamp_limit - 1) % 65536

/-- A lane of `vert_round_vec`. -/
def vert_round (conv_params : WienerConvolveParams) (bd : Nat) : Int :=
  wrap32 (-(shl_int 1 (bd + conv_params.round_1 - 1)))

/-- A lane of `vert_shift`. -/
def vert_shift (conv_params : WienerConvolveParams) : Int :=
  wrap32 (-(conv_params.round_1 : Int))

/-- A lane of `res_max_val`. -/
def res_max (bd : Nat) : Int := (shl_int 1 bd - 1) % 65536

/-- What the code computes for row `i`, column `c` of `im_block`: the
horizontal kernel on the source samples of row `i - 3`, columns `c - 3 .. c + 3`. -/
def im_pixel (lim : Nat → Nat → Int) (src : Int → Int) (ss : Int) (x_filter : Fin 8 → Int)
    (cp : WienerConvolveParams) (bd : Nat) (i c : Int) : Int :=
  h_lane (filter_s16 x_filter) (horiz_round bd) (horiz_shift cp) (im_max (lim cp.round_0 bd))
    (wrap16 (src ((i - 3) * ss + (c - 3)))) (wrap16 (src ((i - 3) * ss + (c - 2))))
    (wrap16 (src ((i - 3) * ss + (c - 1)))) (wrap16 (src ((i - 3) * ss + c)))
    (wrap16 (src ((i - 3) * ss + (c + 1)))) (wrap16 (src ((i - 3) * ss + (c + 2))))
    (wrap16 (src ((i - 3) * ss + (c + 3))))

/-- What the code computes for row `r`, column `c` of the destination: the
vertical kernel on rows `r .. r + 6` of column `c` of `im_block`. -/
def dst_pixel (lim : Nat → Nat → Int) (src : Int → Int) (ss : Int)
    (x_filter y_filter : Fin 8 → Int) (cp : WienerConvolveParams) (bd : Nat) (r c : Int) : Int :=
  v_lane (filter_s16 y_filter) (vert_round cp bd) (vert_shift cp) (res_max bd)
    (wrap16 (im_pixel lim src ss x_filter cp bd r c))
    (wrap16 (im_pixel lim src ss x_filter cp bd (r + 1) c))
    (wrap16 (im_pixel lim src ss x_filter cp bd (r + 2) c))
    (wrap16 (im_pixel lim src ss x_filter cp bd (r + 3) c))
    (wrap16 (im_pixel lim src ss x_filter cp bd (r + 4) c))
    (wrap16 (im_pixel lim src ss x_filter cp bd (r + 5) c))
    (wrap16 (im_pixel lim src ss x_filter cp bd (r + 6) c))

/-! ## The per-sample formulas of the specification -/

/-- The accumulator of the specification: the rounding term plus the folded
7-tap sum with the bias-restored centre tap, in unbounded integers. -/
def wiener_acc (round t0 t1 t2 t3 s0 s1 s2 s3 s4 s5 s6 : Int) : Int :=
  round + t0 * (s0 + s6) + t1 * (s1 + s5) + t2 * (s2 + s4) + (t3 + 128) * s3

/-- The horizontal per-sample formula: rounding term `2^(bd+6)`, rounding shift
by `round_0`, clamp to `[0, clamp_limit - 1]`. -/
def H_formula (bd round_0 : Nat) (clamp_limit t0 t1 t2 t3 s0 s1 s2 s3 s4 s5 s6 : Int) : Int :=
  min (clamp_limit - 1)
    (max 0 ((wiener_acc (2 ^ (bd + 6)) t0 t1 t2 t3 s0 s1 s2 s3 s4 s5 s6 + 2 ^ (round_0 - 1))
      / 2 ^ round_0))

/-- The vertical per-sample formula: rounding term `-2^(bd+round_1-1)`, rounding
shift by `round_1`, clamp to `[0, 2^bd - 1]`. -/
def V_formula (bd round_1 : Nat) (t0 t1 t2 t3 s0 s1 s2 s3 s4 s5 s6 : Int) : Int :=
  min (2 ^ bd - 1)
    (max 0 ((wiener_acc (-(2 ^ (bd + round_1 - 1))) t0 t1 t2 t3 s0 s1 s2 s3 s4 s5 s6
      + 2 ^ (round_1 - 1)) / 2 ^ round_1))

/-- The intermediate sample of the specification at row `i`, column `c`: the
horizontal formula on source row `i - 3`, columns `c - 3 .. c + 3`. -/
def I_formula (bd round_0 : Nat) (clamp_limit : Int) (x_filter : Fin 8 → Int) (src : Int → Int)
    (ss : Int) (i c : Int) : Int :=
  H_formula bd round_0 clamp_limit (x_filter 0) (x_filter 1) (x_filter 2) (x_filter 3)
    (src ((i - 3) * ss + (c - 3))) (src ((i - 3) * ss + (c - 2))) (src ((i - 3) * ss + (c - 1)))
    (src ((i - 3) * ss + c)) (src ((i - 3) * ss + (c + 1))) (src ((i - 3) * ss + (c + 2)))
    (src ((i - 3) * ss + (c + 3)))

/-- The output sample of the specification at row `r`, column `c`: the vertical
formula on the intermediate samples of rows `r .. r + 6`, column `c`. -/
def two_pass_formula (bd round_0 round_1 : Nat) (clamp_limit : Int)
    (x_filter y_filter : Fin 8 → Int) (src : Int → Int) (ss : Int) (r c : Int) : Int :=
  V_formula bd round_1 (y_filter 0) (y_filter 1) (y_filter 2) (y_filter 3)
    (I_formula bd round_0 clamp_limit x_filter src ss r c)
    (I_formula bd round_0 clamp_limit x_filter src ss (r + 1) c)
    (I_formula bd round_0 clamp_limit x_filter src ss (r + 2) c)
    (I_formula bd round_0 clamp_limit x_filter src ss (r + 3) c)
    (I_formula bd round_0 clamp_limit x_filter src ss (r + 4) c)
    (I_formula bd round_0 clamp_limit x_filter src ss (r + 5) c)
    (I_formula bd round_0 clamp_limit x_filter src ss (r + 6) c)

/-! ## The exact separable filter -/

/-- The bias-restored 7-tap kernel `[t0, t1, t2, t3 + 128, t2, t1, t0]` of a
stored tap set. -/
def true_kernel (filter : Fin 8 → Int) : Fin 7 → Int :=
  ![filter 0, filter 1, filter 2, filter 3 + 128, filter 2, filter 1, filter 0]

/-- The sum over `i, j` of `ky[i] kx[j] src[r+i-3][c+j-3]`. -/
def separable_sum (x_filter y_filter : Fin 8 → Int) (src : Int → Int) (ss r c : Int) : Int :=
  ∑ i : Fin 7, ∑ j : Fin 7,
    true_kernel y_filter i * true_kernel x_filter j * src ((r + i.1 - 3) * ss + (c + j.1 - 3))

/-- The exact filter result for position `(r, c)`: the separable sum divided
by `2^14`, rounded to the nearest integer and clamped to `[0, 2^bd - 1]`. -/
def reference_pixel (bd : Nat) (x_filter y_filter : Fin 8 → Int) (src : Int → Int)
    (ss r c : Int) : Int :=
  max 0 (min (2 ^ bd - 1) (round ((separable_sum x_filter y_filter src ss r c : ℚ) / 2 ^ 14)))

/-- The folded 7-tap sum of source row `i - 3`, columns `c - 3 .. c + 3`. -/
def row_sum (x_filter : Fin 8 → Int) (src : Int → Int) (ss i c : Int) : Int :=
  wiener_acc 0 (x_filter 0) (x_filter 1) (x_filter 2) (x_filter 3)
    (src ((i - 3) * ss + (c - 3))) (src ((i - 3) * ss + (c - 2))) (src ((i - 3) * ss + (c - 1)))
    (src ((i - 3) * ss + c)) (src ((i - 3) * ss + (c + 1))) (src ((i - 3) * ss + (c + 2)))
    (src ((i - 3) * ss + (c + 3)))

/-- The intermediate sample of the specification before its clamp to
`[0, clamp_limit - 1]`. -/
def H_unclamped (bd round_0 : Nat) (x_filter : Fin 8 → Int) (src : Int → Int) (ss i c : Int) :
    Int :=
  (2 ^ (bd + 6) + row_sum x_filter src ss i c + 2 ^ (round_0 - 1)) / 2 ^ round_0

/-- The values one lane of `highbd_wiener_convolve7_8_2d_h` holds before the
rounding shift, in the order the code computes them: the three 16-bit pair
sums `s06`, `s15`, `s24` and the 32-bit accumulator after each of the four
multiply-accumulates. -/
def h_lane_steps (f : int16x4_t) (rv : Int) (s0 s1 s2 s3 s4 s5 s6 : Int) : List Int :=
  let s06 := wrap16 (s0 + s6)
  let s15 := wrap16 (s1 + s5)
  let s24 := wrap16 (s2 + s4)
  let sum0 := wrap32 (rv + s06 * f 0)
  let sum1 := wrap32 (sum0 + s15 * f 1)
  let sum2 := wrap32 (sum1 + s24 * f 2)
  let sum3 := wrap32 (sum2 + s3 * f 3)
  [s06, s15, s24, sum0, sum1, sum2, sum3]

/-- The same seven values in unbounded integers, from the stored taps and the
unsigned samples, as the specification has them. -/
def H_formula_steps (bd : Nat) (t0 t1 t2 t3 s0 s1 s2 s3 s4 s5 s6 : Int) : List Int :=
  [s0 + s6, s1 + s5, s2 + s4,
   2 ^ (bd + 6) + t0 * (s0 + s6),
   2 ^ (bd + 6) + t0 * (s0 + s6) + t1 * (s1 + s5),
   2 ^ (bd + 6) + t0 * (s0 + s6) + t1 * (s1 + s5) + t2 * (s2 + s4),
   wiener_acc (2 ^ (bd + 6)) t0 t1 t2 t3 s0 s1 s2 s3 s4 s5 s6]

/-! ## A batch-width-1 reading of the two stages -/

/-- The horizontal kernel at batch width 1: the vector kernel with the 7
samples that start at offset `p` of `src` in its lanes. -/
def scalar_convolve7_h (src : Int → Int) (x_filter : int16x4_t) (rv sh mx : Int) (p : Int) :
    Int :=
  highbd_wiener_convolve7_8_2d_h (fun _ => wrap16 (src p)) (fun _ => wrap16 (src (p + 1)))
    (fun _ => wrap16 (src (p + 2))) (fun _ => wrap16 (src (p + 3)))
    (fun _ => wrap16 (src (p + 4))) (fun _ => wrap16 (src (p + 5)))
    (fun _ => wrap16 (src (p + 6))) x_filter (fun _ => rv) (fun _ => sh) (fun _ => mx) 0

/-- The vertical kernel at batch width 1: the vector kernel with the 7 samples
that start at offset `p` of `src` and lie `stride` apart in its lanes. -/
def scalar_convolve7_v (src : Int → Int) (stride : Int) (y_filter : int16x4_t)
    (rv sh mx : Int) (p : Int) : Int :=
  highbd_wiener_convolve7_8_2d_v (fun _ => wrap16 (src p)) (fun _ => wrap16 (src (p + stride)))
    (fun _ => wrap16 (src (p + 2 * stride))) (fun _ => wrap16 (src (p + 3 * stride)))
    (fun _ => wrap16 (src (p + 4 * stride))) (fun _ => wrap16 (src (p + 5 * stride)))
    (fun _ => wrap16 (src (p + 6 * stride))) y_filter (fun _ => rv) (fun _ => sh)
    (fun _ => mx) 0

/-- A stage at batch width 1, as the specification describes it: the positions
`(row, col)` of `order` are visited one at a time, in that order, and each
visit stores the per-sample kernel's value for the position. -/
def scalar_stage (kernel : Int → Int) (src_stride dst_stride : Int) (s d : Int)
    (order : List (Int × Int)) (out : Int → Int) : Int → Int :=
  order.foldl (fun o p =>
    Function.update o (d + p.1 * dst_stride + p.2) (kernel (s + p.1 * src_stride + p.2))) out

/-! # Properties -/

set_option maxRecDepth 100000

theorem convolve7_h_lane (s0 s1 s2 s3 s4 s5 s6 : int16x8_t) (f : int16x4_t) (rv sh mx : Int)
    (i : Fin 8) :
    highbd_wiener_convolve7_8_2d_h s0 s1 s2 s3 s4 s5 s6 f (fun _ => rv) (fun _ => sh)
      (fun _ => mx) i
    = h_lane f rv sh mx (s0 i) (s1 i) (s2 i) (s3 i) (s4 i) (s5 i) (s6 i) := by
  have hi : ∀ (h : ¬ i.1 < 4), (⟨i.1 - 4 + 4, by omega⟩ : Fin 8) = i := by
    intro h; apply Fin.ext; simp; omega
  simp only [highbd_wiener_convolve7_8_2d_h, vminq_u16, vcombine_u16, vqmovun_s32, vqrshlq_s32,
    vmlal_lane_s16, vget_low_s16, vget_high_s16, vaddq_s16, h_lane]
  split
  · rfl
  · rename_i h; simp only [hi h]

theorem convolve7_v_lane (s0 s1 s2 s3 s4 s5 s6 : int16x8_t) (f : int16x4_t) (rv sh mx : Int)
    (i : Fin 8) :
    highbd_wiener_convolve7_8_2d_v s0 s1 s2 s3 s4 s5 s6 f (fun _ => rv) (fun _ => sh)
      (fun _ => mx) i
    = v_lane f rv sh mx (s0 i) (s1 i) (s2 i) (s3 i) (s4 i) (s5 i) (s6 i) := by
  have hi : ∀ (h : ¬ i.1 < 4), (⟨i.1 - 4 + 4, by omega⟩ : Fin 8) = i := by
    intro h; apply Fin.ext; simp; omega
  simp only [highbd_wiener_convolve7_8_2d_v, vminq_u16, vcombine_u16, vqmovun_s32, vqrshlq_s32,
    vmlaq_lane_s32, vget_low_s16, vget_high_s16, vaddl_s16, vmovl_s16, vget_low_s32,
    vget_high_s32, v_lane]
  split
  · rfl
  · rename_i h; simp only [hi h]; rfl

theorem pos_unique (ds c0 c1 r r' c c' : Int) (hw : c1 - c0 ≤ ds)
    (hc0 : c0 ≤ c) (hc1 : c < c1) (hc0' : c0 ≤ c') (hc1' : c' < c1)
    (h : r * ds + c = r' * ds + c') : r = r' ∧ c = c' := by
  have hds : 0 < ds := by omega
  have hr : r = r' := by
    rcases lt_trichotomy r r' with hlt | heq | hgt
    · exfalso
      have : (r' - r) * ds ≥ 1 * ds := Int.mul_le_mul_of_nonneg_right (by omega) (by omega)
      have h2 : (r' - r) * ds = r' * ds - r * ds := by ring
      omega
    · exact heq
    · exfalso
      have : (r - r') * ds ≥ 1 * ds := Int.mul_le_mul_of_nonneg_right (by omega) (by omega)
      have h2 : (r - r') * ds = r * ds - r' * ds := by ring
      omega
  subst hr
  exact ⟨rfl, by omega⟩

theorem Wrote.refl_rows (out : Int → Int) (d ds : Int) (val : Int → Int → Int) (r0 c0 c1 : Int) :
    Wrote out out d ds val r0 r0 c0 c1 :=
  ⟨fun r c h0 h1 _ _ => by omega, fun _ _ => rfl⟩

theorem Wrote.refl_cols (out : Int → Int) (d ds : Int) (val : Int → Int → Int) (r0 r1 c0 : Int) :
    Wrote out out d ds val r0 r1 c0 c0 :=
  ⟨fun r c _ _ h0 h1 => by omega, fun _ _ => rfl⟩

/-- Two rectangles side by side. -/
theorem Wrote.hcat {out out1 out2 : Int → Int} {d ds : Int} {val : Int → Int → Int}
    {r0 r1 c0 c1 c2 : Int}
    (h1 : Wrote out out1 d ds val r0 r1 c0 c1) (h2 : Wrote out1 out2 d ds val r0 r1 c1 c2)
    (hc : c0 ≤ c1) (hc' : c1 ≤ c2) (hds : c2 - c0 ≤ ds) :
    Wrote out out2 d ds val r0 r1 c0 c2 := by
  refine ⟨fun r c hr0 hr1 hc0 hc2 => ?_, fun a ha => ?_⟩
  · by_cases hlt : c < c1
    · rw [h2.2, h1.1 r c hr0 hr1 hc0 hlt]
      intro r' c' _ _ hc1' hc2' heq
      have := pos_unique ds c0 c2 r r' c c' hds hc0 hc2 (by omega) hc2' (by omega)
      omega
    · exact h2.1 r c hr0 hr1 (by omega) hc2
  · rw [h2.2, h1.2]
    · intro r c hr0 hr1 hc0 hc1; exact ha r c hr0 hr1 hc0 (by omega)
    · intro r c hr0 hr1 hc0 hc1; exact ha r c hr0 hr1 (by omega) hc1

/-- Two rectangles on top of each other. -/
theorem Wrote.vcat {out out1 out2 : Int → Int} {d ds : Int} {val : Int → Int → Int}
    {r0 r1 r2 c0 c1 : Int}
    (h1 : Wrote out out1 d ds val r0 r1 c0 c1) (h2 : Wrote out1 out2 d ds val r1 r2 c0 c1)
    (hr : r0 ≤ r1) (hr' : r1 ≤ r2) (hds : c1 - c0 ≤ ds) :
    Wrote out out2 d ds val r0 r2 c0 c1 := by
  refine ⟨fun r c hr0 hr2 hc0 hc1 => ?_, fun a ha => ?_⟩
  · by_cases hlt : r < r1
    · rw [h2.2, h1.1 r c hr0 hlt hc0 hc1]
      intro r' c' hr1' _ hc0' hc1' heq
      have := pos_unique ds c0 c1 r r' c c' hds hc0 hc1 hc0' hc1' (by omega)
      omega
    · exact h2.1 r c (by omega) hr2 hc0 hc1
  · rw [h2.2, h1.2]
    · intro r c hr0 hr1 hc0 hc1; exact ha r c hr0 (by omega) hc0 hc1
    · intro r c hr0 hr1 hc0 hc1; exact ha r c (by omega) hr1 hc0 hc1

/-- One vector store writes 8 columns of one row. -/
theorem Wrote.vst1q (out : Int → Int) (d ds : Int) (val : Int → Int → Int) (r c0 p : Int)
    (v : uint16x8_t) (hp : p = d + r * ds + c0)
    (hv : ∀ i : Fin 8, v i = val r (c0 + i.1)) :
    Wrote out (vst1q_u16 out p v) d ds val r (r + 1) c0 (c0 + 8) := by
  refine ⟨fun r' c hr0 hr1 hc0 hc1 => ?_, fun a ha => ?_⟩
  · have hr : r' = r := by omega
    subst hr
    have hin : p ≤ d + r' * ds + c ∧ d + r' * ds + c < p + 8 := by omega
    simp only [vst1q_u16, hin, and_self, dite_true]
    rw [hv]
    congr 1
    simp only
    omega
  · have hout : ¬ (p ≤ a ∧ a < p + 8) := by
      intro hin
      exact ha r (c0 + (a - p)) (le_refl _) (by omega) (by omega) (by omega) (by omega)
    simp only [vst1q_u16, hout, dite_false]

theorem h_batch_lane (src : Int → Int) (f : int16x4_t) (rv sh mx s : Int) (i : Fin 8) :
    h_batch src f rv sh mx s i = hpix src f rv sh mx (s + i.1) := by
  have h0 : ((0 : Fin 7) : Nat) = 0 := rfl
  have h1 : ((1 : Fin 7) : Nat) = 1 := rfl
  have h2 : ((2 : Fin 7) : Nat) = 2 := rfl
  have h3 : ((3 : Fin 7) : Nat) = 3 := rfl
  have h4 : ((4 : Fin 7) : Nat) = 4 := rfl
  have h5 : ((5 : Fin 7) : Nat) = 5 := rfl
  have h6 : ((6 : Fin 7) : Nat) = 6 := rfl
  rw [h_batch, convolve7_h_lane]
  simp only [hpix, load_s16_8x7, vld1q_s16, h0, h1, h2, h3, h4, h5, h6]
  congr 2 <;> (congr 1; push_cast; ring)

theorem horiz_hip_row_succ (src : Int → Int) (f : int16x4_t) (rv sh mx : Int) (fuel : Nat)
    (s d width : Int) (st : Stage) :
    horiz_hip_row src f (fun _ => rv) (fun _ => sh) (fun _ => mx) (fuel + 1) s d width st =
      if width - 8 ≠ 0 then
        horiz_hip_row src f (fun _ => rv) (fun _ => sh) (fun _ => mx) fuel (s + 8) (d + 8)
          (width - 8)
          { out := vst1q_u16 st.out d (h_batch src f rv sh mx s)
            loads := st.loads ++ load_offsets 7 s 1
            stores := st.stores ++ [d] }
      else some
          { out := vst1q_u16 st.out d (h_batch src f rv sh mx s)
            loads := st.loads ++ load_offsets 7 s 1
            stores := st.stores ++ [d] } := rfl

theorem horiz_hip_row_spec (src : Int → Int) (f : int16x4_t) (rv sh mx : Int) (D ds : Int)
    (val : Int → Int → Int) (r : Int) :
    ∀ (k fuel : Nat) (s d c0 : Int) (st : Stage), k + 1 ≤ fuel → 8 * ((k : Int) + 1) ≤ ds →
      d = D + r * ds + c0 → (∀ c, val r c = hpix src f rv sh mx (s + (c - c0))) →
      ∃ st', horiz_hip_row src f (fun _ => rv) (fun _ => sh) (fun _ => mx) fuel s d
          (8 * ((k : Int) + 1)) st = some st' ∧
        Wrote st.out st'.out D ds val r (r + 1) c0 (c0 + 8 * ((k : Int) + 1)) ∧
        st'.stores = st.stores ++ (List.range (k + 1)).map (fun (j : Nat) => d + 8 * (j : Int)) ∧
        st'.loads = st.loads ++
          (List.range (k + 1)).flatMap (fun (j : Nat) => load_offsets 7 (s + 8 * (j : Int)) 1) := by
  intro k
  induction k with
  | zero =>
    intro fuel s d c0 st hf hds hd hval
    obtain ⟨fuel, rfl⟩ : ∃ n, fuel = n + 1 := ⟨fuel - 1, by omega⟩
    refine ⟨{ out := vst1q_u16 st.out d (h_batch src f rv sh mx s)
              loads := st.loads ++ load_offsets 7 s 1
              stores := st.stores ++ [d] }, by rw [horiz_hip_row_succ]; simp, ?_,
      by simp [List.range_succ], by simp [List.range_succ]⟩
    have := Wrote.vst1q st.out D ds val r c0 d (h_batch src f rv sh mx s) hd (fun i => by
      rw [h_batch_lane, hval]; congr 1; ring)
    simpa using this
  | succ k ih =>
    intro fuel s d c0 st hf hds hd hval
    obtain ⟨fuel, rfl⟩ : ∃ n, fuel = n + 1 := ⟨fuel - 1, by omega⟩
    have hne : (8 * (((k + 1 : Nat) : Int) + 1) - 8 : Int) ≠ 0 := by push_cast; omega
    have hw : (8 * (((k + 1 : Nat) : Int) + 1) - 8 : Int) = 8 * ((k : Int) + 1) := by
      push_cast; ring
    rw [horiz_hip_row_succ, if_pos hne, hw]
    obtain ⟨st', hrun, hwr, hst, hld⟩ := ih fuel (s + 8) (d + 8) (c0 + 8)
      { out := vst1q_u16 st.out d (h_batch src f rv sh mx s)
        loads := st.loads ++ load_offsets 7 s 1
        stores := st.stores ++ [d] }
      (by omega) (by push_cast at hds; omega) (by omega)
      (fun c => by rw [hval]; congr 1; ring)
    refine ⟨st', hrun, ?_, ?_, ?_⟩
    · have h1 := Wrote.vst1q st.out D ds val r c0 d (h_batch src f rv sh mx s) hd (fun i => by
        rw [h_batch_lane, hval]; congr 1; ring)
      have := Wrote.hcat h1 hwr (by omega) (by omega) (by push_cast at hds; omega)
      have e : c0 + 8 + 8 * ((k : Int) + 1) = c0 + 8 * (((k + 1 : Nat) : Int) + 1) := by
        push_cast; ring
      rw [e] at this
      exact this
    · rw [hst, List.range_succ_eq_map (k + 1)]
      simp only [List.map_cons, List.map_map, List.append_assoc, List.singleton_append,
        Nat.cast_zero, mul_zero, add_zero]
      congr 2
      apply List.map_congr_left
      intro a _
      simp only [Function.comp, Nat.succ_eq_add_one]; push_cast; ring
    · rw [hld, List.range_succ_eq_map (k + 1)]
      simp only [List.flatMap_cons, List.flatMap_map, List.append_assoc, Nat.cast_zero, mul_zero,
        add_zero]
      congr 2
      apply List.flatMap_congr
      intro a _
      simp only [Function.comp, Nat.succ_eq_add_one]; congr 1; push_cast; ring

theorem highbd_convolve_add_src_horiz_hip_succ (src : Int → Int) (ss ds w : Int)
    (f : int16x4_t) (rv sh mx : Int) (fuel : Nat) (src_ptr dst_ptr h : Int) (st : Stage) :
    highbd_convolve_add_src_horiz_hip src ss ds w f (fun _ => rv) (fun _ => sh) (fun _ => mx)
      (fuel + 1) src_ptr dst_ptr h st =
    match horiz_hip_row src f (fun _ => rv) (fun _ => sh) (fun _ => mx) (fuel + 1) src_ptr
        dst_ptr w st with
    | none => none
    | some st =>
      if h - 1 ≠ 0 then
        highbd_convolve_add_src_horiz_hip src ss ds w f (fun _ => rv) (fun _ => sh)
          (fun _ => mx) fuel (src_ptr + ss) (dst_ptr + ds) (h - 1) st
      else some st := rfl

theorem highbd_convolve_add_src_horiz_hip_spec (src : Int → Int) (f : int16x4_t)
    (rv sh mx : Int) (ss ds S D : Int) (k : Nat) (hds : 8 * ((k : Int) + 1) ≤ ds) :
    ∀ (n fuel : Nat) (src_ptr dst_ptr r0 : Int) (st : Stage), n + k + 1 ≤ fuel →
      src_ptr = S + r0 * ss → dst_ptr = D + r0 * ds →
      ∃ st', highbd_convolve_add_src_horiz_hip src ss ds (8 * ((k : Int) + 1)) f (fun _ => rv)
          (fun _ => sh) (fun _ => mx) fuel src_ptr dst_ptr ((n : Int) + 1) st = some st' ∧
        Wrote st.out st'.out D ds (fun r c => hpix src f rv sh mx (S + r * ss + c))
          r0 (r0 + ((n : Int) + 1)) 0 (8 * ((k : Int) + 1)) ∧
        st'.stores = st.stores ++ (List.range (n + 1)).flatMap (fun (i : Nat) =>
          (List.range (k + 1)).map (fun (j : Nat) => dst_ptr + (i : Int) * ds + 8 * (j : Int))) ∧
        st'.loads = st.loads ++ (List.range (n + 1)).flatMap (fun (i : Nat) =>
          (List.range (k + 1)).flatMap (fun (j : Nat) =>
            load_offsets 7 (src_ptr + (i : Int) * ss + 8 * (j : Int)) 1)) := by
  intro n
  induction n with
  | zero =>
    intro fuel src_ptr dst_ptr r0 st hf hs hd
    obtain ⟨fuel, rfl⟩ : ∃ m, fuel = m + 1 := ⟨fuel - 1, by omega⟩
    obtain ⟨st1, hrun, hwr, hst, hld⟩ := horiz_hip_row_spec src f rv sh mx D ds
      (fun r c => hpix src f rv sh mx (S + r * ss + c)) r0 k (fuel + 1) src_ptr dst_ptr 0 st
      (by omega) hds (by omega) (fun c => by simp only [hs]; congr 1; ring)
    refine ⟨st1, ?_, ?_, ?_, ?_⟩
    · rw [highbd_convolve_add_src_horiz_hip_succ, hrun]; simp
    · simpa using hwr
    · rw [hst]; simp [List.range_succ]
    · rw [hld]; simp [List.range_succ]
  | succ n ih =>
    intro fuel src_ptr dst_ptr r0 st hf hs hd
    obtain ⟨fuel, rfl⟩ : ∃ m, fuel = m + 1 := ⟨fuel - 1, by omega⟩
    obtain ⟨st1, hrun, hwr, hst, hld⟩ := horiz_hip_row_spec src f rv sh mx D ds
      (fun r c => hpix src f rv sh mx (S + r * ss + c)) r0 k (fuel + 1) src_ptr dst_ptr 0 st
      (by omega) hds (by omega) (fun c => by simp only [hs]; congr 1; ring)
    obtain ⟨st2, hrun2, hwr2, hst2, hld2⟩ := ih fuel (src_ptr + ss) (dst_ptr + ds) (r0 + 1) st1
      (by omega) (by rw [hs]; ring) (by rw [hd]; ring)
    have hne : (((n + 1 : Nat) : Int) + 1 - 1 : Int) ≠ 0 := by push_cast; omega
    have hh : (((n + 1 : Nat) : Int) + 1 - 1 : Int) = (n : Int) + 1 := by push_cast; ring
    refine ⟨st2, ?_, ?_, ?_, ?_⟩
    · rw [highbd_convolve_add_src_horiz_hip_succ, hrun]
      simp only [hne, ne_eq, not_false_eq_true, ite_true]
      rw [hh]; exact hrun2
    · simp only [zero_add] at hwr
      have := Wrote.vcat hwr hwr2 (by omega) (by omega) (by omega)
      have e : r0 + 1 + ((n : Int) + 1) = r0 + (((n + 1 : Nat) : Int) + 1) := by
        push_cast; ring
      rw [e] at this
      exact this
    · rw [hst2, hst, List.range_succ_eq_map (n + 1)]
      simp only [List.flatMap_cons, List.flatMap_map, List.append_assoc, Nat.cast_zero, zero_mul,
        add_zero]
      congr 2
      apply List.flatMap_congr
      intro a _
      apply List.map_congr_left
      intro b _
      simp only [Function.comp, Nat.succ_eq_add_one]; push_cast; ring
    · rw [hld2, hld, List.range_succ_eq_map (n + 1)]
      simp only [List.flatMap_cons, List.flatMap_map, List.append_assoc, Nat.cast_zero, zero_mul,
        add_zero]
      congr 2
      apply List.flatMap_congr
      intro a _
      apply List.flatMap_congr
      intro b _
      simp only [Function.comp, Nat.succ_eq_add_one]; congr 1; push_cast; ring

theorem v_batch_lane (im : Int → Int) (ss : Int) (f : int16x4_t) (rv sh mx p : Int) (o : Nat)
    (i : Fin 8) :
    v_batch im ss f rv sh mx p o i = vpix im ss f rv sh mx (p + (o : Int) * ss + i.1) := by
  rw [v_batch, convolve7_v_lane]
  simp only [vpix, vld1q_s16]
  congr 2 <;> (congr 1; push_cast; ring)

theorem vert_hip_rows4_succ (im : Int → Int) (ss ds : Int) (f : int16x4_t) (rv sh mx : Int)
    (fuel : Nat) (s d height : Int) (st : Stage) :
    vert_hip_rows4 im ss ds f (fun _ => rv) (fun _ => sh) (fun _ => mx) (fuel + 1) s d height st =
      if height > 3 then
        vert_hip_rows4 im ss ds f (fun _ => rv) (fun _ => sh) (fun _ => mx) fuel (s + 4 * ss)
          (d + 4 * ds) (height - 4)
          { out := store_u16_8x4 st.out d ds (v_batch im ss f rv sh mx s 0)
              (v_batch im ss f rv sh mx s 1) (v_batch im ss f rv sh mx s 2)
              (v_batch im ss f rv sh mx s 3)
            loads := st.loads ++ load_offsets 10 s ss
            stores := st.stores ++ [d, d + ds, d + 2 * ds, d + 3 * ds] }
      else some (s, d, height, st) := rfl

theorem vert_hip_rows1_succ (im : Int → Int) (ss ds : Int) (f : int16x4_t) (rv sh mx : Int)
    (fuel : Nat) (s d height : Int) (st : Stage) :
    vert_hip_rows1 im ss ds f (fun _ => rv) (fun _ => sh) (fun _ => mx) (fuel + 1) s d height st =
      if height ≠ 0 then
        vert_hip_rows1 im ss ds f (fun _ => rv) (fun _ => sh) (fun _ => mx) fuel (s + ss)
          (d + ds) (height - 1)
          { out := vst1q_u16 st.out d (v_batch im ss f rv sh mx s 0)
            loads := st.loads ++ load_offsets 7 s ss
            stores := st.stores ++ [d] }
      else some st := rfl

/-- The four stores of one step of the four-row loop. -/
theorem Wrote.store_u16_8x4 (out : Int → Int) (im : Int → Int) (ss : Int) (f : int16x4_t)
    (rv sh mx : Int) (S D ds r c0 s d : Int) (hds : 8 ≤ ds) (hs : s = S + r * ss + c0)
    (hd : d = D + r * ds + c0) :
    Wrote out (Wiener.store_u16_8x4 out d ds (v_batch im ss f rv sh mx s 0)
        (v_batch im ss f rv sh mx s 1) (v_batch im ss f rv sh mx s 2)
        (v_batch im ss f rv sh mx s 3)) D ds
      (fun r c => vpix im ss f rv sh mx (S + r * ss + c)) r (r + 4) c0 (c0 + 8) := by
  have h0 := Wrote.vst1q out D ds (fun r c => vpix im ss f rv sh mx (S + r * ss + c)) r c0 d
    (v_batch im ss f rv sh mx s 0) hd
    (fun i => by rw [v_batch_lane, hs]; congr 1; push_cast; ring)
  have h1 := Wrote.vst1q (vst1q_u16 out d (v_batch im ss f rv sh mx s 0)) D ds
    (fun r c => vpix im ss f rv sh mx (S + r * ss + c)) (r + 1) c0 (d + ds)
    (v_batch im ss f rv sh mx s 1) (by rw [hd]; ring)
    (fun i => by rw [v_batch_lane, hs]; congr 1; push_cast; ring)
  have h2 := Wrote.vst1q (vst1q_u16 (vst1q_u16 out d (v_batch im ss f rv sh mx s 0)) (d + ds)
      (v_batch im ss f rv sh mx s 1)) D ds
    (fun r c => vpix im ss f rv sh mx (S + r * ss + c)) (r + 1 + 1) c0 (d + 2 * ds)
    (v_batch im ss f rv sh mx s 2) (by rw [hd]; ring)
    (fun i => by rw [v_batch_lane, hs]; congr 1; push_cast; ring)
  have h3 := Wrote.vst1q (vst1q_u16 (vst1q_u16 (vst1q_u16 out d (v_batch im ss f rv sh mx s 0))
      (d + ds) (v_batch im ss f rv sh mx s 1)) (d + 2 * ds) (v_batch im ss f rv sh mx s 2)) D ds
    (fun r c => vpix im ss f rv sh mx (S + r * ss + c)) (r + 1 + 1 + 1) c0 (d + 3 * ds)
    (v_batch im ss f rv sh mx s 3) (by rw [hd]; ring)
    (fun i => by rw [v_batch_lane, hs]; congr 1; push_cast; ring)
  have h01 := Wrote.vcat h0 h1 (by omega) (by omega) (by omega)
  have h012 := Wrote.vcat h01 h2 (by omega) (by omega) (by omega)
  have h := Wrote.vcat h012 h3 (by omega) (by omega) (by omega)
  have e : r + 1 + 1 + 1 + 1 = r + 4 := by ring
  rw [e] at h
  exact h

theorem vert_hip_rows4_spec (im : Int → Int) (f : int16x4_t) (rv sh mx : Int)
    (ss ds S D c0 : Int) (t : Int) (ht0 : 0 ≤ t) (ht : t ≤ 3) :
    ∀ (q fuel : Nat) (s d r0 : Int) (st : Stage), q + 1 ≤ fuel →
      s = S + r0 * ss + c0 → d = D + r0 * ds + c0 →
      ∃ st', vert_hip_rows4 im ss ds f (fun _ => rv) (fun _ => sh) (fun _ => mx) fuel s d
          (4 * (q : Int) + t) st
          = some (s + 4 * (q : Int) * ss, d + 4 * (q : Int) * ds, t, st') ∧
        (8 ≤ ds → Wrote st.out st'.out D ds (fun r c => vpix im ss f rv sh mx (S + r * ss + c))
          r0 (r0 + 4 * (q : Int)) c0 (c0 + 8)) ∧
        st'.stores = st.stores ++ (List.range (4 * q)).map (fun (i : Nat) => d + (i : Int) * ds) ∧
        st'.loads = st.loads ++ (List.range q).flatMap (fun (i : Nat) =>
          load_offsets 10 (s + 4 * (i : Int) * ss) ss) := by
  intro q
  induction q with
  | zero =>
    intro fuel s d r0 st hf hs hd
    obtain ⟨fuel, rfl⟩ : ∃ m, fuel = m + 1 := ⟨fuel - 1, by omega⟩
    refine ⟨st, ?_, fun _ => ?_, by simp, by simp⟩
    · rw [vert_hip_rows4_succ, if_neg (by push_cast; omega)]; simp
    · simpa using Wrote.refl_rows st.out D ds _ r0 c0 (c0 + 8)
  | succ q ih =>
    intro fuel s d r0 st hf hs hd
    obtain ⟨fuel, rfl⟩ : ∃ m, fuel = m + 1 := ⟨fuel - 1, by omega⟩
    obtain ⟨st2, hrun2, hwr2, hst2, hld2⟩ := ih fuel (s + 4 * ss) (d + 4 * ds) (r0 + 4)
      { out := Wiener.store_u16_8x4 st.out d ds (v_batch im ss f rv sh mx s 0)
          (v_batch im ss f rv sh mx s 1) (v_batch im ss f rv sh mx s 2)
          (v_batch im ss f rv sh mx s 3)
        loads := st.loads ++ load_offsets 10 s ss
        stores := st.stores ++ [d, d + ds, d + 2 * ds, d + 3 * ds] }
      (by omega) (by rw [hs]; ring) (by rw [hd]; ring)
    have hh : (4 * ((q + 1 : Nat) : Int) + t - 4 : Int) = 4 * (q : Int) + t := by
      push_cast; ring
    refine ⟨st2, ?_, fun hds => ?_, ?_, ?_⟩
    · rw [vert_hip_rows4_succ, if_pos (by push_cast; omega), hh, hrun2]
      congr 2
      · push_cast; ring
      · congr 1; push_cast; ring
    · have hw := Wrote.store_u16_8x4 st.out im ss f rv sh mx S D ds r0 c0 s d hds hs hd
      have := Wrote.vcat hw (hwr2 hds) (by omega) (by omega) (by omega)
      have e : r0 + 4 + 4 * (q : Int) = r0 + 4 * ((q + 1 : Nat) : Int) := by push_cast; ring
      rw [e] at this
      exact this
    · rw [hst2]
      have e4 : 4 * (q + 1) = 4 + 4 * q := by ring
      rw [e4, List.range_add]
      simp only [List.map_append, List.map_map, List.append_assoc]
      congr 1
      congr 1
      · simp [List.range_succ]
      · apply List.map_congr_left
        intro a _
        simp only [Function.comp]; push_cast; ring
    · rw [hld2, List.range_succ_eq_map q]
      simp only [List.flatMap_cons, List.flatMap_map, List.append_assoc, Nat.cast_zero, mul_zero,
        zero_mul, add_zero]
      congr 2
      apply List.flatMap_congr
      intro a _
      simp only [Function.comp, Nat.succ_eq_add_one]; congr 1; push_cast; ring

theorem vert_hip_rows1_spec (im : Int → Int) (f : int16x4_t) (rv sh mx : Int)
    (ss ds S D c0 : Int) :
    ∀ (t fuel : Nat) (s d r0 : Int) (st : Stage), t + 1 ≤ fuel →
      s = S + r0 * ss + c0 → d = D + r0 * ds + c0 →
      ∃ st', vert_hip_rows1 im ss ds f (fun _ => rv) (fun _ => sh) (fun _ => mx) fuel s d
          (t : Int) st = some st' ∧
        (8 ≤ ds → Wrote st.out st'.out D ds (fun r c => vpix im ss f rv sh mx (S + r * ss + c))
          r0 (r0 + (t : Int)) c0 (c0 + 8)) ∧
        st'.stores = st.stores ++ (List.range t).map (fun (i : Nat) => d + (i : Int) * ds) ∧
        st'.loads = st.loads ++ (List.range t).flatMap (fun (i : Nat) =>
          load_offsets 7 (s + (i : Int) * ss) ss) := by
  intro t
  induction t with
  | zero =>
    intro fuel s d r0 st hf hs hd
    obtain ⟨fuel, rfl⟩ : ∃ m, fuel = m + 1 := ⟨fuel - 1, by omega⟩
    refine ⟨st, ?_, fun _ => ?_, by simp, by simp⟩
    · rw [vert_hip_rows1_succ]; simp
    · simpa using Wrote.refl_rows st.out D ds _ r0 c0 (c0 + 8)
  | succ t ih =>
    intro fuel s d r0 st hf hs hd
    obtain ⟨fuel, rfl⟩ : ∃ m, fuel = m + 1 := ⟨fuel - 1, by omega⟩
    have hw := Wrote.vst1q st.out D ds (fun r c => vpix im ss f rv sh mx (S + r * ss + c)) r0 c0 d
      (v_batch im ss f rv sh mx s 0) hd
      (fun i => by rw [v_batch_lane, hs]; congr 1; push_cast; ring)
    obtain ⟨st2, hrun2, hwr2, hst2, hld2⟩ := ih fuel (s + ss) (d + ds) (r0 + 1)
      { out := vst1q_u16 st.out d (v_batch im ss f rv sh mx s 0)
        loads := st.loads ++ load_offsets 7 s ss
        stores := st.stores ++ [d] }
      (by omega) (by rw [hs]; ring) (by rw [hd]; ring)
    have hh : (((t + 1 : Nat) : Int) - 1 : Int) = (t : Int) := by push_cast; ring
    refine ⟨st2, ?_, fun hds => ?_, ?_, ?_⟩
    · rw [vert_hip_rows1_succ, if_pos (by push_cast; omega), hh, hrun2]
    · have := Wrote.vcat hw (hwr2 hds) (by omega) (by omega) (by omega)
      have e : r0 + 1 + (t : Int) = r0 + ((t + 1 : Nat) : Int) := by push_cast; ring
      rw [e] at this
      exact this
    · rw [hst2, List.range_succ_eq_map t]
      simp only [List.map_cons, List.map_map, List.append_assoc, List.singleton_append,
        Nat.cast_zero, zero_mul, add_zero]
      congr 2
      apply List.map_congr_left
      intro a _
      simp only [Function.comp, Nat.succ_eq_add_one]; push_cast; ring
    · rw [hld2, List.range_succ_eq_map t]
      simp only [List.flatMap_cons, List.flatMap_map, List.append_assoc, Nat.cast_zero, zero_mul,
        add_zero]
      congr 2
      apply List.flatMap_congr
      intro a _
      simp only [Function.comp, Nat.succ_eq_add_one]; congr 1; push_cast; ring

/-- One strip of 8 columns: the four-row loop followed by the one-row loop. -/
theorem vert_hip_strip_spec (im : Int → Int) (f : int16x4_t) (rv sh mx : Int)
    (ss ds S D c0 : Int) (h fuel : Nat) (s d : Int) (st : Stage)
    (hf : h / 4 + 4 ≤ fuel) (hs : s = S + c0) (hd : d = D + c0) :
    ∃ s1 d1 t1 st1 st',
      vert_hip_rows4 im ss ds f (fun _ => rv) (fun _ => sh) (fun _ => mx) fuel s d (h : Int) st
        = some (s1, d1, t1, st1) ∧
      vert_hip_rows1 im ss ds f (fun _ => rv) (fun _ => sh) (fun _ => mx) fuel s1 d1 t1 st1
        = some st' ∧
      (8 ≤ ds → Wrote st.out st'.out D ds (fun r c => vpix im ss f rv sh mx (S + r * ss + c))
        0 (h : Int) c0 (c0 + 8)) ∧
      st'.stores = st.stores ++ (List.range h).map (fun (i : Nat) => d + (i : Int) * ds) ∧
      st'.loads = st.loads ++ strip_loads h s ss := by
  have hh : (h : Int) = 4 * ((h / 4 : Nat) : Int) + ((h % 4 : Nat) : Int) := by omega
  obtain ⟨st1, hrun1, hwr1, hst1, hld1⟩ := vert_hip_rows4_spec im f rv sh mx ss ds S D c0
    ((h % 4 : Nat) : Int) (by omega) (by omega) (h / 4) fuel s d 0 st (by omega)
    (by rw [hs]; ring) (by rw [hd]; ring)
  obtain ⟨st2, hrun2, hwr2, hst2, hld2⟩ := vert_hip_rows1_spec im f rv sh mx ss ds S D c0
    (h % 4) fuel (s + 4 * ((h / 4 : Nat) : Int) * ss) (d + 4 * ((h / 4 : Nat) : Int) * ds)
    (0 + 4 * ((h / 4 : Nat) : Int)) st1 (by omega)
    (by rw [hs]; ring) (by rw [hd]; ring)
  refine ⟨_, _, _, st1, st2, ?_, hrun2, fun hds => ?_, ?_, ?_⟩
  · rw [hh]; exact hrun1
  · have := Wrote.vcat (hwr1 hds) (hwr2 hds) (by omega) (by omega) (by omega)
    have e : 0 + 4 * ((h / 4 : Nat) : Int) + ((h % 4 : Nat) : Int) = (h : Int) := by omega
    rw [e] at this
    exact this
  · rw [hst2, hst1]
    have e : h = 4 * (h / 4) + h % 4 := by omega
    conv_rhs => rw [e, List.range_add]
    simp only [List.map_append, List.map_map, List.append_assoc]
    congr 2
    apply List.map_congr_left
    intro a _
    simp only [Function.comp]; push_cast; ring
  · rw [hld2, hld1, strip_loads, List.append_assoc]

theorem highbd_convolve_add_src_vert_hip_succ (im : Int → Int) (ss ds h : Int)
    (f : int16x4_t) (rv sh mx : Int) (fuel : Nat) (src_ptr dst_ptr w : Int) (st : Stage) :
    highbd_convolve_add_src_vert_hip im ss ds h f (fun _ => rv) (fun _ => sh) (fun _ => mx)
      (fuel + 1) src_ptr dst_ptr w st =
    match vert_hip_rows4 im ss ds f (fun _ => rv) (fun _ => sh) (fun _ => mx) (fuel + 1)
        src_ptr dst_ptr h st with
    | none => none
    | some (s, d, height, st) =>
      match vert_hip_rows1 im ss ds f (fun _ => rv) (fun _ => sh) (fun _ => mx) (fuel + 1)
          s d height st with
      | none => none
      | some st =>
        if w - 8 ≠ 0 then
          highbd_convolve_add_src_vert_hip im ss ds h f (fun _ => rv) (fun _ => sh)
            (fun _ => mx) fuel (src_ptr + 8) (dst_ptr + 8) (w - 8) st
        else some st := rfl

theorem highbd_convolve_add_src_vert_hip_spec (im : Int → Int) (f : int16x4_t)
    (rv sh mx : Int) (ss ds S D : Int) (h : Nat) :
    ∀ (k fuel : Nat) (src_ptr dst_ptr c0 : Int) (st : Stage), k + h / 4 + 4 ≤ fuel →
      src_ptr = S + c0 → dst_ptr = D + c0 →
      ∃ st', highbd_convolve_add_src_vert_hip im ss ds (h : Int) f (fun _ => rv)
          (fun _ => sh) (fun _ => mx) fuel src_ptr dst_ptr (8 * ((k : Int) + 1)) st = some st' ∧
        (8 * ((k : Int) + 1) ≤ ds →
          Wrote st.out st'.out D ds (fun r c => vpix im ss f rv sh mx (S + r * ss + c))
            0 (h : Int) c0 (c0 + 8 * ((k : Int) + 1))) ∧
        st'.stores = st.stores ++ (List.range (k + 1)).flatMap (fun (j : Nat) =>
          (List.range h).map (fun (i : Nat) => dst_ptr + 8 * (j : Int) + (i : Int) * ds)) ∧
        st'.loads = st.loads ++ (List.range (k + 1)).flatMap (fun (j : Nat) =>
          strip_loads h (src_ptr + 8 * (j : Int)) ss) := by
  intro k
  induction k with
  | zero =>
    intro fuel src_ptr dst_ptr c0 st hf hs hd
    obtain ⟨fuel, rfl⟩ : ∃ m, fuel = m + 1 := ⟨fuel - 1, by omega⟩
    obtain ⟨s1, d1, t1, st1, st2, hrun1, hrun2, hwr, hst, hld⟩ :=
      vert_hip_strip_spec im f rv sh mx ss ds S D c0 h (fuel + 1) src_ptr dst_ptr st
        (by omega) hs hd
    refine ⟨st2, ?_, fun hds => ?_, ?_, ?_⟩
    · rw [highbd_convolve_add_src_vert_hip_succ, hrun1]
      simp only [hrun2]
      simp
    · simpa using hwr (by omega)
    · rw [hst]; simp [List.range_succ]
    · rw [hld]; simp [List.range_succ]
  | succ k ih =>
    intro fuel src_ptr dst_ptr c0 st hf hs hd
    obtain ⟨fuel, rfl⟩ : ∃ m, fuel = m + 1 := ⟨fuel - 1, by omega⟩
    obtain ⟨s1, d1, t1, st1, st2, hrun1, hrun2, hwr, hst, hld⟩ :=
      vert_hip_strip_spec im f rv sh mx ss ds S D c0 h (fuel + 1) src_ptr dst_ptr st
        (by omega) hs hd
    obtain ⟨st3, hrun3, hwr3, hst3, hld3⟩ := ih fuel (src_ptr + 8) (dst_ptr + 8) (c0 + 8) st2
      (by omega) (by rw [hs]; ring) (by rw [hd]; ring)
    have hne : (8 * (((k + 1 : Nat) : Int) + 1) - 8 : Int) ≠ 0 := by push_cast; omega
    have hw : (8 * (((k + 1 : Nat) : Int) + 1) - 8 : Int) = 8 * ((k : Int) + 1) := by
      push_cast; ring
    refine ⟨st3, ?_, fun hds => ?_, ?_, ?_⟩
    · rw [highbd_convolve_add_src_vert_hip_succ, hrun1]
      simp only [hrun2, hne, ne_eq, not_false_eq_true, ite_true]
      rw [hw]; exact hrun3
    · push_cast at hds
      have := Wrote.hcat (hwr (by omega)) (hwr3 (by omega)) (by omega) (by omega) (by omega)
      have e : c0 + 8 + 8 * ((k : Int) + 1) = c0 + 8 * (((k + 1 : Nat) : Int) + 1) := by
        push_cast; ring
      rw [e] at this
      exact this
    · rw [hst3, hst, List.range_succ_eq_map (k + 1)]
      simp only [List.flatMap_cons, List.flatMap_map, List.append_assoc, Nat.cast_zero, mul_zero,
        add_zero]
      congr 2
      apply List.flatMap_congr
      intro a _
      apply List.map_congr_left
      intro b _
      simp only [Function.comp, Nat.succ_eq_add_one]; push_cast; ring
    · rw [hld3, hld, List.range_succ_eq_map (k + 1)]
      simp only [List.flatMap_cons, List.flatMap_map, List.append_assoc, Nat.cast_zero, mul_zero,
        add_zero]
      congr 2
      apply List.flatMap_congr
      intro a _
      simp only [Function.comp, Nat.succ_eq_add_one]; congr 1; push_cast; ring

/-- A call with a valid geometry returns, and this is what it leaves behind. -/
theorem neon_returns (lim : Nat → Nat → Int) (fuel : Nat) (im0 src : Int → Int) (ss : Int)
    (dst : Int → Int) (ds : Int) (x_filter y_filter : Fin 8 → Int) (cp : WienerConvolveParams)
    (bd : Nat) (k h : Nat) (hk : k + 1 ≤ 16) (hh : h ≤ 128)
    (hx : x_filter 7 = 0) (hy : y_filter 7 = 0) (hf : k + h + 7 ≤ fuel) :
    ∃ m, av1_highbd_wiener_convolve_add_src_neon lim fuel im0 src ss dst ds x_filter 16
        y_filter 16 (8 * ((k : Int) + 1)) (h : Int) cp bd = .returned m ∧
      Wrote im0 m.im_block 0 128 (im_pixel lim src ss x_filter cp bd) 0 ((h : Int) + 6) 0
        (8 * ((k : Int) + 1)) ∧
      (8 * ((k : Int) + 1) ≤ ds →
        Wrote dst m.dst 0 ds (dst_pixel lim src ss x_filter y_filter cp bd) 0 (h : Int) 0
          (8 * ((k : Int) + 1))) ∧
      m.im_stores = (List.range (h + 6)).flatMap (fun (i : Nat) =>
        (List.range (k + 1)).map (fun (j : Nat) => (i : Int) * 128 + 8 * (j : Int))) ∧
      m.src_loads = (List.range (h + 6)).flatMap (fun (i : Nat) =>
        (List.range (k + 1)).flatMap (fun (j : Nat) =>
          load_offsets 7 (-3 - 3 * ss + (i : Int) * ss + 8 * (j : Int)) 1)) ∧
      m.dst_stores = (List.range (k + 1)).flatMap (fun (j : Nat) =>
        (List.range h).map (fun (i : Nat) => 8 * (j : Int) + (i : Int) * ds)) ∧
      m.im_loads = (List.range (k + 1)).flatMap (fun (j : Nat) =>
        strip_loads h (8 * (j : Int)) 128) := by
  obtain ⟨im, hrun1, hwr1, hst1, hld1⟩ := highbd_convolve_add_src_horiz_hip_spec src
    (filter_s16 x_filter) (horiz_round bd) (horiz_shift cp) (im_max (lim cp.round_0 bd))
    ss 128 (-3 - 3 * ss) 0 k (by omega) (h + 5) fuel (0 - WIENER_HALFWIN - WIENER_HALFWIN * ss)
    0 0 { out := im0, loads := [], stores := [] } (by omega)
    (by simp only [WIENER_HALFWIN]; ring) (by ring)
  obtain ⟨out, hrun2, hwr2, hst2, hld2⟩ := highbd_convolve_add_src_vert_hip_spec im.out
    (filter_s16 y_filter) (vert_round cp bd) (vert_shift cp) (res_max bd) 128 ds 0 0 h k fuel
    0 0 0 { out := dst, loads := [], stores := [] } (by omega) (by ring) (by ring)
  have hh6 : (h : Int) + WIENER_WIN - 1 = ((h + 5 : Nat) : Int) + 1 := by
    simp only [WIENER_WIN]; push_cast; ring
  have e6 : (0 : Int) + (((h + 5 : Nat) : Int) + 1) = (h : Int) + 6 := by push_cast; ring
  rw [e6] at hwr1
  rw [zero_add] at hwr2
  have him : ∀ i c : Int, hpix src (filter_s16 x_filter) (horiz_round bd) (horiz_shift cp)
      (im_max (lim cp.round_0 bd)) (-3 - 3 * ss + i * ss + c)
      = im_pixel lim src ss x_filter cp bd i c := by
    intro i c
    simp only [hpix, im_pixel]
    congr 2 <;> (congr 1; ring)
  have hwr1' : Wrote im0 im.out 0 128 (im_pixel lim src ss x_filter cp bd) 0 ((h : Int) + 6) 0
      (8 * ((k : Int) + 1)) := by
    refine ⟨fun r c h0 h1 h2 h3 => ?_, hwr1.2⟩
    rw [hwr1.1 r c h0 h1 h2 h3]; exact him r c
  refine ⟨{ dst := out.out, im_block := im.out, src_loads := im.loads, im_stores := im.stores,
            im_loads := out.loads, dst_stores := out.stores }, ?_, hwr1', fun hds => ?_, ?_, ?_,
    ?_, ?_⟩
  · have hmod : Int.tmod (8 * ((k : Int) + 1)) 8 = 0 := by simp
    have hwle : (8 * ((k : Int) + 1) ≤ MAX_SB_SIZE ∧ (h : Int) ≤ MAX_SB_SIZE) := by
      simp only [MAX_SB_SIZE]; omega
    have hdup : ∀ x, vdupq_n_s32 x = fun _ => wrap32 x := fun _ => rfl
    have hdupu : ∀ x, vdupq_n_u16 x = fun _ => x % 65536 := fun _ => rfl
    simp only [av1_highbd_wiener_convolve_add_src_neon, hmod, hwle, hx, hy, not_true_eq_false,
      and_self, ite_false, hdup, hdupu]
    simp only [hh6]
    have hrun1' := hrun1
    simp only [filter_s16, horiz_round, horiz_shift, im_max] at hrun1'
    simp only [MAX_SB_SIZE]
    rw [hrun1']
    have hrun2' := hrun2
    simp only [filter_s16, vert_round, vert_shift, res_max] at hrun2'
    simp only [hrun2']
  · refine ⟨fun r c h0 h1 h2 h3 => ?_, (hwr2 hds).2⟩
    show out.out (0 + r * ds + c) = _
    rw [(hwr2 hds).1 r c h0 h1 h2 h3]
    simp only [vpix, dst_pixel]
    have e : ∀ j : Int, 0 ≤ j → j ≤ 6 → im.out (0 + r * 128 + c + j * 128)
        = im_pixel lim src ss x_filter cp bd (r + j) c := by
      intro j hj0 hj6
      have := hwr1'.1 (r + j) c (by omega) (by omega) h2 h3
      rw [← this]; congr 1; ring
    have e0 := e 0 (by omega) (by omega)
    have e1 := e 1 (by omega) (by omega)
    have e2 := e 2 (by omega) (by omega)
    have e3 := e 3 (by omega) (by omega)
    have e4 := e 4 (by omega) (by omega)
    have e5 := e 5 (by omega) (by omega)
    have e6 := e 6 (by omega) (by omega)
    simp only [zero_mul, add_zero, one_mul] at e0 e1
    rw [e0, e1, e2, e3, e4, e5, e6]
  · show im.stores = _
    rw [hst1]
    simp
  · show im.loads = _
    rw [hld1]
    simp only [List.nil_append, WIENER_HALFWIN]
    apply List.flatMap_congr
    intro a _
    apply List.flatMap_congr
    intro b _
    congr 1
  · show out.stores = _
    rw [hst2]; simp
  · show out.loads = _
    rw [hld2]; simp

theorem mul_bound (a f A F : Int) (ha : -A ≤ a) (ha' : a ≤ A) (hf : -F ≤ f) (hf' : f ≤ F) :
    -(A * F) ≤ a * f ∧ a * f ≤ A * F := by
  have h1 : |a * f| ≤ A * F := by
    rw [abs_mul]
    exact mul_le_mul (abs_le.mpr ⟨ha, ha'⟩) (abs_le.mpr ⟨hf, hf'⟩) (abs_nonneg _) (by omega)
  exact ⟨by have := neg_abs_le (a * f); omega, by have := le_abs_self (a * f); omega⟩

theorem wrap16_eq (x : Int) (h0 : -32768 ≤ x) (h1 : x ≤ 32767) : wrap16 x = x := by
  unfold wrap16; omega

theorem wrap32_eq (x : Int) (h0 : -2147483648 ≤ x) (h1 : x ≤ 2147483647) : wrap32 x = x := by
  unfold wrap32; omega

/-- The accumulation of either kernel does not wrap when the four products
and the rounding term are small enough. -/
theorem acc_exact (rv a0 a1 a2 a3 f0 f1 f2 f3 : Int)
    (hrv : -1073741824 ≤ rv ∧ rv ≤ 1073741824)
    (h0 : -(65534 * 1024) ≤ a0 * f0 ∧ a0 * f0 ≤ 65534 * 1024)
    (h1 : -(65534 * 1024) ≤ a1 * f1 ∧ a1 * f1 ≤ 65534 * 1024)
    (h2 : -(65534 * 1024) ≤ a2 * f2 ∧ a2 * f2 ≤ 65534 * 1024)
    (h3 : -(65534 * 1024) ≤ a3 * f3 ∧ a3 * f3 ≤ 65534 * 1024) :
    wrap32 (wrap32 (wrap32 (wrap32 (rv + a0 * f0) + a1 * f1) + a2 * f2) + a3 * f3)
      = rv + a0 * f0 + a1 * f1 + a2 * f2 + a3 * f3 := by
  rw [wrap32_eq (rv + a0 * f0) (by omega) (by omega),
    wrap32_eq (rv + a0 * f0 + a1 * f1) (by omega) (by omega),
    wrap32_eq (rv + a0 * f0 + a1 * f1 + a2 * f2) (by omega) (by omega),
    wrap32_eq (rv + a0 * f0 + a1 * f1 + a2 * f2 + a3 * f3) (by omega) (by omega)]

theorem clamp_sqrshl (x mx : Int) (r : Nat) (hr : 1 ≤ r) (hr' : r ≤ 128) (hmx0 : 0 ≤ mx)
    (hmx : mx ≤ 65535) :
    min (usat16 (sqrshl32 x (-(r : Int)))) mx = min mx (max 0 ((x + 2 ^ (r - 1)) / 2 ^ r)) := by
  have h2 : wrap8 (-(r : Int)) = -(r : Int) := by unfold wrap8; omega
  have h3 : ¬ (0 ≤ -(r : Int)) := by omega
  simp only [sqrshl32, h2, h3, if_false, neg_neg, Int.toNat_ofNat, usat16, sat32]
  generalize (x + 2 ^ (r - 1)) / 2 ^ r = y
  omega

/-- One lane of the horizontal kernel is the horizontal per-sample formula. -/
theorem h_lane_exact (bd r0 : Nat) (clamp t0 t1 t2 t3 s0 s1 s2 s3 s4 s5 s6 : Int)
    (hbd : bd + 6 ≤ 30) (hr : 1 ≤ r0) (hr' : r0 ≤ 128) (hc : 1 ≤ clamp) (hc' : clamp ≤ 65536)
    (ht0 : -1024 ≤ t0 ∧ t0 ≤ 1024) (ht1 : -1024 ≤ t1 ∧ t1 ≤ 1024)
    (ht2 : -1024 ≤ t2 ∧ t2 ≤ 1024) (ht3 : -1024 ≤ t3 + 128 ∧ t3 + 128 ≤ 1024)
    (hs0 : 0 ≤ s0 ∧ s0 ≤ 16383) (hs1 : 0 ≤ s1 ∧ s1 ≤ 16383) (hs2 : 0 ≤ s2 ∧ s2 ≤ 16383)
    (hs3 : 0 ≤ s3 ∧ s3 ≤ 16383) (hs4 : 0 ≤ s4 ∧ s4 ≤ 16383) (hs5 : 0 ≤ s5 ∧ s5 ≤ 16383)
    (hs6 : 0 ≤ s6 ∧ s6 ≤ 16383) (f : int16x4_t) (hf0 : f 0 = t0) (hf1 : f 1 = t1)
    (hf2 : f 2 = t2) (hf3 : f 3 = t3 + 128) :
    h_lane f (2 ^ (bd + 6)) (-(r0 : Int)) (clamp - 1) s0 s1 s2 s3 s4 s5 s6
      = H_formula bd r0 clamp t0 t1 t2 t3 s0 s1 s2 s3 s4 s5 s6 := by
  have hp : (2 : Int) ^ (bd + 6) ≤ 2 ^ 30 := pow_le_pow_right₀ (by norm_num) hbd
  have hp0 : (0 : Int) < 2 ^ (bd + 6) := by positivity
  have b0 := mul_bound (s0 + s6) t0 65534 1024 (by omega) (by omega) ht0.1 ht0.2
  have b1 := mul_bound (s1 + s5) t1 65534 1024 (by omega) (by omega) ht1.1 ht1.2
  have b2 := mul_bound (s2 + s4) t2 65534 1024 (by omega) (by omega) ht2.1 ht2.2
  have b3 := mul_bound s3 (t3 + 128) 65534 1024 (by omega) (by omega) ht3.1 ht3.2
  simp only [h_lane, hf0, hf1, hf2, hf3]
  rw [wrap16_eq (s0 + s6) (by omega) (by omega), wrap16_eq (s1 + s5) (by omega) (by omega),
    wrap16_eq (s2 + s4) (by omega) (by omega),
    acc_exact _ _ _ _ _ _ _ _ _ (by norm_num at hp; omega) b0 b1 b2 b3,
    clamp_sqrshl _ _ r0 hr hr' (by omega) (by omega)]
  simp only [H_formula, wiener_acc]
  congr 4
  ring

/-- One lane of the vertical kernel is the vertical per-sample formula. -/
theorem v_lane_exact (bd r1 : Nat) (t0 t1 t2 t3 s0 s1 s2 s3 s4 s5 s6 : Int)
    (hbd : bd ≤ 16) (hr : 1 ≤ r1) (hbr : bd + r1 ≤ 31)
    (ht0 : -1024 ≤ t0 ∧ t0 ≤ 1024) (ht1 : -1024 ≤ t1 ∧ t1 ≤ 1024)
    (ht2 : -1024 ≤ t2 ∧ t2 ≤ 1024) (ht3 : -1024 ≤ t3 + 128 ∧ t3 + 128 ≤ 1024)
    (hs0 : 0 ≤ s0 ∧ s0 ≤ 32767) (hs1 : 0 ≤ s1 ∧ s1 ≤ 32767) (hs2 : 0 ≤ s2 ∧ s2 ≤ 32767)
    (hs3 : 0 ≤ s3 ∧ s3 ≤ 32767) (hs4 : 0 ≤ s4 ∧ s4 ≤ 32767) (hs5 : 0 ≤ s5 ∧ s5 ≤ 32767)
    (hs6 : 0 ≤ s6 ∧ s6 ≤ 32767) (f : int16x4_t) (hf0 : f 0 = t0) (hf1 : f 1 = t1)
    (hf2 : f 2 = t2) (hf3 : f 3 = t3 + 128) :
    v_lane f (-(2 ^ (bd + r1 - 1))) (-(r1 : Int)) (2 ^ bd - 1) s0 s1 s2 s3 s4 s5 s6
      = V_formula bd r1 t0 t1 t2 t3 s0 s1 s2 s3 s4 s5 s6 := by
  have hp : (2 : Int) ^ (bd + r1 - 1) ≤ 2 ^ 30 := pow_le_pow_right₀ (by norm_num) (by omega)
  have hp0 : (0 : Int) < 2 ^ (bd + r1 - 1) := by positivity
  have hq : (2 : Int) ^ bd ≤ 2 ^ 16 := pow_le_pow_right₀ (by norm_num) hbd
  have hq0 : (0 : Int) < 2 ^ bd := by positivity
  have b0 := mul_bound (s0 + s6) t0 65534 1024 (by omega) (by omega) ht0.1 ht0.2
  have b1 := mul_bound (s1 + s5) t1 65534 1024 (by omega) (by omega) ht1.1 ht1.2
  have b2 := mul_bound (s2 + s4) t2 65534 1024 (by omega) (by omega) ht2.1 ht2.2
  have b3 := mul_bound s3 (t3 + 128) 65534 1024 (by omega) (by omega) ht3.1 ht3.2
  simp only [v_lane, hf0, hf1, hf2, hf3]
  rw [acc_exact _ _ _ _ _ _ _ _ _ (by norm_num at hp; omega) b0 b1 b2 b3,
    clamp_sqrshl _ _ r1 hr (by omega) (by omega) (by norm_num at hq; omega)]
  simp only [V_formula, wiener_acc]
  congr 4
  ring

theorem vcreate_bias (i : Fin 4) : vcreate_s16 (128 * 2 ^ 48) i = if i = 3 then 128 else 0 := by
  fin_cases i <;> simp [vcreate_s16, wrap16]

theorem filter_s16_apply (filter : Fin 8 → Int) :
    filter_s16 filter 0 = wrap16 (filter 0) ∧ filter_s16 filter 1 = wrap16 (filter 1) ∧
    filter_s16 filter 2 = wrap16 (filter 2) ∧ filter_s16 filter 3 = wrap16 (filter 3 + 128) := by
  simp only [filter_s16, vadd_s16, vcreate_bias, vld1_s16]
  refine ⟨by simp, by simp, by simp, ?_⟩
  simp only [Fin.isValue, if_true]
  rfl

theorem shl_int_one (n : Nat) (hn : n ≤ 30) : shl_int 1 n = 2 ^ n := by
  have hp : (2 : Int) ^ n ≤ 2 ^ 30 := pow_le_pow_right₀ (by norm_num) hn
  have hp0 : (0 : Int) < 2 ^ n := by positivity
  rw [shl_int, one_mul]
  exact wrap32_eq _ (by omega) (by norm_num at hp; omega)

theorem horiz_round_eq (bd : Nat) (hbd : bd ≤ 24) : horiz_round bd = 2 ^ (bd + 6) := by
  have hp : (2 : Int) ^ (bd + 6) ≤ 2 ^ 30 := pow_le_pow_right₀ (by norm_num) (by omega)
  have hp0 : (0 : Int) < 2 ^ (bd + 6) := by positivity
  have e : bd + FILTER_BITS - 1 = bd + 6 := by simp [FILTER_BITS]
  rw [horiz_round, e, shl_int_one _ (by omega)]
  exact wrap32_eq _ (by omega) (by norm_num at hp; omega)

theorem vert_round_eq (cp : WienerConvolveParams) (bd : Nat) (h : bd + cp.round_1 ≤ 31) :
    vert_round cp bd = -(2 ^ (bd + cp.round_1 - 1)) := by
  have hp : (2 : Int) ^ (bd + cp.round_1 - 1) ≤ 2 ^ 30 :=
    pow_le_pow_right₀ (by norm_num) (by omega)
  have hp0 : (0 : Int) < 2 ^ (bd + cp.round_1 - 1) := by positivity
  rw [vert_round, shl_int_one _ (by omega)]
  exact wrap32_eq _ (by norm_num at hp; omega) (by omega)

theorem res_max_eq (bd : Nat) (hbd : bd ≤ 16) : res_max bd = 2 ^ bd - 1 := by
  have hp : (2 : Int) ^ bd ≤ 2 ^ 16 := pow_le_pow_right₀ (by norm_num) hbd
  have hp0 : (0 : Int) < 2 ^ bd := by positivity
  rw [res_max, shl_int_one _ (by omega)]
  norm_num at hp
  omega

theorem H_formula_range (bd r0 : Nat) (clamp t0 t1 t2 t3 s0 s1 s2 s3 s4 s5 s6 : Int)
    (hc : 1 ≤ clamp) :
    0 ≤ H_formula bd r0 clamp t0 t1 t2 t3 s0 s1 s2 s3 s4 s5 s6 ∧
      H_formula bd r0 clamp t0 t1 t2 t3 s0 s1 s2 s3 s4 s5 s6 ≤ clamp - 1 := by
  unfold H_formula
  omega

/-- With small taps and in-range samples, the intermediate sample the code
computes is the one of the specification. -/
theorem im_pixel_eq (lim : Nat → Nat → Int) (src : Int → Int) (ss : Int)
    (x_filter : Fin 8 → Int) (cp : WienerConvolveParams) (bd : Nat) (i c : Int)
    (hbd : bd ≤ 14) (hr : 1 ≤ cp.round_0) (hr' : cp.round_0 ≤ 128)
    (hc : 1 ≤ lim cp.round_0 bd) (hc' : lim cp.round_0 bd ≤ 65536)
    (ht : ∀ j : Fin 8, j.1 < 4 → -128 ≤ x_filter j ∧ x_filter j ≤ 128)
    (hs : ∀ cc, c - 3 ≤ cc → cc ≤ c + 3 →
      0 ≤ src ((i - 3) * ss + cc) ∧ src ((i - 3) * ss + cc) ≤ 2 ^ bd - 1) :
    im_pixel lim src ss x_filter cp bd i c
      = I_formula bd cp.round_0 (lim cp.round_0 bd) x_filter src ss i c := by
  have hp : (2 : Int) ^ bd ≤ 2 ^ 14 := pow_le_pow_right₀ (by norm_num) hbd
  norm_num at hp
  obtain ⟨f0, f1, f2, f3⟩ := filter_s16_apply x_filter
  have t0 := ht 0 (by decide)
  have t1 := ht 1 (by decide)
  have t2 := ht 2 (by decide)
  have t3 := ht 3 (by decide)
  rw [wrap16_eq _ (by omega) (by omega)] at f0 f1 f2 f3
  have s0 := hs (c - 3) (by omega) (by omega)
  have s1 := hs (c - 2) (by omega) (by omega)
  have s2 := hs (c - 1) (by omega) (by omega)
  have s3 := hs c (by omega) (by omega)
  have s4 := hs (c + 1) (by omega) (by omega)
  have s5 := hs (c + 2) (by omega) (by omega)
  have s6 := hs (c + 3) (by omega) (by omega)
  have hsh : horiz_shift cp = -(cp.round_0 : Int) := wrap32_eq _ (by omega) (by omega)
  have hmx : im_max (lim cp.round_0 bd) = lim cp.round_0 bd - 1 := by unfold im_max; omega
  simp only [im_pixel, I_formula, horiz_round_eq bd (by omega), hsh, hmx]
  rw [wrap16_eq _ (by omega) (by omega), wrap16_eq _ (by omega) (by omega),
    wrap16_eq _ (by omega) (by omega), wrap16_eq _ (by omega) (by omega),
    wrap16_eq _ (by omega) (by omega), wrap16_eq _ (by omega) (by omega),
    wrap16_eq _ (by omega) (by omega)]
  exact h_lane_exact bd cp.round_0 _ _ _ _ _ _ _ _ _ _ _ _ (by omega) hr hr' hc hc'
    (by omega) (by omega) (by omega) (by omega) (by omega) (by omega) (by omega) (by omega)
    (by omega) (by omega) (by omega) _ f0 f1 f2 f3

/-- With small taps, in-range samples and an intermediate clamp that fits 15
bits, the output sample the code computes is the one of the specification. -/
theorem dst_pixel_eq (lim : Nat → Nat → Int) (src : Int → Int) (ss : Int)
    (x_filter y_filter : Fin 8 → Int) (cp : WienerConvolveParams) (bd : Nat) (r c : Int)
    (hbd : bd ≤ 14) (hr : 1 ≤ cp.round_0) (hr' : cp.round_0 ≤ 128)
    (hc : 1 ≤ lim cp.round_0 bd) (hc' : lim cp.round_0 bd ≤ 32768)
    (hr1 : 1 ≤ cp.round_1) (hbr : bd + cp.round_1 ≤ 31)
    (htx : ∀ j : Fin 8, j.1 < 4 → -128 ≤ x_filter j ∧ x_filter j ≤ 128)
    (hty : ∀ j : Fin 8, j.1 < 4 → -128 ≤ y_filter j ∧ y_filter j ≤ 128)
    (hs : ∀ rr cc, r - 3 ≤ rr → rr ≤ r + 3 → c - 3 ≤ cc → cc ≤ c + 3 →
      0 ≤ src (rr * ss + cc) ∧ src (rr * ss + cc) ≤ 2 ^ bd - 1) :
    dst_pixel lim src ss x_filter y_filter cp bd r c
      = two_pass_formula bd cp.round_0 cp.round_1 (lim cp.round_0 bd) x_filter y_filter src ss
          r c := by
  have him : ∀ j : Int, 0 ≤ j → j ≤ 6 → im_pixel lim src ss x_filter cp bd (r + j) c
      = I_formula bd cp.round_0 (lim cp.round_0 bd) x_filter src ss (r + j) c := by
    intro j hj0 hj6
    exact im_pixel_eq lim src ss x_filter cp bd (r + j) c hbd hr hr' hc (by omega) htx
      (fun cc h0 h1 => hs (r + j - 3) cc (by omega) (by omega) h0 h1)
  have hI : ∀ i : Int, 0 ≤ I_formula bd cp.round_0 (lim cp.round_0 bd) x_filter src ss i c ∧
      I_formula bd cp.round_0 (lim cp.round_0 bd) x_filter src ss i c ≤ 32767 := by
    intro i
    have := H_formula_range bd cp.round_0 (lim cp.round_0 bd) (x_filter 0) (x_filter 1)
      (x_filter 2) (x_filter 3) (src ((i - 3) * ss + (c - 3))) (src ((i - 3) * ss + (c - 2)))
      (src ((i - 3) * ss + (c - 1))) (src ((i - 3) * ss + c)) (src ((i - 3) * ss + (c + 1)))
      (src ((i - 3) * ss + (c + 2))) (src ((i - 3) * ss + (c + 3))) hc
    unfold I_formula
    omega
  obtain ⟨f0, f1, f2, f3⟩ := filter_s16_apply y_filter
  have t0 := hty 0 (by decide)
  have t1 := hty 1 (by decide)
  have t2 := hty 2 (by decide)
  have t3 := hty 3 (by decide)
  rw [wrap16_eq _ (by omega) (by omega)] at f0 f1 f2 f3
  have hsh : vert_shift cp = -(cp.round_1 : Int) := wrap32_eq _ (by omega) (by omega)
  have e0 := him 0 (by omega) (by omega)
  rw [add_zero] at e0
  simp only [dst_pixel, two_pass_formula, vert_round_eq cp bd hbr, hsh, res_max_eq bd (by omega),
    e0, him 1 (by omega) (by omega), him 2 (by omega) (by omega), him 3 (by omega) (by omega),
    him 4 (by omega) (by omega), him 5 (by omega) (by omega), him 6 (by omega) (by omega)]
  rw [wrap16_eq _ (by have := hI r; omega) (by have := hI r; omega),
    wrap16_eq _ (by have := hI (r + 1); omega) (by have := hI (r + 1); omega),
    wrap16_eq _ (by have := hI (r + 2); omega) (by have := hI (r + 2); omega),
    wrap16_eq _ (by have := hI (r + 3); omega) (by have := hI (r + 3); omega),
    wrap16_eq _ (by have := hI (r + 4); omega) (by have := hI (r + 4); omega),
    wrap16_eq _ (by have := hI (r + 5); omega) (by have := hI (r + 5); omega),
    wrap16_eq _ (by have := hI (r + 6); omega) (by have := hI (r + 6); omega)]
  exact v_lane_exact bd cp.round_1 _ _ _ _ _ _ _ _ _ _ _ (by omega) hr1 hbr
    (by omega) (by omega) (by omega) (by omega) (hI _) (hI _) (hI _) (hI _) (hI _) (hI _) (hI _)
    _ f0 f1 f2 f3

theorem valid_geometry (w h : Int) (hw8 : w % 8 = 0) (hw : 0 < w) (hw' : w ≤ 128)
    (hh : 0 ≤ h) (hh' : h ≤ 128) :
    ∃ k n : Nat, w = 8 * ((k : Int) + 1) ∧ h = (n : Int) ∧ k + 1 ≤ 16 ∧ n ≤ 128 :=
  ⟨(w / 8 - 1).toNat, h.toNat, by omega, by omega, by omega, by omega⟩

/-- A call with a valid geometry returns; every position of the block holds
the per-position value of the code and every other position is untouched. -/
theorem neon_call (lim : Nat → Nat → Int) (fuel : Nat) (im0 src : Int → Int) (ss : Int)
    (dst : Int → Int) (ds : Int) (x_filter y_filter : Fin 8 → Int) (w h : Int)
    (cp : WienerConvolveParams) (bd : Nat)
    (hw8 : w % 8 = 0) (hw : 0 < w) (hw' : w ≤ 128) (hh : 0 ≤ h) (hh' : h ≤ 128)
    (hds : w ≤ ds) (hx : x_filter 7 = 0) (hy : y_filter 7 = 0)
    (hf : w + h + 6 ≤ (fuel : Int)) :
    ∃ m, av1_highbd_wiener_convolve_add_src_neon lim fuel im0 src ss dst ds x_filter 16
        y_filter 16 w h cp bd = .returned m ∧
      (∀ r c, 0 ≤ r → r < h → 0 ≤ c → c < w →
        m.dst (r * ds + c) = dst_pixel lim src ss x_filter y_filter cp bd r c) ∧
      (∀ a, (∀ r c, 0 ≤ r → r < h → 0 ≤ c → c < w → a ≠ r * ds + c) → m.dst a = dst a) ∧
      (∀ i c, 0 ≤ i → i < h + 6 → 0 ≤ c → c < w →
        m.im_block (i * 128 + c) = im_pixel lim src ss x_filter cp bd i c) := by
  obtain ⟨k, n, rfl, rfl, hk, hn⟩ := valid_geometry w h hw8 hw hw' hh hh'
  obtain ⟨m, hrun, him, hdst', -⟩ := neon_returns lim fuel im0 src ss dst ds x_filter y_filter
    cp bd k n hk hn hx hy (by omega)
  have hdst := hdst' hds
  refine ⟨m, hrun, ?_, ?_, ?_⟩
  · intro r c h0 h1 h2 h3
    have := hdst.1 r c h0 h1 h2 h3
    rwa [zero_add] at this
  · intro a ha
    exact hdst.2 a (fun r c h0 h1 h2 h3 => by rw [zero_add]; exact ha r c h0 h1 h2 h3)
  · intro i c h0 h1 h2 h3
    have := him.1 i c h0 h1 h2 h3
    rwa [zero_add] at this

/-- C1: for a valid geometry, a codec rounding configuration with clamp limit
`2^(bd+8-round_0)`, source samples in `[0, 2^bd - 1]` on the block and its border
of 3 samples and stored taps of magnitude at most 128, the call returns, every
intermediate sample `(i, c)`, `0 ≤ i < h + 6`, is the horizontal formula applied
to source row `i - 3`, columns `c - 3 .. c + 3`, and every destination sample
`(r, c)` of the block is the vertical formula applied to the intermediate
samples of rows `r .. r + 6` of column `c`. -/
theorem C1_two_pass_result (lim : Nat → Nat → Int) (fuel : Nat) (im0 src : Int → Int) (ss : Int)
    (dst : Int → Int) (ds : Int) (x_filter y_filter : Fin 8 → Int) (w h : Int)
    (cp : WienerConvolveParams) (bd : Nat)
    (hw8 : w % 8 = 0) (hw : 8 ≤ w) (hw' : w ≤ 128) (hh : 1 ≤ h) (hh' : h ≤ 128)
    (hcfg : (bd = 8 ∧ cp.round_0 = 3 ∧ cp.round_1 = 11) ∨
      (bd = 10 ∧ cp.round_0 = 3 ∧ cp.round_1 = 11) ∨
      (bd = 12 ∧ cp.round_0 = 5 ∧ cp.round_1 = 9))
    (hlim : lim cp.round_0 bd = 2 ^ (bd + 8 - cp.round_0))
    (hsrc : ∀ r c, -3 ≤ r → r ≤ h + 2 → -3 ≤ c → c ≤ w + 2 →
      0 ≤ src (r * ss + c) ∧ src (r * ss + c) ≤ 2 ^ bd - 1)
    (htx : ∀ j : Fin 8, j.1 < 4 → |x_filter j| ≤ 128)
    (hty : ∀ j : Fin 8, j.1 < 4 → |y_filter j| ≤ 128)
    (hx : x_filter 7 = 0) (hy : y_filter 7 = 0) (hds : w ≤ ds)
    (hf : w + h + 6 ≤ (fuel : Int)) :
    ∃ m, av1_highbd_wiener_convolve_add_src_neon lim fuel im0 src ss dst ds x_filter 16
        y_filter 16 w h cp bd = .returned m ∧
      (∀ i c, 0 ≤ i → i < h + 6 → 0 ≤ c → c < w →
        m.im_block (i * 128 + c)
          = I_formula bd cp.round_0 (2 ^ (bd + 8 - cp.round_0)) x_filter src ss i c) ∧
      ∀ r c, 0 ≤ r → r < h → 0 ≤ c → c < w →
        m.dst (r * ds + c) = two_pass_formula bd cp.round_0 cp.round_1 (2 ^ (bd + 8 - cp.round_0))
          x_filter y_filter src ss r c := by
  obtain ⟨m, hrun, hdst, -, him⟩ := neon_call lim fuel im0 src ss dst ds x_filter y_filter w h
    cp bd hw8 (by omega) hw' (by omega) hh' hds hx hy hf
  have hlim' : 1 ≤ lim cp.round_0 bd ∧ lim cp.round_0 bd ≤ 32768 := by
    rw [hlim]
    rcases hcfg with ⟨rfl, h0, -⟩ | ⟨rfl, h0, -⟩ | ⟨rfl, h0, -⟩ <;> rw [h0] <;> norm_num
  refine ⟨m, hrun, fun i c h0 h1 h2 h3 => ?_, fun r c h0 h1 h2 h3 => ?_⟩
  · rw [him i c h0 h1 h2 h3, ← hlim]
    exact im_pixel_eq lim src ss x_filter cp bd i c (by omega) (by omega) (by omega) hlim'.1
      (by omega) (fun j hj => abs_le.mp (htx j hj))
      (fun cc a0 a1 => hsrc (i - 3) cc (by omega) (by omega) (by omega) (by omega))
  rw [hdst r c h0 h1 h2 h3, ← hlim]
  exact dst_pixel_eq lim src ss x_filter y_filter cp bd r c (by omega) (by omega) (by omega)
    hlim'.1 hlim'.2 (by omega) (by omega)
    (fun j hj => abs_le.mp (htx j hj)) (fun j hj => abs_le.mp (hty j hj))
    (fun rr cc a0 a1 a2 a3 => hsrc rr cc (by omega) (by omega) (by omega) (by omega))

/-- An instance of C1: an 8x1 block of constant samples, zero stored taps, `bd = 8`. -/
theorem C1_two_pass_result_witness :
    ∃ m, av1_highbd_wiener_convolve_add_src_neon (fun r0 bd => 2 ^ (bd + 8 - r0)) 15
        (fun _ => 0) (fun _ => 7) 16 (fun _ => 0) 8 ![0, 0, 0, 0, 0, 0, 0, 0] 16
        ![0, 0, 0, 0, 0, 0, 0, 0] 16 8 1 ⟨3, 11⟩ 8 = .returned m ∧
      (∀ i c, 0 ≤ i → i < 1 + 6 → 0 ≤ c → c < 8 →
        m.im_block (i * 128 + c)
          = I_formula 8 3 (2 ^ (8 + 8 - 3)) ![0, 0, 0, 0, 0, 0, 0, 0] (fun _ => 7) 16 i c) ∧
      ∀ r c, 0 ≤ r → r < 1 → 0 ≤ c → c < 8 →
        m.dst (r * 8 + c) = two_pass_formula 8 3 11 (2 ^ (8 + 8 - 3))
          ![0, 0, 0, 0, 0, 0, 0, 0] ![0, 0, 0, 0, 0, 0, 0, 0] (fun _ => 7) 16 r c :=
  C1_two_pass_result (fun r0 bd => 2 ^ (bd + 8 - r0)) 15 (fun _ => 0) (fun _ => 7) 16
    (fun _ => 0) 8 ![0, 0, 0, 0, 0, 0, 0, 0] ![0, 0, 0, 0, 0, 0, 0, 0] 8 1 ⟨3, 11⟩ 8
    (by decide) (by decide) (by decide) (by decide) (by decide)
    (Or.inl ⟨rfl, rfl, rfl⟩) rfl (fun _ _ _ _ _ _ => by norm_num)
    (fun j _ => by fin_cases j <;> exact (show |(0 : Int)| ≤ 128 by norm_num))
    (fun j _ => by fin_cases j <;> exact (show |(0 : Int)| ≤ 128 by norm_num)) rfl rfl
    (by decide) (by decide)

theorem hpix_exact (src : Int → Int) (bd r0 : Nat) (clamp t0 t1 t2 t3 p : Int)
    (hbd : bd ≤ 14) (hr : 1 ≤ r0) (hr' : r0 ≤ 128) (hc : 1 ≤ clamp) (hc' : clamp ≤ 65536)
    (ht0 : |t0| ≤ 128) (ht1 : |t1| ≤ 128) (ht2 : |t2| ≤ 128) (ht3 : |t3| ≤ 128)
    (hs : ∀ j : Int, 0 ≤ j → j ≤ 6 → 0 ≤ src (p + j) ∧ src (p + j) ≤ 2 ^ bd - 1) :
    hpix src ![t0, t1, t2, t3 + 128] (2 ^ (bd + 6)) (-(r0 : Int)) (clamp - 1) p
      = H_formula bd r0 clamp t0 t1 t2 t3 (src p) (src (p + 1)) (src (p + 2)) (src (p + 3))
          (src (p + 4)) (src (p + 5)) (src (p + 6)) := by
  have hp : (2 : Int) ^ bd ≤ 2 ^ 14 := pow_le_pow_right₀ (by norm_num) hbd
  norm_num at hp
  rw [abs_le] at ht0 ht1 ht2 ht3
  have s0 := hs 0 (by omega) (by omega)
  rw [add_zero] at s0
  have s1 := hs 1 (by omega) (by omega)
  have s2 := hs 2 (by omega) (by omega)
  have s3 := hs 3 (by omega) (by omega)
  have s4 := hs 4 (by omega) (by omega)
  have s5 := hs 5 (by omega) (by omega)
  have s6 := hs 6 (by omega) (by omega)
  unfold hpix
  rw [wrap16_eq _ (by omega) (by omega), wrap16_eq _ (by omega) (by omega),
    wrap16_eq _ (by omega) (by omega), wrap16_eq _ (by omega) (by omega),
    wrap16_eq _ (by omega) (by omega), wrap16_eq _ (by omega) (by omega),
    wrap16_eq _ (by omega) (by omega)]
  exact h_lane_exact bd r0 _ _ _ _ _ _ _ _ _ _ _ _ (by omega) hr hr' hc hc'
    (by omega) (by omega) (by omega) (by omega) (by omega) (by omega) (by omega) (by omega)
    (by omega) (by omega) (by omega) _ rfl rfl rfl rfl

theorem vpix_exact (im : Int → Int) (ss : Int) (bd r1 : Nat) (t0 t1 t2 t3 p : Int)
    (hbd : bd ≤ 16) (hr : 1 ≤ r1) (hbr : bd + r1 ≤ 31)
    (ht0 : |t0| ≤ 128) (ht1 : |t1| ≤ 128) (ht2 : |t2| ≤ 128) (ht3 : |t3| ≤ 128)
    (hs : ∀ j : Int, 0 ≤ j → j ≤ 6 → 0 ≤ im (p + j * ss) ∧ im (p + j * ss) ≤ 32767) :
    vpix im ss ![t0, t1, t2, t3 + 128] (-(2 ^ (bd + r1 - 1))) (-(r1 : Int)) (2 ^ bd - 1) p
      = V_formula bd r1 t0 t1 t2 t3 (im p) (im (p + ss)) (im (p + 2 * ss)) (im (p + 3 * ss))
          (im (p + 4 * ss)) (im (p + 5 * ss)) (im (p + 6 * ss)) := by
  rw [abs_le] at ht0 ht1 ht2 ht3
  have s0 := hs 0 (by omega) (by omega)
  rw [zero_mul, add_zero] at s0
  have s1 := hs 1 (by omega) (by omega)
  rw [one_mul] at s1
  have s2 := hs 2 (by omega) (by omega)
  have s3 := hs 3 (by omega) (by omega)
  have s4 := hs 4 (by omega) (by omega)
  have s5 := hs 5 (by omega) (by omega)
  have s6 := hs 6 (by omega) (by omega)
  unfold vpix
  rw [wrap16_eq _ (by omega) (by omega), wrap16_eq _ (by omega) (by omega),
    wrap16_eq _ (by omega) (by omega), wrap16_eq _ (by omega) (by omega),
    wrap16_eq _ (by omega) (by omega), wrap16_eq _ (by omega) (by omega),
    wrap16_eq _ (by omega) (by omega)]
  exact v_lane_exact bd r1 _ _ _ _ _ _ _ _ _ _ _ hbd hr hbr
    (by omega) (by omega) (by omega) (by omega) s0 s1 s2 s3 s4 s5 s6 _ rfl rfl rfl rfl

/-- C2, as stated, fails: with `round_0 = 129` the shift lane `-129` has the
signed low byte `127`, the instruction shifts left and saturates, and the lane
is `clamp_limit - 1 = 65535` where the formula gives `0` (all samples and
stored taps zero, `bd = 8`, `clamp_limit = 65536`). -/
theorem C2_counterexample :
    highbd_wiener_convolve7_8_2d_h (fun _ => 0) (fun _ => 0) (fun _ => 0) (fun _ => 0)
        (fun _ => 0) (fun _ => 0) (fun _ => 0) ![0, 0, 0, 0 + 128] (fun _ => 2 ^ (8 + 6))
        (fun _ => -(129 : Int)) (fun _ => 65536 - 1) 0 = 65535 ∧
      H_formula 8 129 65536 0 0 0 0 0 0 0 0 0 0 0 = 0 := by
  constructor
  · rw [convolve7_h_lane]
    simp [h_lane, sqrshl32, wrap8, wrap16, wrap32, sat32, usat16]
  · simp [H_formula, wiener_acc]

/-- C2 (amended: `1 ≤ round_0 ≤ 128`): for `bd` in `{8, 10, 12}`, samples in
`[0, 2^bd - 1]`, stored taps of magnitude at most 128 and
`1 ≤ clamp_limit ≤ 65536`, every lane of `highbd_wiener_convolve7_8_2d_h`,
called with the taps `(t0, t1, t2, t3 + 128)`, `round_vec = 2^(bd+6)`,
`shift = -round_0` and `im_max_val = clamp_limit - 1`, is the horizontal formula
of its seven lane inputs; and `highbd_convolve_add_src_horiz_hip` returns with
that value at position `(row, col)` of its output for the 7 source samples that
start at column `col` of source row `row`. -/
theorem C2_horizontal_formula (bd r0 : Nat) (clamp t0 t1 t2 t3 : Int)
    (hbd : bd = 8 ∨ bd = 10 ∨ bd = 12) (hr : 1 ≤ r0) (hr' : r0 ≤ 128)
    (hc : 1 ≤ clamp) (hc' : clamp ≤ 65536)
    (ht0 : |t0| ≤ 128) (ht1 : |t1| ≤ 128) (ht2 : |t2| ≤ 128) (ht3 : |t3| ≤ 128) :
    (∀ (s0 s1 s2 s3 s4 s5 s6 : int16x8_t) (i : Fin 8),
      (∀ s ∈ [s0, s1, s2, s3, s4, s5, s6], 0 ≤ s i ∧ s i ≤ 2 ^ bd - 1) →
      highbd_wiener_convolve7_8_2d_h s0 s1 s2 s3 s4 s5 s6 ![t0, t1, t2, t3 + 128]
          (fun _ => 2 ^ (bd + 6)) (fun _ => -(r0 : Int)) (fun _ => clamp - 1) i
        = H_formula bd r0 clamp t0 t1 t2 t3 (s0 i) (s1 i) (s2 i) (s3 i) (s4 i) (s5 i) (s6 i)) ∧
    (∀ (src : Int → Int) (ss ds w h src_ptr dst_ptr : Int) (st : Stage) (fuel : Nat),
      w % 8 = 0 → 0 < w → w ≤ ds → 1 ≤ h → w + h ≤ (fuel : Int) →
      (∀ row col, 0 ≤ row → row < h → 0 ≤ col → col < w + 6 →
        0 ≤ src (src_ptr + row * ss + col) ∧ src (src_ptr + row * ss + col) ≤ 2 ^ bd - 1) →
      ∃ st', highbd_convolve_add_src_horiz_hip src ss ds w ![t0, t1, t2, t3 + 128]
          (fun _ => 2 ^ (bd + 6)) (fun _ => -(r0 : Int)) (fun _ => clamp - 1) fuel src_ptr
          dst_ptr h st = some st' ∧
        ∀ row col, 0 ≤ row → row < h → 0 ≤ col → col < w →
          st'.out (dst_ptr + row * ds + col)
            = H_formula bd r0 clamp t0 t1 t2 t3 (src (src_ptr + row * ss + col))
                (src (src_ptr + row * ss + col + 1)) (src (src_ptr + row * ss + col + 2))
                (src (src_ptr + row * ss + col + 3)) (src (src_ptr + row * ss + col + 4))
                (src (src_ptr + row * ss + col + 5)) (src (src_ptr + row * ss + col + 6))) := by
  have hbd14 : bd ≤ 14 := by omega
  have hp : (2 : Int) ^ bd ≤ 2 ^ 14 := pow_le_pow_right₀ (by norm_num) hbd14
  norm_num at hp
  constructor
  · intro s0 s1 s2 s3 s4 s5 s6 i hs
    have a0 := hs s0 (by simp)
    have a1 := hs s1 (by simp)
    have a2 := hs s2 (by simp)
    have a3 := hs s3 (by simp)
    have a4 := hs s4 (by simp)
    have a5 := hs s5 (by simp)
    have a6 := hs s6 (by simp)
    rw [abs_le] at ht0 ht1 ht2 ht3
    rw [convolve7_h_lane]
    exact h_lane_exact bd r0 _ _ _ _ _ _ _ _ _ _ _ _ (by omega) hr hr' hc hc'
      (by omega) (by omega) (by omega) (by omega) (by omega) (by omega) (by omega) (by omega)
      (by omega) (by omega) (by omega) _ rfl rfl rfl rfl
  · intro src ss ds w h src_ptr dst_ptr st fuel hw8 hw hds hh hf hs
    obtain ⟨k, rfl⟩ : ∃ k : Nat, w = 8 * ((k : Int) + 1) := ⟨(w / 8 - 1).toNat, by omega⟩
    obtain ⟨n, rfl⟩ : ∃ n : Nat, h = (n : Int) + 1 := ⟨(h - 1).toNat, by omega⟩
    obtain ⟨st', hrun, hwr, -⟩ := highbd_convolve_add_src_horiz_hip_spec src
      ![t0, t1, t2, t3 + 128] (2 ^ (bd + 6)) (-(r0 : Int)) (clamp - 1) ss ds src_ptr dst_ptr k
      hds n fuel src_ptr dst_ptr 0 st (by omega) (by ring) (by ring)
    refine ⟨st', hrun, fun row col h0 h1 h2 h3 => ?_⟩
    rw [hwr.1 row col h0 (by omega) h2 h3]
    exact hpix_exact src bd r0 clamp t0 t1 t2 t3 _ hbd14 hr hr' hc hc' ht0 ht1 ht2 ht3
      (fun j hj0 hj6 => by
        have := hs row (col + j) h0 h1 (by omega) (by omega)
        rwa [← add_assoc] at this)

/-- An instance of C2: `bd = 8`, `round_0 = 3`, clamp limit `2^13`, stored taps `(1, -2, 3, -4)`. -/
theorem C2_horizontal_formula_witness :
    (∀ (s0 s1 s2 s3 s4 s5 s6 : int16x8_t) (i : Fin 8),
      (∀ s ∈ [s0, s1, s2, s3, s4, s5, s6], 0 ≤ s i ∧ s i ≤ 2 ^ 8 - 1) →
      highbd_wiener_convolve7_8_2d_h s0 s1 s2 s3 s4 s5 s6 ![1, -2, 3, -4 + 128]
          (fun _ => 2 ^ (8 + 6)) (fun _ => -((3 : Nat) : Int)) (fun _ => 8192 - 1) i
        = H_formula 8 3 8192 1 (-2) 3 (-4) (s0 i) (s1 i) (s2 i) (s3 i) (s4 i) (s5 i) (s6 i)) ∧
    (∀ (src : Int → Int) (ss ds w h src_ptr dst_ptr : Int) (st : Stage) (fuel : Nat),
      w % 8 = 0 → 0 < w → w ≤ ds → 1 ≤ h → w + h ≤ (fuel : Int) →
      (∀ row col, 0 ≤ row → row < h → 0 ≤ col → col < w + 6 →
        0 ≤ src (src_ptr + row * ss + col) ∧ src (src_ptr + row * ss + col) ≤ 2 ^ 8 - 1) →
      ∃ st', highbd_convolve_add_src_horiz_hip src ss ds w ![1, -2, 3, -4 + 128]
          (fun _ => 2 ^ (8 + 6)) (fun _ => -((3 : Nat) : Int)) (fun _ => 8192 - 1) fuel src_ptr
          dst_ptr h st = some st' ∧
        ∀ row col, 0 ≤ row → row < h → 0 ≤ col → col < w →
          st'.out (dst_ptr + row * ds + col)
            = H_formula 8 3 8192 1 (-2) 3 (-4) (src (src_ptr + row * ss + col))
                (src (src_ptr + row * ss + col + 1)) (src (src_ptr + row * ss + col + 2))
                (src (src_ptr + row * ss + col + 3)) (src (src_ptr + row * ss + col + 4))
                (src (src_ptr + row * ss + col + 5)) (src (src_ptr + row * ss + col + 6))) :=
  C2_horizontal_formula 8 3 8192 1 (-2) 3 (-4) (Or.inl rfl) (by decide) (by decide)
    (by decide) (by decide) (by norm_num) (by norm_num) (by norm_num) (by norm_num)

/-- C3, as stated, fails: with `bd = 12` and `round_1 = 20` the rounding term is
`-2^31`, the first multiply-accumulate wraps, and the lane is `2048` where the
formula gives `0` (stored taps `(-1, 0, 0, 0)`, samples `s0 = s6 = 1`, the
others `0`). -/
theorem C3_counterexample :
    highbd_wiener_convolve7_8_2d_v (fun _ => 1) (fun _ => 0) (fun _ => 0) (fun _ => 0)
        (fun _ => 0) (fun _ => 0) (fun _ => 1) ![-1, 0, 0, 0 + 128]
        (fun _ => -(2 ^ (12 + 20 - 1))) (fun _ => -(20 : Int)) (fun _ => 2 ^ 12 - 1) 0 = 2048 ∧
      V_formula 12 20 (-1) 0 0 0 1 0 0 0 0 0 1 = 0 := by
  constructor
  · rw [convolve7_v_lane]
    simp [v_lane, sqrshl32, wrap8, wrap32, sat32, usat16]
  · simp [V_formula, wiener_acc]

/-- C3 (amended: `1 ≤ round_1` and `bd + round_1 ≤ 31`): for `bd` in
`{8, 10, 12}`, intermediate samples in `[0, 32767]` and stored taps of magnitude
at most 128, every lane of `highbd_wiener_convolve7_8_2d_v`, called with the
taps `(t0, t1, t2, t3 + 128)`, `round_vec = -2^(bd+round_1-1)`,
`shift = -round_1` and `res_max_val = 2^bd - 1`, is the vertical formula of its
seven lane inputs; and `highbd_convolve_add_src_vert_hip` returns with that
value at position `(row, col)` of its output for rows `row .. row+6` of column
`col` of its input. -/
theorem C3_vertical_formula (bd r1 : Nat) (t0 t1 t2 t3 : Int)
    (hbd : bd = 8 ∨ bd = 10 ∨ bd = 12) (hr : 1 ≤ r1) (hbr : bd + r1 ≤ 31)
    (ht0 : |t0| ≤ 128) (ht1 : |t1| ≤ 128) (ht2 : |t2| ≤ 128) (ht3 : |t3| ≤ 128) :
    (∀ (s0 s1 s2 s3 s4 s5 s6 : int16x8_t) (i : Fin 8),
      (∀ s ∈ [s0, s1, s2, s3, s4, s5, s6], 0 ≤ s i ∧ s i ≤ 32767) →
      highbd_wiener_convolve7_8_2d_v s0 s1 s2 s3 s4 s5 s6 ![t0, t1, t2, t3 + 128]
          (fun _ => -(2 ^ (bd + r1 - 1))) (fun _ => -(r1 : Int)) (fun _ => 2 ^ bd - 1) i
        = V_formula bd r1 t0 t1 t2 t3 (s0 i) (s1 i) (s2 i) (s3 i) (s4 i) (s5 i) (s6 i)) ∧
    (∀ (im : Int → Int) (ss ds w h src_ptr dst_ptr : Int) (st : Stage) (fuel : Nat),
      w % 8 = 0 → 0 < w → w ≤ ds → 0 ≤ h → w + h + 4 ≤ (fuel : Int) →
      (∀ row col, 0 ≤ row → row < h + 6 → 0 ≤ col → col < w →
        0 ≤ im (src_ptr + row * ss + col) ∧ im (src_ptr + row * ss + col) ≤ 32767) →
      ∃ st', highbd_convolve_add_src_vert_hip im ss ds h ![t0, t1, t2, t3 + 128]
          (fun _ => -(2 ^ (bd + r1 - 1))) (fun _ => -(r1 : Int)) (fun _ => 2 ^ bd - 1) fuel
          src_ptr dst_ptr w st = some st' ∧
        ∀ row col, 0 ≤ row → row < h → 0 ≤ col → col < w →
          st'.out (dst_ptr + row * ds + col)
            = V_formula bd r1 t0 t1 t2 t3 (im (src_ptr + row * ss + col))
                (im (src_ptr + (row + 1) * ss + col)) (im (src_ptr + (row + 2) * ss + col))
                (im (src_ptr + (row + 3) * ss + col)) (im (src_ptr + (row + 4) * ss + col))
                (im (src_ptr + (row + 5) * ss + col)) (im (src_ptr + (row + 6) * ss + col))) := by
  have hbd16 : bd ≤ 16 := by omega
  constructor
  · intro s0 s1 s2 s3 s4 s5 s6 i hs
    have a0 := hs s0 (by simp)
    have a1 := hs s1 (by simp)
    have a2 := hs s2 (by simp)
    have a3 := hs s3 (by simp)
    have a4 := hs s4 (by simp)
    have a5 := hs s5 (by simp)
    have a6 := hs s6 (by simp)
    rw [abs_le] at ht0 ht1 ht2 ht3
    rw [convolve7_v_lane]
    exact v_lane_exact bd r1 _ _ _ _ _ _ _ _ _ _ _ hbd16 hr hbr
      (by omega) (by omega) (by omega) (by omega) a0 a1 a2 a3 a4 a5 a6 _ rfl rfl rfl rfl
  · intro im ss ds w h src_ptr dst_ptr st fuel hw8 hw hds hh hf hs
    obtain ⟨k, rfl⟩ : ∃ k : Nat, w = 8 * ((k : Int) + 1) := ⟨(w / 8 - 1).toNat, by omega⟩
    obtain ⟨n, rfl⟩ : ∃ n : Nat, h = (n : Int) := ⟨h.toNat, by omega⟩
    obtain ⟨st', hrun, hwr, -⟩ := highbd_convolve_add_src_vert_hip_spec im
      ![t0, t1, t2, t3 + 128] (-(2 ^ (bd + r1 - 1))) (-(r1 : Int)) (2 ^ bd - 1) ss ds src_ptr
      dst_ptr n k fuel src_ptr dst_ptr 0 st (by omega) (by ring) (by ring)
    have hwr := hwr hds
    rw [zero_add] at hwr
    refine ⟨st', hrun, fun row col h0 h1 h2 h3 => ?_⟩
    rw [hwr.1 row col h0 h1 h2 h3]
    simp only []
    rw [vpix_exact im ss bd r1 t0 t1 t2 t3 _ hbd16 hr hbr ht0 ht1 ht2 ht3
      (fun j hj0 hj6 => by
        have := hs (row + j) col (by omega) (by omega) h2 h3
        have e : src_ptr + (row + j) * ss + col = src_ptr + row * ss + col + j * ss := by ring
        rwa [e] at this)]
    congr 1 <;> (congr 1; ring)

/-- An instance of C3: `bd = 8`, `round_1 = 11`, stored taps `(1, -2, 3, -4)`. -/
theorem C3_vertical_formula_witness :
    (∀ (s0 s1 s2 s3 s4 s5 s6 : int16x8_t) (i : Fin 8),
      (∀ s ∈ [s0, s1, s2, s3, s4, s5, s6], 0 ≤ s i ∧ s i ≤ 32767) →
      highbd_wiener_convolve7_8_2d_v s0 s1 s2 s3 s4 s5 s6 ![1, -2, 3, -4 + 128]
          (fun _ => -(2 ^ (8 + 11 - 1))) (fun _ => -((11 : Nat) : Int)) (fun _ => 2 ^ 8 - 1) i
        = V_formula 8 11 1 (-2) 3 (-4) (s0 i) (s1 i) (s2 i) (s3 i) (s4 i) (s5 i) (s6 i)) ∧
    (∀ (im : Int → Int) (ss ds w h src_ptr dst_ptr : Int) (st : Stage) (fuel : Nat),
      w % 8 = 0 → 0 < w → w ≤ ds → 0 ≤ h → w + h + 4 ≤ (fuel : Int) →
      (∀ row col, 0 ≤ row → row < h + 6 → 0 ≤ col → col < w →
        0 ≤ im (src_ptr + row * ss + col) ∧ im (src_ptr + row * ss + col) ≤ 32767) →
      ∃ st', highbd_convolve_add_src_vert_hip im ss ds h ![1, -2, 3, -4 + 128]
          (fun _ => -(2 ^ (8 + 11 - 1))) (fun _ => -((11 : Nat) : Int)) (fun _ => 2 ^ 8 - 1) fuel
          src_ptr dst_ptr w st = some st' ∧
        ∀ row col, 0 ≤ row → row < h → 0 ≤ col → col < w →
          st'.out (dst_ptr + row * ds + col)
            = V_formula 8 11 1 (-2) 3 (-4) (im (src_ptr + row * ss + col))
                (im (src_ptr + (row + 1) * ss + col)) (im (src_ptr + (row + 2) * ss + col))
                (im (src_ptr + (row + 3) * ss + col)) (im (src_ptr + (row + 4) * ss + col))
                (im (src_ptr + (row + 5) * ss + col)) (im (src_ptr + (row + 6) * ss + col))) :=
  C3_vertical_formula 8 11 1 (-2) 3 (-4) (Or.inl rfl) (by decide) (by decide)
    (by norm_num) (by norm_num) (by norm_num) (by norm_num)

theorem v_lane_range (f : int16x4_t) (rv sh mx s0 s1 s2 s3 s4 s5 s6 : Int) (hmx : 0 ≤ mx) :
    0 ≤ v_lane f rv sh mx s0 s1 s2 s3 s4 s5 s6 ∧ v_lane f rv sh mx s0 s1 s2 s3 s4 s5 s6 ≤ mx := by
  unfold v_lane usat16
  omega

/-- C4: for every bit depth from 8 to 16, every valid geometry, every rounding
configuration and clamp limit, every source content and every pair of tap
sets, the call returns and every sample of the destination block lies in
`[0, 2^bd - 1]`. -/
theorem C4_range_invariant (lim : Nat → Nat → Int) (fuel : Nat) (im0 src : Int → Int) (ss : Int)
    (dst : Int → Int) (ds : Int) (x_filter y_filter : Fin 8 → Int) (w h : Int)
    (cp : WienerConvolveParams) (bd : Nat)
    (_hbd : 8 ≤ bd) (hbd' : bd ≤ 16)
    (hw8 : w % 8 = 0) (hw : 8 ≤ w) (hw' : w ≤ 128) (hh : 1 ≤ h) (hh' : h ≤ 128)
    (hx : x_filter 7 = 0) (hy : y_filter 7 = 0) (hds : w ≤ ds)
    (hf : w + h + 6 ≤ (fuel : Int)) :
    ∃ m, av1_highbd_wiener_convolve_add_src_neon lim fuel im0 src ss dst ds x_filter 16
        y_filter 16 w h cp bd = .returned m ∧
      ∀ r c, 0 ≤ r → r < h → 0 ≤ c → c < w →
        0 ≤ m.dst (r * ds + c) ∧ m.dst (r * ds + c) ≤ 2 ^ bd - 1 := by
  obtain ⟨m, hrun, hdst, -, -⟩ := neon_call lim fuel im0 src ss dst ds x_filter y_filter w h cp
    bd hw8 (by omega) hw' (by omega) hh' hds hx hy hf
  refine ⟨m, hrun, fun r c h0 h1 h2 h3 => ?_⟩
  have hp0 : (0 : Int) < 2 ^ bd := by positivity
  rw [hdst r c h0 h1 h2 h3, dst_pixel, res_max_eq bd hbd']
  exact v_lane_range _ _ _ _ _ _ _ _ _ _ _ (by omega)

/-- An instance of C4: `bd = 16`, a 16x3 block, extreme taps, `round_0 = 200`, `round_1 = 0`. -/
theorem C4_range_invariant_witness :
    ∃ m, av1_highbd_wiener_convolve_add_src_neon (fun _ _ => 70000) 30 (fun _ => 5)
        (fun a => (a * 7919) % 65536) 40 (fun _ => 0) 16
        ![32767, -32768, 12345, -1, 9, 9, 9, 0] 16 ![-32768, 32767, 777, 32767, 1, 2, 3, 0] 16
        16 3 ⟨200, 0⟩ 16 = .returned m ∧
      ∀ r c, 0 ≤ r → r < 3 → 0 ≤ c → c < 16 →
        0 ≤ m.dst (r * 16 + c) ∧ m.dst (r * 16 + c) ≤ 2 ^ 16 - 1 :=
  C4_range_invariant (fun _ _ => 70000) 30 (fun _ => 5) (fun a => (a * 7919) % 65536) 40
    (fun _ => 0) 16 ![32767, -32768, 12345, -1, 9, 9, 9, 0]
    ![-32768, 32767, 777, 32767, 1, 2, 3, 0] 16 3 ⟨200, 0⟩ 16 (by decide) (by decide)
    (by decide) (by decide) (by decide) (by decide) (by decide) rfl rfl (by decide) (by decide)

/-- C5: with both stored tap sets `(0, 0, 0, 0)`, `round_0 = 3`, `round_1 = 11`,
`bd = 8`, clamp limit `2^13` and `w = h = 8`, if every source sample of the
block and of its border of 3 samples is `V`, `0 ≤ V ≤ 255`, the call returns
and each of the 64 destination samples is `V`. -/
theorem C5_identity (lim : Nat → Nat → Int) (fuel : Nat) (im0 src : Int → Int) (ss : Int)
    (dst : Int → Int) (ds : Int) (x_filter y_filter : Fin 8 → Int) (V : Int)
    (hlim : lim 3 8 = 2 ^ 13) (hV : 0 ≤ V) (hV' : V ≤ 255)
    (hsrc : ∀ r c : Int, -3 ≤ r → r ≤ 10 → -3 ≤ c → c ≤ 10 → src (r * ss + c) = V)
    (htx : ∀ j : Fin 8, j.1 < 4 → x_filter j = 0) (hty : ∀ j : Fin 8, j.1 < 4 → y_filter j = 0)
    (hx : x_filter 7 = 0) (hy : y_filter 7 = 0) (hds : 8 ≤ ds) (hf : 22 ≤ fuel) :
    ∃ m, av1_highbd_wiener_convolve_add_src_neon lim fuel im0 src ss dst ds x_filter 16
        y_filter 16 8 8 ⟨3, 11⟩ 8 = .returned m ∧
      ∀ r c : Int, 0 ≤ r → r < 8 → 0 ≤ c → c < 8 → m.dst (r * ds + c) = V := by
  obtain ⟨m, hrun, hdst, -, -⟩ := neon_call lim fuel im0 src ss dst ds x_filter y_filter 8 8
    ⟨3, 11⟩ 8 (by decide) (by decide) (by decide) (by decide) (by decide) hds hx hy (by omega)
  refine ⟨m, hrun, fun r c h0 h1 h2 h3 => ?_⟩
  rw [hdst r c h0 h1 h2 h3]
  rw [dst_pixel_eq lim src ss x_filter y_filter ⟨3, 11⟩ 8 r c (by decide) (by decide)
    (by decide) (by rw [hlim]; norm_num) (by rw [hlim]; norm_num) (by decide) (by decide)
    (fun j hj => by rw [htx j hj]; omega) (fun j hj => by rw [hty j hj]; omega)
    (fun rr cc a0 a1 a2 a3 => by
      rw [hsrc rr cc (by omega) (by omega) (by omega) (by omega)]; norm_num; omega)]
  have hI : ∀ i : Int, r ≤ i → i ≤ r + 6 →
      I_formula 8 3 (lim 3 8) x_filter src ss i c = 2048 + 16 * V := by
    intro i hi0 hi1
    simp only [I_formula, hsrc (i - 3) (c - 3) (by omega) (by omega) (by omega) (by omega),
      hsrc (i - 3) (c - 2) (by omega) (by omega) (by omega) (by omega),
      hsrc (i - 3) (c - 1) (by omega) (by omega) (by omega) (by omega),
      hsrc (i - 3) c (by omega) (by omega) (by omega) (by omega),
      hsrc (i - 3) (c + 1) (by omega) (by omega) (by omega) (by omega),
      hsrc (i - 3) (c + 2) (by omega) (by omega) (by omega) (by omega),
      hsrc (i - 3) (c + 3) (by omega) (by omega) (by omega) (by omega), hlim,
      htx 0 (by decide), htx 1 (by decide), htx 2 (by decide), htx 3 (by decide), H_formula,
      wiener_acc]
    norm_num
    omega
  simp only [two_pass_formula, hI r (by omega) (by omega), hI (r + 1) (by omega) (by omega),
    hI (r + 2) (by omega) (by omega), hI (r + 3) (by omega) (by omega),
    hI (r + 4) (by omega) (by omega), hI (r + 5) (by omega) (by omega),
    hI (r + 6) (by omega) (by omega), hty 0 (by decide), hty 1 (by decide), hty 2 (by decide),
    hty 3 (by decide), V_formula, wiener_acc]
  norm_num
  omega

/-- An instance of C5: `V = 200`. -/
theorem C5_identity_witness :
    ∃ m, av1_highbd_wiener_convolve_add_src_neon (fun r0 bd => 2 ^ (bd + 8 - r0)) 22
        (fun _ => 0) (fun _ => 200) 32 (fun _ => 0) 8 ![0, 0, 0, 0, 0, 0, 0, 0] 16
        ![0, 0, 0, 0, 0, 0, 0, 0] 16 8 8 ⟨3, 11⟩ 8 = .returned m ∧
      ∀ r c : Int, 0 ≤ r → r < 8 → 0 ≤ c → c < 8 → m.dst (r * 8 + c) = 200 :=
  C5_identity (fun r0 bd => 2 ^ (bd + 8 - r0)) 22 (fun _ => 0) (fun _ => 200) 32 (fun _ => 0) 8
    ![0, 0, 0, 0, 0, 0, 0, 0] ![0, 0, 0, 0, 0, 0, 0, 0] 200 rfl (by decide) (by decide)
    (fun _ _ _ _ _ _ => rfl) (fun j _ => by fin_cases j <;> rfl)
    (fun j _ => by fin_cases j <;> rfl) rfl rfl (by decide) (by decide)

theorem mul_range (y ρ B : Int) (h0 : 0 ≤ ρ) (h1 : ρ ≤ B) :
    (0 ≤ y → 0 ≤ y * ρ ∧ y * ρ ≤ y * B) ∧ (y ≤ 0 → y * B ≤ y * ρ ∧ y * ρ ≤ 0) :=
  ⟨fun hy => ⟨mul_nonneg hy h0, mul_le_mul_of_nonneg_left h1 hy⟩,
   fun hy => ⟨mul_le_mul_of_nonpos_left h1 hy, mul_nonpos_of_nonpos_of_nonneg hy h0⟩⟩

/-- Rounding the vertical sum `S` and rounding the exact sum `T` differ by at
most one unit when `2^round_0 S` and `T + 128 C` differ by the small `Q`. -/
theorem round_near (N0 N1 C R M S T Q : Int)
    (hcfg : (N0 = 8 ∧ N1 = 2048 ∧ C = 16388 ∧ R = -262144 ∧ M = 255) ∨
      (N0 = 8 ∧ N1 = 2048 ∧ C = 65540 ∧ R = -1048576 ∧ M = 1023) ∨
      (N0 = 32 ∧ N1 = 512 ∧ C = 262160 ∧ R = -1048576 ∧ M = 4095))
    (key : N0 * S = T + 128 * C - Q) (hQ : -16383 ≤ 64 * N0 - Q ∧ 64 * N0 - Q ≤ 16383) :
    -1 ≤ min M (max 0 ((R + S + N1 / 2) / N1)) - max 0 (min M ((T + 8192) / 16384)) ∧
      min M (max 0 ((R + S + N1 / 2) / N1)) - max 0 (min M ((T + 8192) / 16384)) ≤ 1 := by
  rcases hcfg with ⟨rfl, rfl, rfl, rfl, rfl⟩ | ⟨rfl, rfl, rfl, rfl, rfl⟩ |
    ⟨rfl, rfl, rfl, rfl, rfl⟩ <;> omega

/-- The rounding remainders of the seven intermediate samples, weighted by
the vertical taps, stay below half a unit of the output. -/
theorem remainder_bound (N0 y0 y1 y2 y3 p0 p1 p2 p3 p4 p5 p6 : Int)
    (hN0 : N0 = 8 ∨ N0 = 32)
    (hy0 : -5 ≤ y0 ∧ y0 ≤ 10) (hy1 : -23 ≤ y1 ∧ y1 ≤ 8) (hy2 : -17 ≤ y2 ∧ y2 ≤ 46)
    (hy3 : y3 = -2 * (y0 + y1 + y2))
    (h0 : 0 ≤ p0 ∧ p0 < N0) (h1 : 0 ≤ p1 ∧ p1 < N0) (h2 : 0 ≤ p2 ∧ p2 < N0)
    (h3 : 0 ≤ p3 ∧ p3 < N0) (h4 : 0 ≤ p4 ∧ p4 < N0) (h5 : 0 ≤ p5 ∧ p5 < N0)
    (h6 : 0 ≤ p6 ∧ p6 < N0) :
    -16383 ≤ 64 * N0 - (y0 * (p0 + p6) + y1 * (p1 + p5) + y2 * (p2 + p4) + (y3 + 128) * p3) ∧
      64 * N0 - (y0 * (p0 + p6) + y1 * (p1 + p5) + y2 * (p2 + p4) + (y3 + 128) * p3)
        ≤ 16383 := by
  have q0 := mul_range y0 (p0 + p6) (2 * (N0 - 1)) (by omega) (by omega)
  have q1 := mul_range y1 (p1 + p5) (2 * (N0 - 1)) (by omega) (by omega)
  have q2 := mul_range y2 (p2 + p4) (2 * (N0 - 1)) (by omega) (by omega)
  have q3 := mul_range (y3 + 128) p3 (N0 - 1) (by omega) (by omega)
  generalize y0 * (p0 + p6) = Q0 at *
  generalize y1 * (p1 + p5) = Q1 at *
  generalize y2 * (p2 + p4) = Q2 at *
  generalize (y3 + 128) * p3 = Q3 at *
  rcases hN0 with rfl | rfl <;> omega

/-- The arithmetic behind the comparison with the exact filter: when the
intermediate samples are the unclamped rounded horizontal sums, the rounded
vertical sum is within one unit of the rounded exact two-dimensional sum. -/
theorem two_pass_near_exact (N0 N1 C R M : Int)
    (hcfg : (N0 = 8 ∧ N1 = 2048 ∧ C = 16388 ∧ R = -262144 ∧ M = 255) ∨
      (N0 = 8 ∧ N1 = 2048 ∧ C = 65540 ∧ R = -1048576 ∧ M = 1023) ∨
      (N0 = 32 ∧ N1 = 512 ∧ C = 262160 ∧ R = -1048576 ∧ M = 4095))
    (y0 y1 y2 y3 a0 a1 a2 a3 a4 a5 a6 : Int)
    (hy0 : -5 ≤ y0 ∧ y0 ≤ 10) (hy1 : -23 ≤ y1 ∧ y1 ≤ 8) (hy2 : -17 ≤ y2 ∧ y2 ≤ 46)
    (hy3 : y3 = -2 * (y0 + y1 + y2)) :
    -1 ≤ min M (max 0 ((R + (y0 * ((a0 + C) / N0 + (a6 + C) / N0)
          + y1 * ((a1 + C) / N0 + (a5 + C) / N0) + y2 * ((a2 + C) / N0 + (a4 + C) / N0)
          + (y3 + 128) * ((a3 + C) / N0)) + N1 / 2) / N1))
        - max 0 (min M ((y0 * (a0 + a6) + y1 * (a1 + a5) + y2 * (a2 + a4) + (y3 + 128) * a3
            + 8192) / 16384)) ∧
    min M (max 0 ((R + (y0 * ((a0 + C) / N0 + (a6 + C) / N0)
          + y1 * ((a1 + C) / N0 + (a5 + C) / N0) + y2 * ((a2 + C) / N0 + (a4 + C) / N0)
          + (y3 + 128) * ((a3 + C) / N0)) + N1 / 2) / N1))
        - max 0 (min M ((y0 * (a0 + a6) + y1 * (a1 + a5) + y2 * (a2 + a4) + (y3 + 128) * a3
            + 8192) / 16384)) ≤ 1 := by
  have hN0 : 0 < N0 := by omega
  have hN0' : N0 = 8 ∨ N0 = 32 := by omega
  have e0 := Int.ediv_add_emod (a0 + C) N0
  have e1 := Int.ediv_add_emod (a1 + C) N0
  have e2 := Int.ediv_add_emod (a2 + C) N0
  have e3 := Int.ediv_add_emod (a3 + C) N0
  have e4 := Int.ediv_add_emod (a4 + C) N0
  have e5 := Int.ediv_add_emod (a5 + C) N0
  have e6 := Int.ediv_add_emod (a6 + C) N0
  have hQ := remainder_bound N0 y0 y1 y2 y3 ((a0 + C) % N0) ((a1 + C) % N0) ((a2 + C) % N0)
    ((a3 + C) % N0) ((a4 + C) % N0) ((a5 + C) % N0) ((a6 + C) % N0) hN0' hy0 hy1 hy2 hy3
    ⟨Int.emod_nonneg _ (ne_of_gt hN0), Int.emod_lt_of_pos _ hN0⟩
    ⟨Int.emod_nonneg _ (ne_of_gt hN0), Int.emod_lt_of_pos _ hN0⟩
    ⟨Int.emod_nonneg _ (ne_of_gt hN0), Int.emod_lt_of_pos _ hN0⟩
    ⟨Int.emod_nonneg _ (ne_of_gt hN0), Int.emod_lt_of_pos _ hN0⟩
    ⟨Int.emod_nonneg _ (ne_of_gt hN0), Int.emod_lt_of_pos _ hN0⟩
    ⟨Int.emod_nonneg _ (ne_of_gt hN0), Int.emod_lt_of_pos _ hN0⟩
    ⟨Int.emod_nonneg _ (ne_of_gt hN0), Int.emod_lt_of_pos _ hN0⟩
  refine round_near N0 N1 C R M _ _ _ hcfg ?_ hQ
  subst hy3
  linear_combination y0 * (e0 + e6) + y1 * (e1 + e5) + y2 * (e2 + e4)
    + (-2 * (y0 + y1 + y2) + 128) * e3

theorem separable_sum_eq (x y : Fin 8 → Int) (src : Int → Int) (ss r c : Int) :
    separable_sum x y src ss r c
      = y 0 * (row_sum x src ss r c + row_sum x src ss (r + 6) c)
        + y 1 * (row_sum x src ss (r + 1) c + row_sum x src ss (r + 5) c)
        + y 2 * (row_sum x src ss (r + 2) c + row_sum x src ss (r + 4) c)
        + (y 3 + 128) * row_sum x src ss (r + 3) c := by
  have k0 : ∀ f : Fin 8 → Int, true_kernel f 0 = f 0 := fun _ => rfl
  have k1 : ∀ f : Fin 8 → Int, true_kernel f 1 = f 1 := fun _ => rfl
  have k2 : ∀ f : Fin 8 → Int, true_kernel f 2 = f 2 := fun _ => rfl
  have k3 : ∀ f : Fin 8 → Int, true_kernel f 3 = f 3 + 128 := fun _ => rfl
  have k4 : ∀ f : Fin 8 → Int, true_kernel f 4 = f 2 := fun _ => rfl
  have k5 : ∀ f : Fin 8 → Int, true_kernel f 5 = f 1 := fun _ => rfl
  have k6 : ∀ f : Fin 8 → Int, true_kernel f 6 = f 0 := fun _ => rfl
  have v0 : (((0 : Fin 7) : Nat) : Int) = 0 := rfl
  have v1 : (((1 : Fin 7) : Nat) : Int) = 1 := rfl
  have v2 : (((2 : Fin 7) : Nat) : Int) = 2 := rfl
  have v3 : (((3 : Fin 7) : Nat) : Int) = 3 := rfl
  have v4 : (((4 : Fin 7) : Nat) : Int) = 4 := rfl
  have v5 : (((5 : Fin 7) : Nat) : Int) = 5 := rfl
  have v6 : (((6 : Fin 7) : Nat) : Int) = 6 := rfl
  have a0 : ∀ z : Int, z + 0 - 3 = z - 3 := fun z => by ring
  have a1 : ∀ z : Int, z + 1 - 3 = z - 2 := fun z => by ring
  have a2 : ∀ z : Int, z + 2 - 3 = z - 1 := fun z => by ring
  have a3 : ∀ z : Int, z + 3 - 3 = z := fun z => by ring
  have a4 : ∀ z : Int, z + 4 - 3 = z + 1 := fun z => by ring
  have a5 : ∀ z : Int, z + 5 - 3 = z + 2 := fun z => by ring
  have a6 : ∀ z : Int, z + 6 - 3 = z + 3 := fun z => by ring
  have b1 : r + 1 - 3 = r - 2 := by ring
  have b2 : r + 2 - 3 = r - 1 := by ring
  have b3 : r + 3 - 3 = r := by ring
  have b4 : r + 4 - 3 = r + 1 := by ring
  have b5 : r + 5 - 3 = r + 2 := by ring
  have b6 : r + 6 - 3 = r + 3 := by ring
  simp only [separable_sum, Fin.sum_univ_seven, k0, k1, k2, k3, k4, k5, k6, v0, v1, v2, v3, v4,
    v5, v6, row_sum, wiener_acc, a0, a1, a2, a3, a4, a5, a6, b1, b2, b3, b4, b5, b6]
  ring

theorem round_div_two_pow_14 (T : Int) : round ((T : ℚ) / 2 ^ 14) = (T + 8192) / 16384 := by
  rw [round_eq]
  have e : (T : ℚ) / 2 ^ 14 + 1 / 2 = ((T + 8192 : ℤ) : ℚ) / ((16384 : ℕ) : ℚ) := by
    push_cast
    ring
  rw [e, Rat.floor_intCast_div_natCast]
  rfl

theorem I_formula_unclamped (bd r0 : Nat) (clamp : Int) (x : Fin 8 → Int) (src : Int → Int)
    (ss i c : Int)
    (h : 0 ≤ H_unclamped bd r0 x src ss i c ∧ H_unclamped bd r0 x src ss i c ≤ clamp - 1) :
    I_formula bd r0 clamp x src ss i c = H_unclamped bd r0 x src ss i c := by
  have e : I_formula bd r0 clamp x src ss i c
      = min (clamp - 1) (max 0 (H_unclamped bd r0 x src ss i c)) := by
    simp only [I_formula, H_formula, H_unclamped, row_sum, wiener_acc]
    congr 3
    ring
  rw [e]
  omega

/-- C6 (amended: no intermediate sample is clamped): for the codec rounding
configurations, source samples in `[0, 2^bd - 1]` on the block and its border,
and tap sets in the AV1 coefficient ranges, if every intermediate sample of
the block lies in `[0, clamp_limit - 1]` before its clamp, then the call returns
and every destination sample differs by at most 1 from the exact separable
filter result, rounded to nearest and clamped to `[0, 2^bd - 1]`. -/
theorem C6_reference_match (lim : Nat → Nat → Int) (fuel : Nat) (im0 src : Int → Int) (ss : Int)
    (dst : Int → Int) (ds : Int) (x_filter y_filter : Fin 8 → Int) (w h : Int)
    (cp : WienerConvolveParams) (bd : Nat)
    (hw8 : w % 8 = 0) (hw : 8 ≤ w) (hw' : w ≤ 128) (hh : 1 ≤ h) (hh' : h ≤ 128)
    (hcfg : (bd = 8 ∧ cp.round_0 = 3 ∧ cp.round_1 = 11) ∨
      (bd = 10 ∧ cp.round_0 = 3 ∧ cp.round_1 = 11) ∨
      (bd = 12 ∧ cp.round_0 = 5 ∧ cp.round_1 = 9))
    (hlim : lim cp.round_0 bd = 2 ^ (bd + 8 - cp.round_0))
    (hsrc : ∀ r c, -3 ≤ r → r ≤ h + 2 → -3 ≤ c → c ≤ w + 2 →
      0 ≤ src (r * ss + c) ∧ src (r * ss + c) ≤ 2 ^ bd - 1)
    (hx0 : -5 ≤ x_filter 0 ∧ x_filter 0 ≤ 10) (hx1 : -23 ≤ x_filter 1 ∧ x_filter 1 ≤ 8)
    (hx2 : -17 ≤ x_filter 2 ∧ x_filter 2 ≤ 46)
    (hx3 : x_filter 3 = -2 * (x_filter 0 + x_filter 1 + x_filter 2))
    (hy0 : -5 ≤ y_filter 0 ∧ y_filter 0 ≤ 10) (hy1 : -23 ≤ y_filter 1 ∧ y_filter 1 ≤ 8)
    (hy2 : -17 ≤ y_filter 2 ∧ y_filter 2 ≤ 46)
    (hy3 : y_filter 3 = -2 * (y_filter 0 + y_filter 1 + y_filter 2))
    (hx : x_filter 7 = 0) (hy : y_filter 7 = 0) (hds : w ≤ ds)
    (hf : w + h + 6 ≤ (fuel : Int))
    (hnoclamp : ∀ i c, 0 ≤ i → i < h + 6 → 0 ≤ c → c < w →
      0 ≤ H_unclamped bd cp.round_0 x_filter src ss i c ∧
        H_unclamped bd cp.round_0 x_filter src ss i c ≤ 2 ^ (bd + 8 - cp.round_0) - 1) :
    ∃ m, av1_highbd_wiener_convolve_add_src_neon lim fuel im0 src ss dst ds x_filter 16
        y_filter 16 w h cp bd = .returned m ∧
      ∀ r c, 0 ≤ r → r < h → 0 ≤ c → c < w →
        |m.dst (r * ds + c) - reference_pixel bd x_filter y_filter src ss r c| ≤ 1 := by
  obtain ⟨m, hrun, hdst, -, -⟩ := neon_call lim fuel im0 src ss dst ds x_filter y_filter w h cp
    bd hw8 (by omega) hw' (by omega) hh' hds hx hy hf
  refine ⟨m, hrun, fun r c h0 h1 h2 h3 => ?_⟩
  have hlim' : 1 ≤ lim cp.round_0 bd ∧ lim cp.round_0 bd ≤ 32768 := by
    rw [hlim]
    rcases hcfg with ⟨rfl, e, -⟩ | ⟨rfl, e, -⟩ | ⟨rfl, e, -⟩ <;> rw [e] <;> norm_num
  have htx : ∀ j : Fin 8, j.1 < 4 → -128 ≤ x_filter j ∧ x_filter j ≤ 128 := by
    intro j hj
    have : j = 0 ∨ j = 1 ∨ j = 2 ∨ j = 3 := by
      fin_cases j <;> simp at hj ⊢
    rcases this with rfl | rfl | rfl | rfl <;> omega
  have hty : ∀ j : Fin 8, j.1 < 4 → -128 ≤ y_filter j ∧ y_filter j ≤ 128 := by
    intro j hj
    have : j = 0 ∨ j = 1 ∨ j = 2 ∨ j = 3 := by
      fin_cases j <;> simp at hj ⊢
    rcases this with rfl | rfl | rfl | rfl <;> omega
  have hI : ∀ k : Int, 0 ≤ k → k ≤ 6 →
      I_formula bd cp.round_0 (lim cp.round_0 bd) x_filter src ss (r + k) c
        = H_unclamped bd cp.round_0 x_filter src ss (r + k) c := by
    intro k hk0 hk6
    refine I_formula_unclamped _ _ _ _ _ _ _ _ ?_
    rw [hlim]
    exact hnoclamp (r + k) c (by omega) (by omega) h2 h3
  have e0 := hI 0 (by omega) (by omega)
  rw [add_zero] at e0
  rw [hdst r c h0 h1 h2 h3,
    dst_pixel_eq lim src ss x_filter y_filter cp bd r c (by omega) (by omega) (by omega)
      hlim'.1 hlim'.2 (by omega) (by omega) htx hty
      (fun rr cc a0 a1 a2 a3 => hsrc rr cc (by omega) (by omega) (by omega) (by omega)),
    abs_le, reference_pixel, round_div_two_pow_14, separable_sum_eq, two_pass_formula, e0,
    hI 1 (by omega) (by omega), hI 2 (by omega) (by omega), hI 3 (by omega) (by omega),
    hI 4 (by omega) (by omega), hI 5 (by omega) (by omega), hI 6 (by omega) (by omega)]
  simp only [V_formula, H_unclamped]
  have hacc : ∀ R I0 I1 I2 I3 I4 I5 I6 : Int,
      wiener_acc R (y_filter 0) (y_filter 1) (y_filter 2) (y_filter 3) I0 I1 I2 I3 I4 I5 I6
        = R + (y_filter 0 * (I0 + I6) + y_filter 1 * (I1 + I5) + y_filter 2 * (I2 + I4)
            + (y_filter 3 + 128) * I3) := by
    intro R I0 I1 I2 I3 I4 I5 I6
    unfold wiener_acc
    ring
  rw [hacc]
  have hC : ∀ a : Int, 2 ^ (bd + 6) + a + 2 ^ (cp.round_0 - 1)
      = a + (2 ^ (bd + 6) + 2 ^ (cp.round_0 - 1)) := fun a => by ring
  simp only [hC]
  have key := two_pass_near_exact (2 ^ cp.round_0) (2 ^ cp.round_1)
    (2 ^ (bd + 6) + 2 ^ (cp.round_0 - 1)) (-(2 ^ (bd + cp.round_1 - 1))) (2 ^ bd - 1)
    (by rcases hcfg with ⟨rfl, e, e'⟩ | ⟨rfl, e, e'⟩ | ⟨rfl, e, e'⟩ <;> rw [e, e'] <;> norm_num)
    (y_filter 0) (y_filter 1) (y_filter 2) (y_filter 3)
    (row_sum x_filter src ss r c) (row_sum x_filter src ss (r + 1) c)
    (row_sum x_filter src ss (r + 2) c) (row_sum x_filter src ss (r + 3) c)
    (row_sum x_filter src ss (r + 4) c) (row_sum x_filter src ss (r + 5) c)
    (row_sum x_filter src ss (r + 6) c) hy0 hy1 hy2 hy3
  have hhalf : (2 : Int) ^ cp.round_1 / 2 = 2 ^ (cp.round_1 - 1) := by
    rcases hcfg with ⟨-, -, e'⟩ | ⟨-, -, e'⟩ | ⟨-, -, e'⟩ <;> rw [e'] <;> norm_num
  rw [hhalf] at key
  constructor
  · linarith [key.1]
  · linarith [key.2]

/-- C6, as stated, fails: with `bd = 8`, `round_0 = 3`, `round_1 = 11`, stored
taps `(-5, -23, -17, 90)` horizontally and `(10, 8, 46, -128)` vertically, and
all source samples 255 except `src[0][0] = 0`, the horizontal sum of the row
through `(0, 0)` is negative and is clamped to 0 in `im_block`; the call writes
117 at `(1, 0)` where the exact filter result is 99. -/
theorem C6_counterexample :
    ∃ m, av1_highbd_wiener_convolve_add_src_neon (fun r0 bd => 2 ^ (bd + 8 - r0)) 16
        (fun _ => 0) (fun a => if a = 0 then 0 else 255) 64 (fun _ => 0) 8
        ![-5, -23, -17, 90, 0, 0, 0, 0] 16 ![10, 8, 46, -128, 0, 0, 0, 0] 16 8 2 ⟨3, 11⟩ 8
        = .returned m ∧
      m.dst (1 * 8 + 0) = 117 ∧
      reference_pixel 8 ![-5, -23, -17, 90, 0, 0, 0, 0] ![10, 8, 46, -128, 0, 0, 0, 0]
        (fun a => if a = 0 then 0 else 255) 64 1 0 = 99 := by
  obtain ⟨m, hrun, hdst, -, -⟩ := neon_call (fun r0 bd => 2 ^ (bd + 8 - r0)) 16
    (fun _ => 0) (fun a => if a = 0 then 0 else 255) 64 (fun _ => 0) 8
    ![-5, -23, -17, 90, 0, 0, 0, 0] ![10, 8, 46, -128, 0, 0, 0, 0] 8 2 ⟨3, 11⟩ 8 (by decide)
    (by decide) (by decide) (by decide) (by decide) (by decide) rfl rfl (by decide)
  refine ⟨m, hrun, ?_, ?_⟩
  · rw [hdst 1 0 (by decide) (by decide) (by decide) (by decide)]
    decide
  · rw [reference_pixel, round_div_two_pow_14, separable_sum_eq]
    decide

/-- An instance of C6: `bd = 8`, horizontal stored taps `(1, -2, 3, -4)`, vertical identity, no intermediate sample clamped. -/
theorem C6_reference_match_witness :
    ∃ m, av1_highbd_wiener_convolve_add_src_neon (fun r0 bd => 2 ^ (bd + 8 - r0)) 15
        (fun _ => 0) (fun a => a % 256) 64 (fun _ => 0) 8 ![1, -2, 3, -4, 0, 0, 0, 0] 16
        ![0, 0, 0, 0, 0, 0, 0, 0] 16 8 1 ⟨3, 11⟩ 8 = .returned m ∧
      ∀ r c, 0 ≤ r → r < 1 → 0 ≤ c → c < 8 →
        |m.dst (r * 8 + c) - reference_pixel 8 ![1, -2, 3, -4, 0, 0, 0, 0]
          ![0, 0, 0, 0, 0, 0, 0, 0] (fun a => a % 256) 64 r c| ≤ 1 :=
  C6_reference_match (fun r0 bd => 2 ^ (bd + 8 - r0)) 15 (fun _ => 0) (fun a => a % 256) 64
    (fun _ => 0) 8 ![1, -2, 3, -4, 0, 0, 0, 0] ![0, 0, 0, 0, 0, 0, 0, 0] 8 1 ⟨3, 11⟩ 8
    (by decide) (by decide) (by decide) (by decide) (by decide) (Or.inl ⟨rfl, rfl, rfl⟩) rfl
    (fun r c _ _ _ _ => by norm_num; omega)
    (by decide) (by decide) (by decide) (by decide) (by decide) (by decide) (by decide)
    (by decide) rfl rfl (by decide) (by decide)
    (fun i c _ _ _ _ => by
      have x0 : (![1, -2, 3, -4, 0, 0, 0, 0] : Fin 8 → Int) 0 = 1 := rfl
      have x1 : (![1, -2, 3, -4, 0, 0, 0, 0] : Fin 8 → Int) 1 = -2 := rfl
      have x2 : (![1, -2, 3, -4, 0, 0, 0, 0] : Fin 8 → Int) 2 = 3 := rfl
      have x3 : (![1, -2, 3, -4, 0, 0, 0, 0] : Fin 8 → Int) 3 = -4 := rfl
      simp only [H_unclamped, row_sum, wiener_acc, x0, x1, x2, x3]
      norm_num
      omega)

theorem I_formula_const (bd r0 : Nat) (clamp : Int) (x_filter : Fin 8 → Int) (src : Int → Int)
    (ss i c M : Int) (hs : ∀ cc, c - 3 ≤ cc → cc ≤ c + 3 → src ((i - 3) * ss + cc) = M) :
    I_formula bd r0 clamp x_filter src ss i c
      = H_formula bd r0 clamp (x_filter 0) (x_filter 1) (x_filter 2) (x_filter 3) M M M M M M M := by
  simp only [I_formula, hs (c - 3) (by omega) (by omega), hs (c - 2) (by omega) (by omega),
    hs (c - 1) (by omega) (by omega), hs c (by omega) (by omega),
    hs (c + 1) (by omega) (by omega), hs (c + 2) (by omega) (by omega),
    hs (c + 3) (by omega) (by omega)]

/-- The vertical formula on seven equal samples `I`, when the stored taps are
not negative and `I` is large enough, is the maximum sample value. -/
theorem V_formula_saturates (bd r1 : Nat) (y0 y1 y2 y3 I Imin : Int)
    (hy0 : 0 ≤ y0) (hy1 : 0 ≤ y1) (hy2 : 0 ≤ y2) (hy3 : 0 ≤ y3) (hI : Imin ≤ I) (hI0 : 0 ≤ I)
    (hmin : (2 ^ bd - 1) * 2 ^ r1 ≤ -(2 ^ (bd + r1 - 1)) + 128 * Imin + 2 ^ (r1 - 1)) :
    V_formula bd r1 y0 y1 y2 y3 I I I I I I I = 2 ^ bd - 1 := by
  have p0 : 0 ≤ y0 * (I + I) := mul_nonneg hy0 (by omega)
  have p1 : 0 ≤ y1 * (I + I) := mul_nonneg hy1 (by omega)
  have p2 : 0 ≤ y2 * (I + I) := mul_nonneg hy2 (by omega)
  have p3 : 128 * I ≤ (y3 + 128) * I := mul_le_mul_of_nonneg_right (by omega) hI0
  have hq : (0 : Int) < 2 ^ r1 := by positivity
  have hb : (0 : Int) < 2 ^ bd := by positivity
  have hdiv : 2 ^ bd - 1 ≤ (wiener_acc (-(2 ^ (bd + r1 - 1))) y0 y1 y2 y3 I I I I I I I
      + 2 ^ (r1 - 1)) / 2 ^ r1 := by
    rw [Int.le_ediv_iff_mul_le hq]
    unfold wiener_acc
    omega
  unfold V_formula
  omega

/-- C7: for the codec rounding configurations, when every source sample of the
block and of its border of 3 samples is `2^bd - 1` and every stored tap of both
tap sets lies in `[0, 127]`, the call returns and every destination sample of
the block is `2^bd - 1`. -/
theorem C7_clamp_boundary (lim : Nat → Nat → Int) (fuel : Nat) (im0 src : Int → Int) (ss : Int)
    (dst : Int → Int) (ds : Int) (x_filter y_filter : Fin 8 → Int) (w h : Int)
    (cp : WienerConvolveParams) (bd : Nat)
    (hw8 : w % 8 = 0) (hw : 8 ≤ w) (hw' : w ≤ 128) (hh : 1 ≤ h) (hh' : h ≤ 128)
    (hcfg : (bd = 8 ∧ cp.round_0 = 3 ∧ cp.round_1 = 11) ∨
      (bd = 10 ∧ cp.round_0 = 3 ∧ cp.round_1 = 11) ∨
      (bd = 12 ∧ cp.round_0 = 5 ∧ cp.round_1 = 9))
    (hlim : lim cp.round_0 bd = 2 ^ (bd + 8 - cp.round_0))
    (hsrc : ∀ r c, -3 ≤ r → r ≤ h + 2 → -3 ≤ c → c ≤ w + 2 → src (r * ss + c) = 2 ^ bd - 1)
    (htx : ∀ j : Fin 8, j.1 < 4 → 0 ≤ x_filter j ∧ x_filter j ≤ 127)
    (hty : ∀ j : Fin 8, j.1 < 4 → 0 ≤ y_filter j ∧ y_filter j ≤ 127)
    (hx : x_filter 7 = 0) (hy : y_filter 7 = 0) (hds : w ≤ ds)
    (hf : w + h + 6 ≤ (fuel : Int)) :
    ∃ m, av1_highbd_wiener_convolve_add_src_neon lim fuel im0 src ss dst ds x_filter 16
        y_filter 16 w h cp bd = .returned m ∧
      ∀ r c, 0 ≤ r → r < h → 0 ≤ c → c < w → m.dst (r * ds + c) = 2 ^ bd - 1 := by
  obtain ⟨m, hrun, hdst, -, -⟩ := neon_call lim fuel im0 src ss dst ds x_filter y_filter w h cp
    bd hw8 (by omega) hw' (by omega) hh' hds hx hy hf
  refine ⟨m, hrun, fun r c h0 h1 h2 h3 => ?_⟩
  have hlim' : 1 ≤ lim cp.round_0 bd ∧ lim cp.round_0 bd ≤ 32768 := by
    rw [hlim]
    rcases hcfg with ⟨rfl, h0, -⟩ | ⟨rfl, h0, -⟩ | ⟨rfl, h0, -⟩ <;> rw [h0] <;> norm_num
  have hp0 : (0 : Int) < 2 ^ bd := by positivity
  rw [hdst r c h0 h1 h2 h3,
    dst_pixel_eq lim src ss x_filter y_filter cp bd r c (by omega) (by omega) (by omega)
      hlim'.1 hlim'.2 (by omega) (by omega)
      (fun j hj => by have := htx j hj; omega) (fun j hj => by have := hty j hj; omega)
      (fun rr cc a0 a1 a2 a3 => by
        rw [hsrc rr cc (by omega) (by omega) (by omega) (by omega)]; omega)]
  have hI : ∀ i : Int, r ≤ i → i ≤ r + 6 →
      I_formula bd cp.round_0 (lim cp.round_0 bd) x_filter src ss i c
        = H_formula bd cp.round_0 (lim cp.round_0 bd) (x_filter 0) (x_filter 1) (x_filter 2)
            (x_filter 3) (2 ^ bd - 1) (2 ^ bd - 1) (2 ^ bd - 1) (2 ^ bd - 1) (2 ^ bd - 1)
            (2 ^ bd - 1) (2 ^ bd - 1) :=
    fun i hi0 hi1 => I_formula_const bd cp.round_0 _ x_filter src ss i c _
      (fun cc a0 a1 => hsrc (i - 3) cc (by omega) (by omega) (by omega) (by omega))
  have e0 := hI r (by omega) (by omega)
  simp only [two_pass_formula, e0, hI (r + 1) (by omega) (by omega),
    hI (r + 2) (by omega) (by omega), hI (r + 3) (by omega) (by omega),
    hI (r + 4) (by omega) (by omega), hI (r + 5) (by omega) (by omega),
    hI (r + 6) (by omega) (by omega)]
  have x0 := htx 0 (by decide)
  have x1 := htx 1 (by decide)
  have x2 := htx 2 (by decide)
  have x3 := htx 3 (by decide)
  have y0 := hty 0 (by decide)
  have y1 := hty 1 (by decide)
  have y2 := hty 2 (by decide)
  have y3 := hty 3 (by decide)
  rcases hcfg with ⟨rfl, hr0, hr1⟩ | ⟨rfl, hr0, hr1⟩ | ⟨rfl, hr0, hr1⟩
  · rw [hr0] at hlim
    rw [hr0, hr1, hlim]
    refine V_formula_saturates 8 11 _ _ _ _ _ 6128 y0.1 y1.1 y2.1 y3.1 ?_ ?_ (by norm_num)
    · simp only [H_formula, wiener_acc]; norm_num; omega
    · simp only [H_formula, wiener_acc]; norm_num
  · rw [hr0] at hlim
    rw [hr0, hr1, hlim]
    refine V_formula_saturates 10 11 _ _ _ _ _ 24560 y0.1 y1.1 y2.1 y3.1 ?_ ?_ (by norm_num)
    · simp only [H_formula, wiener_acc]; norm_num; omega
    · simp only [H_formula, wiener_acc]; norm_num
  · rw [hr0] at hlim
    rw [hr0, hr1, hlim]
    refine V_formula_saturates 12 9 _ _ _ _ _ 24572 y0.1 y1.1 y2.1 y3.1 ?_ ?_ (by norm_num)
    · simp only [H_formula, wiener_acc]; norm_num; omega
    · simp only [H_formula, wiener_acc]; norm_num

/-- An instance of C7: `bd = 12`, all stored taps 127. -/
theorem C7_clamp_boundary_witness :
    ∃ m, av1_highbd_wiener_convolve_add_src_neon (fun r0 bd => 2 ^ (bd + 8 - r0)) 22
        (fun _ => 0) (fun _ => 2 ^ 12 - 1) 32 (fun _ => 0) 8 ![127, 127, 127, 127, 0, 0, 0, 0] 16
        ![127, 127, 127, 127, 0, 0, 0, 0] 16 8 2 ⟨5, 9⟩ 12 = .returned m ∧
      ∀ r c, 0 ≤ r → r < 2 → 0 ≤ c → c < 8 → m.dst (r * 8 + c) = 2 ^ 12 - 1 :=
  C7_clamp_boundary (fun r0 bd => 2 ^ (bd + 8 - r0)) 22 (fun _ => 0) (fun _ => 2 ^ 12 - 1) 32
    (fun _ => 0) 8 ![127, 127, 127, 127, 0, 0, 0, 0] ![127, 127, 127, 127, 0, 0, 0, 0] 8 2
    ⟨5, 9⟩ 12 (by decide) (by decide) (by decide) (by decide) (by decide)
    (Or.inr (Or.inr ⟨rfl, rfl, rfl⟩)) rfl (fun _ _ _ _ _ _ => rfl)
    (fun j _ => by fin_cases j <;> exact ⟨by decide, by decide⟩)
    (fun j _ => by fin_cases j <;> exact ⟨by decide, by decide⟩)
    rfl rfl (by decide) (by decide)

/-- C8, as stated, fails: with `bd = 8`, `round_0 = 3`, `round_1 = 11`, the
ramp `src[r][c] = 100 + c` and the stored taps `(1, 0, 0, 0)` in both
directions (true 7-tap sum 130), the call writes `105` at `(0, 0)` where the
source sample is `100`. -/
theorem C8_counterexample :
    ∃ m, av1_highbd_wiener_convolve_add_src_neon (fun r0 bd => 2 ^ (bd + 8 - r0)) 15
        (fun _ => 0) (fun a => 100 + ((a + 32) % 64 - 32)) 64 (fun _ => 0) 8
        ![1, 0, 0, 0, 0, 0, 0, 0] 16 ![1, 0, 0, 0, 0, 0, 0, 0] 16 8 1 ⟨3, 11⟩ 8 = .returned m ∧
      m.dst (0 * 8 + 0) = 105 ∧ (fun a : Int => 100 + ((a + 32) % 64 - 32)) (0 * 64 + 0) = 100 := by
  obtain ⟨m, hrun, hdst, -, -⟩ := neon_call (fun r0 bd => 2 ^ (bd + 8 - r0)) 15
    (fun _ => 0) (fun a => 100 + ((a + 32) % 64 - 32)) 64 (fun _ => 0) 8
    ![1, 0, 0, 0, 0, 0, 0, 0] ![1, 0, 0, 0, 0, 0, 0, 0] 8 1 ⟨3, 11⟩ 8 (by decide) (by decide)
    (by decide) (by decide) (by decide) (by decide) rfl rfl (by decide)
  refine ⟨m, hrun, ?_, by decide⟩
  rw [hdst 0 0 (by decide) (by decide) (by decide) (by decide)]
  decide

theorem wrap32_chain (rv p0 p1 p2 p3 : Int) :
    wrap32 (wrap32 (wrap32 (wrap32 (rv + p0) + p1) + p2) + p3)
      = wrap32 (rv + p0 + p1 + p2 + p3) := by
  unfold wrap32
  omega

/-- A lane of the horizontal kernel on samples that are symmetric about the
middle one, with taps of true sum 128: the taps drop out. -/
theorem h_lane_unity (f : int16x4_t) (rv sh mx s0 s1 s2 s3 s4 s5 s6 : Int)
    (hf : f 3 = -2 * (f 0 + f 1 + f 2) + 128)
    (h06 : s0 + s6 = 2 * s3) (h15 : s1 + s5 = 2 * s3) (h24 : s2 + s4 = 2 * s3)
    (hs3 : 0 ≤ s3 ∧ s3 ≤ 16383)
    (hrv : -2147483648 ≤ rv + 128 * s3 ∧ rv + 128 * s3 ≤ 2147483647) :
    h_lane f rv sh mx s0 s1 s2 s3 s4 s5 s6 = min (usat16 (sqrshl32 (rv + 128 * s3) sh)) mx := by
  unfold h_lane
  rw [h06, h15, h24, wrap16_eq (2 * s3) (by omega) (by omega), wrap32_chain, hf]
  have e : rv + 2 * s3 * f 0 + 2 * s3 * f 1 + 2 * s3 * f 2
      + s3 * (-2 * (f 0 + f 1 + f 2) + 128) = rv + 128 * s3 := by ring
  rw [e, wrap32_eq _ hrv.1 hrv.2]

/-- A lane of the vertical kernel on samples that are symmetric about the
middle one, with taps of true sum 128: the taps drop out. -/
theorem v_lane_unity (f : int16x4_t) (rv sh mx s0 s1 s2 s3 s4 s5 s6 : Int)
    (hf : f 3 = -2 * (f 0 + f 1 + f 2) + 128)
    (h06 : s0 + s6 = 2 * s3) (h15 : s1 + s5 = 2 * s3) (h24 : s2 + s4 = 2 * s3)
    (hrv : -2147483648 ≤ rv + 128 * s3 ∧ rv + 128 * s3 ≤ 2147483647) :
    v_lane f rv sh mx s0 s1 s2 s3 s4 s5 s6 = min (usat16 (sqrshl32 (rv + 128 * s3) sh)) mx := by
  unfold v_lane
  rw [h06, h15, h24, wrap32_chain, hf]
  have e : rv + 2 * s3 * f 0 + 2 * s3 * f 1 + 2 * s3 * f 2
      + s3 * (-2 * (f 0 + f 1 + f 2) + 128) = rv + 128 * s3 := by ring
  rw [e, wrap32_eq _ hrv.1 hrv.2]

/-- The taps handed to a stage have true sum 128 when the stored ones are
16-bit values with `t3 = -2 (t0 + t1 + t2)` and `t3 + 128` fits 16 bits. -/
theorem filter_s16_unity (filter : Fin 8 → Int)
    (hr : ∀ j : Fin 8, j.1 < 4 → -32768 ≤ filter j ∧ filter j ≤ 32767)
    (h3 : filter 3 = -2 * (filter 0 + filter 1 + filter 2)) (h3' : filter 3 + 128 ≤ 32767) :
    filter_s16 filter 3
      = -2 * (filter_s16 filter 0 + filter_s16 filter 1 + filter_s16 filter 2) + 128 := by
  obtain ⟨f0, f1, f2, f3⟩ := filter_s16_apply filter
  have t0 := hr 0 (by decide)
  have t1 := hr 1 (by decide)
  have t2 := hr 2 (by decide)
  have t3 := hr 3 (by decide)
  rw [f0, f1, f2, f3, wrap16_eq _ t0.1 t0.2, wrap16_eq _ t1.1 t1.2, wrap16_eq _ t2.1 t2.2,
    wrap16_eq _ (by omega) (by omega)]
  omega

/-- With taps of true sum 128 and a source row that is symmetric about the
middle sample `p` of the window, the intermediate sample is the rounded and
clamped `2^(bd+6) + 128 p`. -/
theorem im_pixel_unity (lim : Nat → Nat → Int) (src : Int → Int) (ss : Int)
    (x_filter : Fin 8 → Int) (cp : WienerConvolveParams) (bd : Nat) (i c : Int)
    (hbd : bd ≤ 14) (hr : 1 ≤ cp.round_0) (hr' : cp.round_0 ≤ 128)
    (hc : 1 ≤ lim cp.round_0 bd) (hc' : lim cp.round_0 bd ≤ 65536)
    (ht : ∀ j : Fin 8, j.1 < 4 → -32768 ≤ x_filter j ∧ x_filter j ≤ 32767)
    (h3 : x_filter 3 = -2 * (x_filter 0 + x_filter 1 + x_filter 2))
    (h3' : x_filter 3 + 128 ≤ 32767)
    (hs : ∀ cc, c - 3 ≤ cc → cc ≤ c + 3 →
      0 ≤ src ((i - 3) * ss + cc) ∧ src ((i - 3) * ss + cc) ≤ 2 ^ bd - 1)
    (hsym : ∀ j : Int, 1 ≤ j → j ≤ 3 →
      src ((i - 3) * ss + (c - j)) + src ((i - 3) * ss + (c + j)) = 2 * src ((i - 3) * ss + c)) :
    im_pixel lim src ss x_filter cp bd i c
      = min (lim cp.round_0 bd - 1)
          (max 0 ((2 ^ (bd + 6) + 128 * src ((i - 3) * ss + c) + 2 ^ (cp.round_0 - 1))
            / 2 ^ cp.round_0)) := by
  have hp : (2 : Int) ^ bd ≤ 2 ^ 14 := pow_le_pow_right₀ (by norm_num) hbd
  norm_num at hp
  have hq : (2 : Int) ^ (bd + 6) ≤ 2 ^ 20 := pow_le_pow_right₀ (by norm_num) (by omega)
  have hq0 : (0 : Int) < 2 ^ (bd + 6) := by positivity
  norm_num at hq
  have s0 := hs (c - 3) (by omega) (by omega)
  have s1 := hs (c - 2) (by omega) (by omega)
  have s2 := hs (c - 1) (by omega) (by omega)
  have s3 := hs c (by omega) (by omega)
  have s4 := hs (c + 1) (by omega) (by omega)
  have s5 := hs (c + 2) (by omega) (by omega)
  have s6 := hs (c + 3) (by omega) (by omega)
  have hsh : horiz_shift cp = -(cp.round_0 : Int) := wrap32_eq _ (by omega) (by omega)
  have hmx : im_max (lim cp.round_0 bd) = lim cp.round_0 bd - 1 := by unfold im_max; omega
  unfold im_pixel
  rw [wrap16_eq _ (by omega) (by omega), wrap16_eq _ (by omega) (by omega),
    wrap16_eq _ (by omega) (by omega), wrap16_eq _ (by omega) (by omega),
    wrap16_eq _ (by omega) (by omega), wrap16_eq _ (by omega) (by omega),
    wrap16_eq _ (by omega) (by omega),
    h_lane_unity _ _ _ _ _ _ _ _ _ _ _ (filter_s16_unity x_filter ht h3 h3')
      (hsym 3 (by omega) (by omega)) (hsym 2 (by omega) (by omega))
      (hsym 1 (by omega) (by omega)) (by omega)
      (by rw [horiz_round_eq bd (by omega)]; omega),
    horiz_round_eq bd (by omega), hsh, hmx,
    clamp_sqrshl _ _ cp.round_0 hr hr' (by omega) (by omega)]

/-- C8 (amended: tap sets of true sum 128): for the codec rounding
configurations, a source that ramps linearly left to right,
`src[r][c] = a + b c` with all values in `[0, 2^bd - 1]` on the block and its
border of 3 samples, and stored tap sets with `t3 = -2 (t0 + t1 + t2)` and
`t3 + 128` within 16 bits, the call returns and `dst[r][c] = src[r][c]` on the
whole block. -/
theorem C8_symmetry_unity_gain (lim : Nat → Nat → Int) (fuel : Nat) (im0 src : Int → Int)
    (ss : Int) (dst : Int → Int) (ds : Int) (x_filter y_filter : Fin 8 → Int) (w h : Int)
    (cp : WienerConvolveParams) (bd : Nat) (a b : Int)
    (hw8 : w % 8 = 0) (hw : 8 ≤ w) (hw' : w ≤ 128) (hh : 1 ≤ h) (hh' : h ≤ 128)
    (hcfg : (bd = 8 ∧ cp.round_0 = 3 ∧ cp.round_1 = 11) ∨
      (bd = 10 ∧ cp.round_0 = 3 ∧ cp.round_1 = 11) ∨
      (bd = 12 ∧ cp.round_0 = 5 ∧ cp.round_1 = 9))
    (hlim : lim cp.round_0 bd = 2 ^ (bd + 8 - cp.round_0))
    (hsrc : ∀ r c, -3 ≤ r → r ≤ h + 2 → -3 ≤ c → c ≤ w + 2 → src (r * ss + c) = a + b * c)
    (hrange : ∀ c, -3 ≤ c → c ≤ w + 2 → 0 ≤ a + b * c ∧ a + b * c ≤ 2 ^ bd - 1)
    (htx : ∀ j : Fin 8, j.1 < 4 → -32768 ≤ x_filter j ∧ x_filter j ≤ 32767)
    (hx3 : x_filter 3 = -2 * (x_filter 0 + x_filter 1 + x_filter 2))
    (hx3' : x_filter 3 + 128 ≤ 32767)
    (hty : ∀ j : Fin 8, j.1 < 4 → -32768 ≤ y_filter j ∧ y_filter j ≤ 32767)
    (hy3 : y_filter 3 = -2 * (y_filter 0 + y_filter 1 + y_filter 2))
    (hy3' : y_filter 3 + 128 ≤ 32767)
    (hx : x_filter 7 = 0) (hy : y_filter 7 = 0) (hds : w ≤ ds)
    (hf : w + h + 6 ≤ (fuel : Int)) :
    ∃ m, av1_highbd_wiener_convolve_add_src_neon lim fuel im0 src ss dst ds x_filter 16
        y_filter 16 w h cp bd = .returned m ∧
      ∀ r c, 0 ≤ r → r < h → 0 ≤ c → c < w → m.dst (r * ds + c) = src (r * ss + c) := by
  obtain ⟨m, hrun, hdst, -, -⟩ := neon_call lim fuel im0 src ss dst ds x_filter y_filter w h cp
    bd hw8 (by omega) hw' (by omega) hh' hds hx hy hf
  refine ⟨m, hrun, fun r c h0 h1 h2 h3 => ?_⟩
  have hlim' : 1 ≤ lim cp.round_0 bd ∧ lim cp.round_0 bd ≤ 32768 := by
    rw [hlim]
    rcases hcfg with ⟨rfl, e, -⟩ | ⟨rfl, e, -⟩ | ⟨rfl, e, -⟩ <;> rw [e] <;> norm_num
  have hp := hrange c (by omega) (by omega)
  have him : ∀ k : Int, 0 ≤ k → k ≤ 6 → im_pixel lim src ss x_filter cp bd (r + k) c
      = min (lim cp.round_0 bd - 1)
          (max 0 ((2 ^ (bd + 6) + 128 * (a + b * c) + 2 ^ (cp.round_0 - 1))
            / 2 ^ cp.round_0)) := by
    intro k hk0 hk6
    rw [im_pixel_unity lim src ss x_filter cp bd (r + k) c (by omega) (by omega) (by omega)
      hlim'.1 (by omega) htx hx3 hx3'
      (fun cc a0 a1 => by
        rw [hsrc (r + k - 3) cc (by omega) (by omega) (by omega) (by omega)]
        exact hrange cc (by omega) (by omega))
      (fun j hj0 hj3 => by
        rw [hsrc (r + k - 3) (c - j) (by omega) (by omega) (by omega) (by omega),
          hsrc (r + k - 3) (c + j) (by omega) (by omega) (by omega) (by omega),
          hsrc (r + k - 3) c (by omega) (by omega) (by omega) (by omega)]
        ring),
      hsrc (r + k - 3) c (by omega) (by omega) (by omega) (by omega)]
  have e0 := him 0 (by omega) (by omega)
  rw [add_zero] at e0
  have hsh : vert_shift cp = -(cp.round_1 : Int) := wrap32_eq _ (by omega) (by omega)
  rw [hdst r c h0 h1 h2 h3, hsrc r c (by omega) (by omega) (by omega) (by omega), dst_pixel,
    e0, him 1 (by omega) (by omega), him 2 (by omega) (by omega), him 3 (by omega) (by omega),
    him 4 (by omega) (by omega), him 5 (by omega) (by omega), him 6 (by omega) (by omega)]
  generalize hI : min (lim cp.round_0 bd - 1)
    (max 0 ((2 ^ (bd + 6) + 128 * (a + b * c) + 2 ^ (cp.round_0 - 1)) / 2 ^ cp.round_0)) = I
  have hIr : 0 ≤ I ∧ I ≤ 32767 := by omega
  rw [wrap16_eq I (by omega) hIr.2,
    v_lane_unity _ _ _ _ _ _ _ _ _ _ _ (filter_s16_unity y_filter hty hy3 hy3') (by ring)
      (by ring) (by ring)
      (by rw [vert_round_eq cp bd (by omega)]
          have hq : (2 : Int) ^ (bd + cp.round_1 - 1) ≤ 2 ^ 30 :=
            pow_le_pow_right₀ (by norm_num) (by omega)
          have hq0 : (0 : Int) < 2 ^ (bd + cp.round_1 - 1) := by positivity
          norm_num at hq
          omega),
    vert_round_eq cp bd (by omega), hsh, res_max_eq bd (by omega),
    clamp_sqrshl _ _ cp.round_1 (by omega) (by omega)
      (by have : (0 : Int) < 2 ^ bd := by positivity
          omega)
      (by have : (2 : Int) ^ bd ≤ 2 ^ 16 := pow_le_pow_right₀ (by norm_num) (by omega)
          norm_num at this
          omega)]
  rcases hcfg with ⟨rfl, hr0, hr1⟩ | ⟨rfl, hr0, hr1⟩ | ⟨rfl, hr0, hr1⟩ <;>
  · rw [hr0] at hlim hI
    rw [hlim] at hI
    rw [hr1]
    norm_num at hI hp ⊢
    omega

/-- An instance of C8: `bd = 8`, the ramp `100 + c`, stored taps `(3, -5, 7, -10)` and `(1, 2, -6, 6)`. -/
theorem C8_symmetry_unity_gain_witness :
    ∃ m, av1_highbd_wiener_convolve_add_src_neon (fun r0 bd => 2 ^ (bd + 8 - r0)) 15
        (fun _ => 0) (fun a => 100 + ((a + 32) % 64 - 32)) 64 (fun _ => 0) 8
        ![3, -5, 7, -10, 0, 0, 0, 0] 16 ![1, 2, -6, 6, 0, 0, 0, 0] 16 8 1 ⟨3, 11⟩ 8
        = .returned m ∧
      ∀ r c, 0 ≤ r → r < 1 → 0 ≤ c → c < 8 →
        m.dst (r * 8 + c) = (fun a : Int => 100 + ((a + 32) % 64 - 32)) (r * 64 + c) :=
  C8_symmetry_unity_gain (fun r0 bd => 2 ^ (bd + 8 - r0)) 15 (fun _ => 0)
    (fun a => 100 + ((a + 32) % 64 - 32)) 64 (fun _ => 0) 8 ![3, -5, 7, -10, 0, 0, 0, 0]
    ![1, 2, -6, 6, 0, 0, 0, 0] 8 1 ⟨3, 11⟩ 8 100 1 (by decide) (by decide) (by decide)
    (by decide) (by decide) (Or.inl ⟨rfl, rfl, rfl⟩) rfl
    (fun r c _ _ _ _ => by simp only; omega) (fun c _ _ => by norm_num; omega)
    (fun j _ => by fin_cases j <;> exact ⟨by decide, by decide⟩) (by decide) (by decide)
    (fun j _ => by fin_cases j <;> exact ⟨by decide, by decide⟩) (by decide) (by decide)
    rfl rfl (by decide) (by decide)

theorem tmod_eight (w : Int) : Int.tmod w 8 = 0 ↔ w % 8 = 0 := by
  rw [← Int.dvd_iff_tmod_eq_zero, Int.dvd_iff_emod_eq_zero]

/-- A call whose arguments pass the four assertions does not end at one. -/
theorem neon_not_assert_failed (lim : Nat → Nat → Int) (fuel : Nat) (im0 src : Int → Int)
    (ss : Int) (dst : Int → Int) (ds : Int) (x_filter y_filter : Fin 8 → Int) (w h : Int)
    (cp : WienerConvolveParams) (bd : Nat) (h1 : w % 8 = 0) (h2 : w ≤ MAX_SB_SIZE)
    (h3 : h ≤ MAX_SB_SIZE) (hx : x_filter 7 = 0) (hy : y_filter 7 = 0) (m : Machine) :
    av1_highbd_wiener_convolve_add_src_neon lim fuel im0 src ss dst ds x_filter 16
        y_filter 16 w h cp bd ≠ .assert_failed m := by
  intro hm
  unfold av1_highbd_wiener_convolve_add_src_neon at hm
  simp only [(tmod_eight w).mpr h1, h2, h3, hx, hy, not_true_eq_false, and_self,
    if_false] at hm
  split at hm
  · cases hm
  · split at hm <;> cases hm

/-- A call with an argument that fails an assertion ends there, before any
load or store. -/
theorem neon_assert_failed (lim : Nat → Nat → Int) (fuel : Nat) (im0 src : Int → Int)
    (ss : Int) (dst : Int → Int) (ds : Int) (x_filter : Fin 8 → Int) (x_step_q4 : Int)
    (y_filter : Fin 8 → Int) (y_step_q4 : Int) (w h : Int) (cp : WienerConvolveParams)
    (bd : Nat)
    (hbad : ¬ w % 8 = 0 ∨ w > MAX_SB_SIZE ∨ h > MAX_SB_SIZE ∨ x_step_q4 ≠ 16 ∨ y_step_q4 ≠ 16 ∨
        x_filter 7 ≠ 0 ∨ y_filter 7 ≠ 0) :
    av1_highbd_wiener_convolve_add_src_neon lim fuel im0 src ss dst ds x_filter x_step_q4
        y_filter y_step_q4 w h cp bd
      = .assert_failed { dst := dst, im_block := im0, src_loads := [], im_stores := [],
                         im_loads := [], dst_stores := [] } := by
  unfold av1_highbd_wiener_convolve_add_src_neon
  simp only [tmod_eight]
  by_cases h1 : w % 8 = 0
  · rw [if_neg (not_not.mpr h1)]
    by_cases h2 : w ≤ MAX_SB_SIZE ∧ h ≤ MAX_SB_SIZE
    · rw [if_neg (not_not.mpr h2)]
      by_cases h3 : x_step_q4 = 16 ∧ y_step_q4 = 16
      · rw [if_neg (not_not.mpr h3)]
        by_cases h4 : x_filter 7 = 0 ∧ y_filter 7 = 0
        · exfalso
          rcases hbad with hb | hb | hb | hb | hb | hb | hb
          · exact hb h1
          · exact absurd h2.1 (not_le.mpr hb)
          · exact absurd h2.2 (not_le.mpr hb)
          · exact hb h3.1
          · exact hb h3.2
          · exact hb h4.1
          · exact hb h4.2
        · rw [if_pos h4]
      · rw [if_pos h3]
    · rw [if_pos h2]
  · rw [if_pos h1]

/-- C9: the call ends at an assertion exactly when `w` is not a multiple of 8,
or `w > MAX_SB_SIZE`, or `h > MAX_SB_SIZE`, or a step is not 16, or entry 7 of a
filter array is not 0; and then nothing was loaded or stored: the destination
and the scratch buffer are as they were. -/
theorem C9_precondition_rejection (lim : Nat → Nat → Int) (fuel : Nat) (im0 src : Int → Int)
    (ss : Int) (dst : Int → Int) (ds : Int) (x_filter : Fin 8 → Int) (x_step_q4 : Int)
    (y_filter : Fin 8 → Int) (y_step_q4 : Int) (w h : Int) (cp : WienerConvolveParams)
    (bd : Nat) :
    ((∃ m, av1_highbd_wiener_convolve_add_src_neon lim fuel im0 src ss dst ds x_filter
        x_step_q4 y_filter y_step_q4 w h cp bd = .assert_failed m) ↔
      (¬ w % 8 = 0 ∨ w > MAX_SB_SIZE ∨ h > MAX_SB_SIZE ∨ x_step_q4 ≠ 16 ∨ y_step_q4 ≠ 16 ∨
        x_filter 7 ≠ 0 ∨ y_filter 7 ≠ 0)) ∧
    (∀ m, av1_highbd_wiener_convolve_add_src_neon lim fuel im0 src ss dst ds x_filter
        x_step_q4 y_filter y_step_q4 w h cp bd = .assert_failed m →
      m.dst = dst ∧ m.im_block = im0 ∧ m.src_loads = [] ∧ m.im_stores = [] ∧
        m.im_loads = [] ∧ m.dst_stores = []) := by
  have key : ∀ m, av1_highbd_wiener_convolve_add_src_neon lim fuel im0 src ss dst ds x_filter
      x_step_q4 y_filter y_step_q4 w h cp bd = .assert_failed m →
      (¬ w % 8 = 0 ∨ w > MAX_SB_SIZE ∨ h > MAX_SB_SIZE ∨ x_step_q4 ≠ 16 ∨ y_step_q4 ≠ 16 ∨
        x_filter 7 ≠ 0 ∨ y_filter 7 ≠ 0) := by
    intro m hm
    by_contra hn
    simp only [not_or, not_not, not_lt, gt_iff_lt, ne_eq] at hn
    obtain ⟨h1, h2, h3, rfl, rfl, hx, hy⟩ := hn
    exact neon_not_assert_failed lim fuel im0 src ss dst ds x_filter y_filter w h cp bd h1 h2 h3
      hx hy m hm
  refine ⟨⟨fun ⟨m, hm⟩ => key m hm, fun hbad => ⟨_, neon_assert_failed lim fuel im0 src ss dst
    ds x_filter x_step_q4 y_filter y_step_q4 w h cp bd hbad⟩⟩, fun m hm => ?_⟩
  rw [neon_assert_failed lim fuel im0 src ss dst ds x_filter x_step_q4 y_filter y_step_q4 w h
    cp bd (key m hm)] at hm
  cases hm
  exact ⟨rfl, rfl, rfl, rfl, rfl, rfl⟩

/-- The row loop of the horizontal stage never ends when it starts with a
width that is not positive. -/
theorem horiz_hip_row_diverges (src : Int → Int) (f : int16x4_t) (rv sh mx : Int) :
    ∀ (fuel : Nat) (s d width : Int) (st : Stage), width ≤ 0 →
      horiz_hip_row src f (fun _ => rv) (fun _ => sh) (fun _ => mx) fuel s d width st = none := by
  intro fuel
  induction fuel with
  | zero => intro s d width st _; rfl
  | succ fuel ih =>
    intro s d width st hw
    rw [horiz_hip_row_succ, if_pos (by omega)]
    exact ih _ _ _ _ (by omega)

/-- C10, as stated, fails: `w = 0` passes the four assertions (with `h = 8`,
both steps 16 and zero padding), yet the first pass of the row loop stores a
batch and leaves `width = -8`, which never becomes 0: the call returns for no
amount of fuel. -/
theorem C10_counterexample :
    ¬ ∃ (fuel : Nat) (m : Machine),
      av1_highbd_wiener_convolve_add_src_neon (fun r0 bd => 2 ^ (bd + 8 - r0)) fuel
        (fun _ => 0) (fun _ => 0) 16 (fun _ => 0) 16 ![0, 0, 0, 0, 0, 0, 0, 0] 16
        ![0, 0, 0, 0, 0, 0, 0, 0] 16 0 8 ⟨3, 11⟩ 8 = .returned m := by
  rintro ⟨fuel, m, hm⟩
  have hdup : ∀ x, vdupq_n_s32 x = fun _ => wrap32 x := fun _ => rfl
  have hdupu : ∀ x, vdupq_n_u16 x = fun _ => x % 65536 := fun _ => rfl
  have h7 : (![0, 0, 0, 0, 0, 0, 0, 0] : Fin 8 → Int) 7 = 0 := rfl
  unfold av1_highbd_wiener_convolve_add_src_neon at hm
  simp only [hdup, hdupu] at hm
  cases fuel with
  | zero => simp [highbd_convolve_add_src_horiz_hip, MAX_SB_SIZE, h7] at hm
  | succ fuel =>
    rw [highbd_convolve_add_src_horiz_hip_succ,
      horiz_hip_row_diverges _ _ _ _ _ _ _ _ _ _ (le_refl 0)] at hm
    simp [MAX_SB_SIZE, h7] at hm

theorem length_flatMap_const {α β : Type} (l : List α) (f : α → List β) (n : Nat)
    (h : ∀ a, (f a).length = n) : (l.flatMap f).length = l.length * n := by
  induction l with
  | nil => simp
  | cons a l ih => simp only [List.flatMap_cons, List.length_append, h, ih, List.length_cons]; ring

theorem mem_strip_loads (h : Nat) (j : Int) (x : Int) (hx : x ∈ strip_loads h (8 * j) 128) :
    ∃ row : Int, 0 ≤ row ∧ row ≤ (h : Int) + 5 ∧ x = row * 128 + 8 * j := by
  simp only [strip_loads, load_offsets, List.mem_append, List.mem_flatMap, List.mem_map,
    List.mem_range] at hx
  rcases hx with ⟨i, hi, k, hk, rfl⟩ | ⟨i, hi, k, hk, rfl⟩
  · exact ⟨4 * (i : Int) + k, by omega, by omega, by ring⟩
  · exact ⟨4 * ((h / 4 : Nat) : Int) + i + k, by omega, by omega, by ring⟩

/-- C10 (amended: `w > 0` and `h ≥ 0` besides the assertions): the call
returns with enough fuel, after exactly `(w/8) (h+6)` vector stores to
`im_block` and `(w/8) h` vector stores to the destination, and every vector
store to and vector load from `im_block` lies inside it. -/
theorem C10_completes (lim : Nat → Nat → Int) (fuel : Nat) (im0 src : Int → Int) (ss : Int)
    (dst : Int → Int) (ds : Int) (x_filter y_filter : Fin 8 → Int) (w h : Int)
    (cp : WienerConvolveParams) (bd : Nat)
    (hw8 : w % 8 = 0) (hw : 0 < w) (hw' : w ≤ 128) (hh : 0 ≤ h) (hh' : h ≤ 128)
    (hx : x_filter 7 = 0) (hy : y_filter 7 = 0)
    (hf : w + h + 6 ≤ (fuel : Int)) :
    ∃ m, av1_highbd_wiener_convolve_add_src_neon lim fuel im0 src ss dst ds x_filter 16
        y_filter 16 w h cp bd = .returned m ∧
      (m.im_stores.length : Int) = w / 8 * (h + 6) ∧
      (m.dst_stores.length : Int) = w / 8 * h ∧
      (∀ x ∈ m.im_stores, 0 ≤ x ∧ x + 8 ≤ im_block_size) ∧
      (∀ x ∈ m.im_loads, 0 ≤ x ∧ x + 8 ≤ im_block_size) := by
  obtain ⟨k, n, rfl, rfl, hk, hn⟩ := valid_geometry w h hw8 hw hw' hh hh'
  obtain ⟨m, hrun, -, -, hst, -, hdst, hld⟩ := neon_returns lim fuel im0 src ss dst ds x_filter
    y_filter cp bd k n hk hn hx hy (by omega)
  have hk8 : (8 * ((k : Int) + 1)) / 8 = (k : Int) + 1 := by omega
  refine ⟨m, hrun, ?_, ?_, ?_, ?_⟩
  · rw [hst, length_flatMap_const _ _ (k + 1) (by simp), hk8]
    simp only [List.length_range]
    push_cast
    ring
  · rw [hdst, length_flatMap_const _ _ n (by simp), hk8]
    simp only [List.length_range]
    push_cast
    ring
  · intro x hxm
    rw [hst] at hxm
    simp only [List.mem_flatMap, List.mem_map, List.mem_range] at hxm
    obtain ⟨i, hi, j, hj, rfl⟩ := hxm
    simp only [im_block_size, MAX_SB_SIZE, WIENER_WIN]
    omega
  · intro x hxm
    rw [hld] at hxm
    simp only [List.mem_flatMap, List.mem_range] at hxm
    obtain ⟨j, hj, hxj⟩ := hxm
    obtain ⟨row, hr0, hr1, rfl⟩ := mem_strip_loads n j x hxj
    simp only [im_block_size, MAX_SB_SIZE, WIENER_WIN]
    omega

/-- An instance of C10: a 16x7 block. -/
theorem C10_completes_witness :
    ∃ m, av1_highbd_wiener_convolve_add_src_neon (fun r0 bd => 2 ^ (bd + 8 - r0)) 150
        (fun _ => 0) (fun a => a % 256) 200 (fun _ => 0) 128 ![1, 2, 3, 4, 5, 6, 7, 0] 16
        ![0, 0, 0, 0, 0, 0, 0, 0] 16 16 7 ⟨3, 11⟩ 8 = .returned m ∧
      (m.im_stores.length : Int) = 16 / 8 * (7 + 6) ∧
      (m.dst_stores.length : Int) = 16 / 8 * 7 ∧
      (∀ x ∈ m.im_stores, 0 ≤ x ∧ x + 8 ≤ im_block_size) ∧
      (∀ x ∈ m.im_loads, 0 ≤ x ∧ x + 8 ≤ im_block_size) :=
  C10_completes (fun r0 bd => 2 ^ (bd + 8 - r0)) 150 (fun _ => 0) (fun a => a % 256) 200
    (fun _ => 0) 128 ![1, 2, 3, 4, 5, 6, 7, 0] ![0, 0, 0, 0, 0, 0, 0, 0] 16 7 ⟨3, 11⟩ 8
    (by decide) (by decide) (by decide) (by decide) (by decide) rfl rfl (by decide)

/-- In a list without duplicates, a predicate that singles out one member holds
for exactly one entry. -/
theorem countP_eq_one (l : List Int) (p : Int → Bool) (x0 : Int) (hnd : l.Nodup) (hmem : x0 ∈ l)
    (hp : ∀ y ∈ l, p y = true ↔ y = x0) : l.countP p = 1 := by
  rw [List.countP_congr (q := fun y => y == x0) (fun y hy => by simp [hp y hy])]
  exact List.count_eq_one_of_mem hnd hmem

/-- The vector stores of a stage that writes row after row are pairwise
different when the stride is at least the width. -/
theorem nodup_row_stores (k n : Nat) (ds : Int) (hds : 8 * ((k : Int) + 1) ≤ ds) :
    ((List.range n).flatMap (fun (i : Nat) =>
      (List.range (k + 1)).map (fun (j : Nat) => (i : Int) * ds + 8 * (j : Int)))).Nodup := by
  rw [List.nodup_flatMap]
  refine ⟨fun i _ => (List.nodup_range (k + 1)).map_on (fun a _ b _ hab => ?_), ?_⟩
  · have hab' : (i : Int) * ds + 8 * (a : Int) = (i : Int) * ds + 8 * (b : Int) := hab
    omega
  · refine (List.nodup_range n).imp_of_mem (fun {a b} ha hb hne => ?_)
    simp only [Function.onFun, List.disjoint_left, List.mem_map, List.mem_range]
    rintro x ⟨j, _, rfl⟩ ⟨j', _, hx⟩
    have := pos_unique ds 0 (8 * ((k : Int) + 1)) b a (8 * (j' : Int)) (8 * (j : Int)) (by omega)
      (by omega) (by omega) (by omega) (by omega) (by omega)
    omega

/-- C12: for a valid geometry the call returns; the horizontal stage stores
exactly once to each position `(i, c)`, `0 ≤ i < h + 6`, `0 ≤ c < w`, of
`im_block`, at index `i * 128 + c`, which is below the size `(128 + 6) * 128` of
the buffer, and to no other element; the vertical stage makes the 10-vector
loads of its 4-row steps and then the 7-vector loads of its single-row steps,
strip after strip, and every element it loads is a position `(i, c)` with
`0 ≤ i ≤ h + 5` and `0 ≤ c < w`, so it is inside the buffer and under a store of
the horizontal stage. -/
theorem C12_intermediate_geometry (lim : Nat → Nat → Int) (fuel : Nat) (im0 src : Int → Int)
    (ss : Int) (dst : Int → Int) (ds : Int) (x_filter y_filter : Fin 8 → Int) (w h : Int)
    (cp : WienerConvolveParams) (bd : Nat)
    (hw8 : w % 8 = 0) (hw : 8 ≤ w) (hw' : w ≤ 128) (hh : 1 ≤ h) (hh' : h ≤ 128)
    (hx : x_filter 7 = 0) (hy : y_filter 7 = 0)
    (hf : w + h + 6 ≤ (fuel : Int)) :
    ∃ m, av1_highbd_wiener_convolve_add_src_neon lim fuel im0 src ss dst ds x_filter 16
        y_filter 16 w h cp bd = .returned m ∧
      (∀ i c, 0 ≤ i → i < h + 6 → 0 ≤ c → c < w →
        m.im_stores.countP (fun p => decide (p ≤ i * 128 + c ∧ i * 128 + c < p + 8)) = 1 ∧
          0 ≤ i * 128 + c ∧ i * 128 + c < im_block_size ∧
          m.im_block (i * 128 + c) = im_pixel lim src ss x_filter cp bd i c) ∧
      (∀ a, (∀ i c, 0 ≤ i → i < h + 6 → 0 ≤ c → c < w → a ≠ i * 128 + c) →
        m.im_stores.countP (fun p => decide (p ≤ a ∧ a < p + 8)) = 0 ∧ m.im_block a = im0 a) ∧
      m.im_loads = (List.range (w / 8).toNat).flatMap (fun (j : Nat) =>
        strip_loads h.toNat (8 * (j : Int)) 128) ∧
      (∀ p ∈ m.im_loads, ∀ l : Int, 0 ≤ l → l < 8 →
        ∃ i c, 0 ≤ i ∧ i ≤ h + 5 ∧ 0 ≤ c ∧ c < w ∧ p + l = i * 128 + c ∧
          0 ≤ p + l ∧ p + l < im_block_size ∧
          ∃ q ∈ m.im_stores, q ≤ p + l ∧ p + l < q + 8) := by
  obtain ⟨k, n, rfl, rfl, hk, hn⟩ := valid_geometry w h hw8 (by omega) hw' (by omega) hh'
  obtain ⟨m, hrun, hwr, -, hst, -, -, hld⟩ := neon_returns lim fuel im0 src ss dst ds x_filter
    y_filter cp bd k n hk hn hx hy (by omega)
  have hnd := nodup_row_stores k (n + 6) 128 (by omega)
  refine ⟨m, hrun, ?_, ?_, ?_, ?_⟩
  · intro i c h0 h1 h2 h3
    refine ⟨?_, by omega, by simp only [im_block_size, MAX_SB_SIZE, WIENER_WIN]; omega, ?_⟩
    · rw [hst]
      apply countP_eq_one _ _ (i * 128 + 8 * (c / 8)) hnd
      · simp only [List.mem_flatMap, List.mem_map, List.mem_range]
        exact ⟨i.toNat, by omega, (c / 8).toNat, by omega, by
          rw [Int.toNat_of_nonneg h0, Int.toNat_of_nonneg (by omega)]⟩
      · intro y hy
        simp only [List.mem_flatMap, List.mem_map, List.mem_range] at hy
        obtain ⟨a, ha, j, hj, rfl⟩ := hy
        simp only [decide_eq_true_eq]
        omega
    · have := hwr.1 i c h0 h1 h2 h3
      rwa [zero_add] at this
  · intro a ha
    refine ⟨?_, hwr.2 a (fun r c h0 h1 h2 h3 => by rw [zero_add]; exact ha r c h0 h1 h2 h3)⟩
    rw [hst, List.countP_eq_zero]
    intro y hy
    simp only [List.mem_flatMap, List.mem_map, List.mem_range] at hy
    obtain ⟨i, hi, j, hj, rfl⟩ := hy
    simp only [decide_eq_true_eq]
    rintro ⟨a0, a1⟩
    exact ha i (a - (i : Int) * 128) (by omega) (by omega) (by omega) (by omega) (by omega)
  · rw [hld]
    have e : (8 * ((k : Int) + 1) / 8).toNat = k + 1 := by omega
    rw [e, Int.toNat_ofNat]
  · intro p hp l hl0 hl1
    rw [hld] at hp
    simp only [List.mem_flatMap, List.mem_range] at hp
    obtain ⟨j, hj, hpj⟩ := hp
    obtain ⟨row, hr0, hr1, rfl⟩ := mem_strip_loads n j p hpj
    refine ⟨row, 8 * (j : Int) + l, hr0, hr1, by omega, by omega, by ring, by omega,
      by simp only [im_block_size, MAX_SB_SIZE, WIENER_WIN]; omega,
      row * 128 + 8 * (j : Int), ?_, by omega, by omega⟩
    rw [hst]
    simp only [List.mem_flatMap, List.mem_map, List.mem_range]
    exact ⟨row.toNat, by omega, j, hj, by rw [Int.toNat_of_nonneg hr0]⟩

/-- An instance of C12: a 16x7 block. -/
theorem C12_intermediate_geometry_witness :
    ∃ m, av1_highbd_wiener_convolve_add_src_neon (fun r0 bd => 2 ^ (bd + 8 - r0)) 150
        (fun _ => 0) (fun a => a % 256) 200 (fun _ => 0) 24 ![1, 2, 3, 4, 5, 6, 7, 0] 16
        ![0, 0, 0, 0, 0, 0, 0, 0] 16 16 7 ⟨3, 11⟩ 8 = .returned m ∧
      (∀ i c, 0 ≤ i → i < 7 + 6 → 0 ≤ c → c < 16 →
        m.im_stores.countP (fun p => decide (p ≤ i * 128 + c ∧ i * 128 + c < p + 8)) = 1 ∧
          0 ≤ i * 128 + c ∧ i * 128 + c < im_block_size ∧
          m.im_block (i * 128 + c) = im_pixel (fun r0 bd => 2 ^ (bd + 8 - r0))
            (fun a => a % 256) 200 ![1, 2, 3, 4, 5, 6, 7, 0] ⟨3, 11⟩ 8 i c) ∧
      (∀ a, (∀ i c, 0 ≤ i → i < 7 + 6 → 0 ≤ c → c < 16 → a ≠ i * 128 + c) →
        m.im_stores.countP (fun p => decide (p ≤ a ∧ a < p + 8)) = 0 ∧
          m.im_block a = (fun _ => 0) a) ∧
      m.im_loads = (List.range ((16 : Int) / 8).toNat).flatMap (fun (j : Nat) =>
        strip_loads (7 : Int).toNat (8 * (j : Int)) 128) ∧
      (∀ p ∈ m.im_loads, ∀ l : Int, 0 ≤ l → l < 8 →
        ∃ i c, 0 ≤ i ∧ i ≤ 7 + 5 ∧ 0 ≤ c ∧ c < 16 ∧ p + l = i * 128 + c ∧
          0 ≤ p + l ∧ p + l < im_block_size ∧
          ∃ q ∈ m.im_stores, q ≤ p + l ∧ p + l < q + 8) :=
  C12_intermediate_geometry (fun r0 bd => 2 ^ (bd + 8 - r0)) 150 (fun _ => 0)
    (fun a => a % 256) 200 (fun _ => 0) 24 ![1, 2, 3, 4, 5, 6, 7, 0] ![0, 0, 0, 0, 0, 0, 0, 0]
    16 7 ⟨3, 11⟩ 8
    (by decide) (by decide) (by decide) (by decide) (by decide) rfl rfl (by decide)

theorem h_lane_range (f : int16x4_t) (rv sh mx s0 s1 s2 s3 s4 s5 s6 : Int) (hmx : 0 ≤ mx) :
    0 ≤ h_lane f rv sh mx s0 s1 s2 s3 s4 s5 s6 ∧ h_lane f rv sh mx s0 s1 s2 s3 s4 s5 s6 ≤ mx := by
  simp only [h_lane, usat16]
  generalize sqrshl32 _ _ = y
  omega

/-- C16: for a valid geometry, whatever the source, the taps, `bd` and the two
rounding shifts, when `1 ≤ clamp_limit ≤ 65536` every sample of the intermediate
block lies in `[0, clamp_limit - 1]`; and when moreover `clamp_limit ≤ 2^15`, as
with `clamp_limit = 2^(bd + 8 - round_0)` for `(bd, round_0)` among `(8, 3)`,
`(10, 3)`, `(12, 5)`, every intermediate sample is at most 32767 and every lane of
every vector load of the vertical stage, which reads the buffer as `int16_t`, is
the stored value. -/
theorem C16_intermediate_clamp (lim : Nat → Nat → Int) (fuel : Nat) (im0 src : Int → Int)
    (ss : Int) (dst : Int → Int) (ds : Int) (x_filter y_filter : Fin 8 → Int) (w h : Int)
    (cp : WienerConvolveParams) (bd : Nat)
    (hw8 : w % 8 = 0) (hw : 8 ≤ w) (hw' : w ≤ 128) (hh : 1 ≤ h) (hh' : h ≤ 128)
    (hx : x_filter 7 = 0) (hy : y_filter 7 = 0)
    (hc : 1 ≤ lim cp.round_0 bd) (hc' : lim cp.round_0 bd ≤ 65536)
    (hf : w + h + 6 ≤ (fuel : Int)) :
    ∃ m, av1_highbd_wiener_convolve_add_src_neon lim fuel im0 src ss dst ds x_filter 16
        y_filter 16 w h cp bd = .returned m ∧
      (∀ i c, 0 ≤ i → i < h + 6 → 0 ≤ c → c < w →
        0 ≤ m.im_block (i * 128 + c) ∧ m.im_block (i * 128 + c) ≤ lim cp.round_0 bd - 1) ∧
      (((bd = 8 ∧ cp.round_0 = 3) ∨ (bd = 10 ∧ cp.round_0 = 3) ∨ (bd = 12 ∧ cp.round_0 = 5)) →
        lim cp.round_0 bd = 2 ^ (bd + 8 - cp.round_0) → lim cp.round_0 bd ≤ 2 ^ 15) ∧
      (lim cp.round_0 bd ≤ 2 ^ 15 →
        (∀ i c, 0 ≤ i → i < h + 6 → 0 ≤ c → c < w → m.im_block (i * 128 + c) ≤ 32767) ∧
        ∀ p ∈ m.im_loads, ∀ l : Fin 8, vld1q_s16 m.im_block p l = m.im_block (p + l.1)) := by
  obtain ⟨k, n, rfl, rfl, hk, hn⟩ := valid_geometry w h hw8 (by omega) hw' (by omega) hh'
  obtain ⟨m, hrun, hwr, -, -, -, -, hld⟩ := neon_returns lim fuel im0 src ss dst ds x_filter
    y_filter cp bd k n hk hn hx hy (by omega)
  have hmx : im_max (lim cp.round_0 bd) = lim cp.round_0 bd - 1 := by unfold im_max; omega
  have hrange : ∀ i c, 0 ≤ i → i < (n : Int) + 6 → 0 ≤ c → c < 8 * ((k : Int) + 1) →
      0 ≤ m.im_block (i * 128 + c) ∧ m.im_block (i * 128 + c) ≤ lim cp.round_0 bd - 1 := by
    intro i c h0 h1 h2 h3
    have e := hwr.1 i c h0 h1 h2 h3
    rw [zero_add] at e
    rw [e, im_pixel, hmx]
    exact h_lane_range _ _ _ _ _ _ _ _ _ _ _ (by omega)
  refine ⟨m, hrun, hrange, ?_, fun h15 => ⟨fun i c h0 h1 h2 h3 => ?_, fun p hp l => ?_⟩⟩
  · rintro (⟨rfl, h0⟩ | ⟨rfl, h0⟩ | ⟨rfl, h0⟩) hl <;> (rw [hl, h0]; try norm_num)
  · have := hrange i c h0 h1 h2 h3
    norm_num at h15
    omega
  · rw [hld] at hp
    simp only [List.mem_flatMap, List.mem_range] at hp
    obtain ⟨j, hj, hpj⟩ := hp
    obtain ⟨row, hr0, hr1, rfl⟩ := mem_strip_loads n j p hpj
    have := hrange row (8 * (j : Int) + l.1) hr0 (by omega) (by omega) (by omega)
    have e : row * 128 + 8 * (j : Int) + (l.1 : Int) = row * 128 + (8 * (j : Int) + l.1) := by
      ring
    norm_num at h15
    simp only [vld1q_s16]
    rw [e]
    exact wrap16_eq _ (by omega) (by omega)

/-- An instance of C16: a 16x7 block with `bd = 8`, `round_0 = 3`. -/
theorem C16_intermediate_clamp_witness :
    ∃ m, av1_highbd_wiener_convolve_add_src_neon (fun r0 bd => 2 ^ (bd + 8 - r0)) 150
        (fun _ => 0) (fun a => a % 256) 200 (fun _ => 0) 24 ![1, 2, 3, 4, 5, 6, 7, 0] 16
        ![0, 0, 0, 0, 0, 0, 0, 0] 16 16 7 ⟨3, 11⟩ 8 = .returned m ∧
      (∀ i c, 0 ≤ i → i < 7 + 6 → 0 ≤ c → c < 16 →
        0 ≤ m.im_block (i * 128 + c) ∧
          m.im_block (i * 128 + c) ≤ (fun (r0 bd : Nat) => (2 : Int) ^ (bd + 8 - r0)) 3 8 - 1) ∧
      ((((8 : Nat) = 8 ∧ (3 : Nat) = 3) ∨ ((8 : Nat) = 10 ∧ (3 : Nat) = 3) ∨
          ((8 : Nat) = 12 ∧ (3 : Nat) = 5)) →
        (fun (r0 bd : Nat) => (2 : Int) ^ (bd + 8 - r0)) 3 8 = 2 ^ (8 + 8 - 3) →
        (fun (r0 bd : Nat) => (2 : Int) ^ (bd + 8 - r0)) 3 8 ≤ 2 ^ 15) ∧
      ((fun (r0 bd : Nat) => (2 : Int) ^ (bd + 8 - r0)) 3 8 ≤ 2 ^ 15 →
        (∀ i c, 0 ≤ i → i < 7 + 6 → 0 ≤ c → c < 16 → m.im_block (i * 128 + c) ≤ 32767) ∧
        ∀ p ∈ m.im_loads, ∀ l : Fin 8, vld1q_s16 m.im_block p l = m.im_block (p + l.1)) :=
  C16_intermediate_clamp (fun r0 bd => 2 ^ (bd + 8 - r0)) 150 (fun _ => 0)
    (fun a => a % 256) 200 (fun _ => 0) 24 ![1, 2, 3, 4, 5, 6, 7, 0] ![0, 0, 0, 0, 0, 0, 0, 0]
    16 7 ⟨3, 11⟩ 8
    (by decide) (by decide) (by decide) (by decide) (by decide) rfl rfl (by norm_num)
    (by norm_num) (by decide)

/-- An intermediate sample depends on the source only through the 7 samples
of its row window. -/
theorem im_pixel_congr (lim : Nat → Nat → Int) (src src' : Int → Int) (ss ss' : Int)
    (x_filter : Fin 8 → Int) (cp : WienerConvolveParams) (bd : Nat) (i c : Int)
    (hs : ∀ cc, c - 3 ≤ cc → cc ≤ c + 3 → src ((i - 3) * ss + cc) = src' ((i - 3) * ss' + cc)) :
    im_pixel lim src ss x_filter cp bd i c = im_pixel lim src' ss' x_filter cp bd i c := by
  simp only [im_pixel, hs (c - 3) (by omega) (by omega), hs (c - 2) (by omega) (by omega),
    hs (c - 1) (by omega) (by omega), hs c (by omega) (by omega),
    hs (c + 1) (by omega) (by omega), hs (c + 2) (by omega) (by omega),
    hs (c + 3) (by omega) (by omega)]

/-- A destination sample depends on the source only through its 7x7 window. -/
theorem dst_pixel_congr (lim : Nat → Nat → Int) (src src' : Int → Int) (ss ss' : Int)
    (x_filter y_filter : Fin 8 → Int) (cp : WienerConvolveParams) (bd : Nat) (r c : Int)
    (hs : ∀ rr cc, r - 3 ≤ rr → rr ≤ r + 3 → c - 3 ≤ cc → cc ≤ c + 3 →
      src (rr * ss + cc) = src' (rr * ss' + cc)) :
    dst_pixel lim src ss x_filter y_filter cp bd r c
      = dst_pixel lim src' ss' x_filter y_filter cp bd r c := by
  have e : ∀ j : Int, 0 ≤ j → j ≤ 6 → im_pixel lim src ss x_filter cp bd (r + j) c
      = im_pixel lim src' ss' x_filter cp bd (r + j) c := fun j h0 h1 =>
    im_pixel_congr lim src src' ss ss' x_filter cp bd (r + j) c
      (fun cc a0 a1 => hs (r + j - 3) cc (by omega) (by omega) a0 a1)
  have e0 := e 0 (by omega) (by omega)
  rw [add_zero] at e0
  simp only [dst_pixel, e0, e 1 (by omega) (by omega), e 2 (by omega) (by omega),
    e 3 (by omega) (by omega), e 4 (by omega) (by omega), e 5 (by omega) (by omega),
    e 6 (by omega) (by omega)]

/-- C17: for a valid geometry, two calls with the same `w`, `h`, `bd`, rounding
shifts and tap sets, on sources that agree on rows `-3 .. h + 2`, columns
`-3 .. w + 2`, both return and leave identical destination blocks, whatever
their fuel, the initial contents of `im_block`, the prior contents of the
destination, the source outside the window and the strides; and each
destination sample `(r, c)` is the per-position value `dst_pixel`, which is the
same for any two sources that agree on rows `r - 3 .. r + 3`, columns
`c - 3 .. c + 3`. -/
theorem C17_determinism (lim : Nat → Nat → Int) (fuel fuel' : Nat)
    (im0 im0' src src' : Int → Int) (ss ss' : Int) (dst dst' : Int → Int) (ds ds' : Int)
    (x_filter y_filter : Fin 8 → Int) (w h : Int) (cp : WienerConvolveParams) (bd : Nat)
    (hw8 : w % 8 = 0) (hw : 8 ≤ w) (hw' : w ≤ 128) (hh : 1 ≤ h) (hh' : h ≤ 128)
    (hds : w ≤ ds) (hds' : w ≤ ds') (hx : x_filter 7 = 0) (hy : y_filter 7 = 0)
    (hs : ∀ rr cc, -3 ≤ rr → rr ≤ h + 2 → -3 ≤ cc → cc ≤ w + 2 →
      src (rr * ss + cc) = src' (rr * ss' + cc))
    (hf : w + h + 6 ≤ (fuel : Int)) (hf' : w + h + 6 ≤ (fuel' : Int)) :
    ∃ m m', av1_highbd_wiener_convolve_add_src_neon lim fuel im0 src ss dst ds x_filter 16
        y_filter 16 w h cp bd = .returned m ∧
      av1_highbd_wiener_convolve_add_src_neon lim fuel' im0' src' ss' dst' ds' x_filter 16
        y_filter 16 w h cp bd = .returned m' ∧
      (∀ r c, 0 ≤ r → r < h → 0 ≤ c → c < w → m.dst (r * ds + c) = m'.dst (r * ds' + c)) ∧
      (∀ r c, 0 ≤ r → r < h → 0 ≤ c → c < w →
        m.dst (r * ds + c) = dst_pixel lim src ss x_filter y_filter cp bd r c ∧
        ∀ (src2 : Int → Int) (ss2 : Int),
          (∀ rr cc, r - 3 ≤ rr → rr ≤ r + 3 → c - 3 ≤ cc → cc ≤ c + 3 →
            src (rr * ss + cc) = src2 (rr * ss2 + cc)) →
          dst_pixel lim src ss x_filter y_filter cp bd r c
            = dst_pixel lim src2 ss2 x_filter y_filter cp bd r c) := by
  obtain ⟨m, hrun, hdst, -, -⟩ := neon_call lim fuel im0 src ss dst ds x_filter y_filter w h
    cp bd hw8 (by omega) hw' (by omega) hh' hds hx hy hf
  obtain ⟨m', hrun', hdst', -, -⟩ := neon_call lim fuel' im0' src' ss' dst' ds' x_filter
    y_filter w h cp bd hw8 (by omega) hw' (by omega) hh' hds' hx hy hf'
  refine ⟨m, m', hrun, hrun', fun r c h0 h1 h2 h3 => ?_, fun r c h0 h1 h2 h3 =>
    ⟨hdst r c h0 h1 h2 h3, fun src2 ss2 h2 =>
      dst_pixel_congr lim src src2 ss ss2 x_filter y_filter cp bd r c h2⟩⟩
  rw [hdst r c h0 h1 h2 h3, hdst' r c h0 h1 h2 h3]
  exact dst_pixel_congr lim src src' ss ss' x_filter y_filter cp bd r c
    (fun rr cc a0 a1 a2 a3 => hs rr cc (by omega) (by omega) (by omega) (by omega))

/-- An instance of C17: two calls on an 8x2 block whose sources agree on the
window and differ outside it, with different scratch and destination contents,
destination strides and fuel. -/
theorem C17_determinism_witness :
    ∃ m m', av1_highbd_wiener_convolve_add_src_neon (fun r0 bd => 2 ^ (bd + 8 - r0)) 20
        (fun _ => 0) (fun a => a % 256) 32 (fun _ => 0) 8 ![1, 2, 3, 4, 5, 6, 7, 0] 16
        ![3, -5, 7, 9, 0, 0, 0, 0] 16 8 2 ⟨3, 11⟩ 8 = .returned m ∧
      av1_highbd_wiener_convolve_add_src_neon (fun r0 bd => 2 ^ (bd + 8 - r0)) 40
        (fun a => a) (fun a => if -200 ≤ a ∧ a ≤ 200 then a % 256 else 77) 32 (fun _ => 9) 12
        ![1, 2, 3, 4, 5, 6, 7, 0] 16 ![3, -5, 7, 9, 0, 0, 0, 0] 16 8 2 ⟨3, 11⟩ 8
          = .returned m' ∧
      (∀ r c, 0 ≤ r → r < 2 → 0 ≤ c → c < 8 → m.dst (r * 8 + c) = m'.dst (r * 12 + c)) ∧
      (∀ r c, 0 ≤ r → r < 2 → 0 ≤ c → c < 8 →
        m.dst (r * 8 + c) = dst_pixel (fun r0 bd => 2 ^ (bd + 8 - r0)) (fun a => a % 256) 32
          ![1, 2, 3, 4, 5, 6, 7, 0] ![3, -5, 7, 9, 0, 0, 0, 0] ⟨3, 11⟩ 8 r c ∧
        ∀ (src2 : Int → Int) (ss2 : Int),
          (∀ rr cc, r - 3 ≤ rr → rr ≤ r + 3 → c - 3 ≤ cc → cc ≤ c + 3 →
            (fun a => a % 256) (rr * 32 + cc) = src2 (rr * ss2 + cc)) →
          dst_pixel (fun r0 bd => 2 ^ (bd + 8 - r0)) (fun a => a % 256) 32
              ![1, 2, 3, 4, 5, 6, 7, 0] ![3, -5, 7, 9, 0, 0, 0, 0] ⟨3, 11⟩ 8 r c
            = dst_pixel (fun r0 bd => 2 ^ (bd + 8 - r0)) src2 ss2
              ![1, 2, 3, 4, 5, 6, 7, 0] ![3, -5, 7, 9, 0, 0, 0, 0] ⟨3, 11⟩ 8 r c) :=
  C17_determinism (fun r0 bd => 2 ^ (bd + 8 - r0)) 20 40 (fun _ => 0) (fun a => a)
    (fun a => a % 256) (fun a => if -200 ≤ a ∧ a ≤ 200 then a % 256 else 77) 32 32
    (fun _ => 0) (fun _ => 9) 8 12 ![1, 2, 3, 4, 5, 6, 7, 0] ![3, -5, 7, 9, 0, 0, 0, 0] 8 2
    ⟨3, 11⟩ 8
    (by decide) (by decide) (by decide) (by decide) (by decide) (by decide) (by decide) rfl rfl
    (fun rr cc h0 h1 h2 h3 => by
      have e : (-200 ≤ rr * 32 + cc ∧ rr * 32 + cc ≤ 200) := by omega
      simp only [e, and_self, if_true])
    (by decide) (by decide)

/-- The tap load reads entries 0..3 only. -/
theorem vld1_s16_congr (f g : Fin 8 → Int) (h : ∀ j : Fin 8, j.1 < 4 → f j = g j) :
    vld1_s16 f = vld1_s16 g := by
  funext i
  exact h ⟨i.1, by omega⟩ i.2

/-- An array agrees with its mirror-symmetric completion on entries 0..3 and 7. -/
theorem mirror_agrees (f : Fin 8 → Int) (j : Fin 8) (hj : j.1 < 4 ∨ j.1 = 7) :
    f j = (![f 0, f 1, f 2, f 3, f 2, f 1, f 0, f 7] : Fin 8 → Int) j := by
  fin_cases j
  · rfl
  · rfl
  · rfl
  · rfl
  · exact absurd hj (by decide)
  · exact absurd hj (by decide)
  · exact absurd hj (by decide)
  · rfl

/-- The entry point uses a filter array only through entries 0..3 and 7. -/
theorem neon_filter_congr (lim : Nat → Nat → Int) (fuel : Nat) (im0 src : Int → Int)
    (ss : Int) (dst : Int → Int) (ds : Int) (x_filter x_filter' y_filter y_filter' : Fin 8 → Int)
    (x_step_q4 y_step_q4 w h : Int) (cp : WienerConvolveParams) (bd : Nat)
    (hx : ∀ j : Fin 8, j.1 < 4 ∨ j.1 = 7 → x_filter j = x_filter' j)
    (hy : ∀ j : Fin 8, j.1 < 4 ∨ j.1 = 7 → y_filter j = y_filter' j) :
    av1_highbd_wiener_convolve_add_src_neon lim fuel im0 src ss dst ds x_filter x_step_q4
        y_filter y_step_q4 w h cp bd
      = av1_highbd_wiener_convolve_add_src_neon lim fuel im0 src ss dst ds x_filter' x_step_q4
        y_filter' y_step_q4 w h cp bd := by
  have hx7 : x_filter 7 = x_filter' 7 := hx 7 (Or.inr rfl)
  have hy7 : y_filter 7 = y_filter' 7 := hy 7 (Or.inr rfl)
  have hvx := vld1_s16_congr x_filter x_filter' (fun j hj => hx j (Or.inl hj))
  have hvy := vld1_s16_congr y_filter y_filter' (fun j hj => hy j (Or.inl hj))
  simp only [av1_highbd_wiener_convolve_add_src_neon, hx7, hy7, hvx, hvy]

/-- C19: whatever the other arguments, two calls whose filter arrays agree on
entries 0..3 and on the asserted entry 7 end in the same outcome, with the same
destination, scratch buffer, loads and stores; entries 4, 5 and 6 are never
read, so a call with an array `[f0, f1, f2, f3, f4, f5, f6, f7]` is the call with
the mirror-symmetric array `[f0, f1, f2, f3, f2, f1, f0, f7]`. -/
theorem C19_first_four_taps (lim : Nat → Nat → Int) (fuel : Nat) (im0 src : Int → Int)
    (ss : Int) (dst : Int → Int) (ds : Int) (x_filter x_filter' y_filter y_filter' : Fin 8 → Int)
    (x_step_q4 y_step_q4 w h : Int) (cp : WienerConvolveParams) (bd : Nat)
    (hx : ∀ j : Fin 8, j.1 < 4 ∨ j.1 = 7 → x_filter j = x_filter' j)
    (hy : ∀ j : Fin 8, j.1 < 4 ∨ j.1 = 7 → y_filter j = y_filter' j) :
    av1_highbd_wiener_convolve_add_src_neon lim fuel im0 src ss dst ds x_filter x_step_q4
        y_filter y_step_q4 w h cp bd
      = av1_highbd_wiener_convolve_add_src_neon lim fuel im0 src ss dst ds x_filter' x_step_q4
        y_filter' y_step_q4 w h cp bd ∧
    av1_highbd_wiener_convolve_add_src_neon lim fuel im0 src ss dst ds x_filter x_step_q4
        y_filter y_step_q4 w h cp bd
      = av1_highbd_wiener_convolve_add_src_neon lim fuel im0 src ss dst ds
        ![x_filter 0, x_filter 1, x_filter 2, x_filter 3, x_filter 2, x_filter 1, x_filter 0,
          x_filter 7] x_step_q4
        ![y_filter 0, y_filter 1, y_filter 2, y_filter 3, y_filter 2, y_filter 1, y_filter 0,
          y_filter 7] y_step_q4 w h cp bd := by
  exact ⟨neon_filter_congr lim fuel im0 src ss dst ds x_filter x_filter' y_filter y_filter'
    x_step_q4 y_step_q4 w h cp bd hx hy,
    neon_filter_congr lim fuel im0 src ss dst ds x_filter _ y_filter _
    x_step_q4 y_step_q4 w h cp bd (mirror_agrees x_filter) (mirror_agrees y_filter)⟩

/-- An instance of C19: an asymmetric array against one with other entries 4..6. -/
theorem C19_first_four_taps_witness :
    av1_highbd_wiener_convolve_add_src_neon (fun r0 bd => 2 ^ (bd + 8 - r0)) 20
        (fun _ => 0) (fun a => a % 256) 32 (fun _ => 0) 8 ![1, 2, 3, 4, 5, 6, 7, 0] 16
        ![3, -5, 7, 9, 0, 0, 0, 0] 16 8 2 ⟨3, 11⟩ 8
      = av1_highbd_wiener_convolve_add_src_neon (fun r0 bd => 2 ^ (bd + 8 - r0)) 20
        (fun _ => 0) (fun a => a % 256) 32 (fun _ => 0) 8 ![1, 2, 3, 4, -9, 100, 7000, 0] 16
        ![3, -5, 7, 9, 1, 1, 1, 0] 16 8 2 ⟨3, 11⟩ 8 ∧
    av1_highbd_wiener_convolve_add_src_neon (fun r0 bd => 2 ^ (bd + 8 - r0)) 20
        (fun _ => 0) (fun a => a % 256) 32 (fun _ => 0) 8 ![1, 2, 3, 4, 5, 6, 7, 0] 16
        ![3, -5, 7, 9, 0, 0, 0, 0] 16 8 2 ⟨3, 11⟩ 8
      = av1_highbd_wiener_convolve_add_src_neon (fun r0 bd => 2 ^ (bd + 8 - r0)) 20
        (fun _ => 0) (fun a => a % 256) 32 (fun _ => 0) 8
        ![(![1, 2, 3, 4, 5, 6, 7, 0] : Fin 8 → Int) 0, (![1, 2, 3, 4, 5, 6, 7, 0] : Fin 8 → Int) 1,
          (![1, 2, 3, 4, 5, 6, 7, 0] : Fin 8 → Int) 2, (![1, 2, 3, 4, 5, 6, 7, 0] : Fin 8 → Int) 3,
          (![1, 2, 3, 4, 5, 6, 7, 0] : Fin 8 → Int) 2, (![1, 2, 3, 4, 5, 6, 7, 0] : Fin 8 → Int) 1,
          (![1, 2, 3, 4, 5, 6, 7, 0] : Fin 8 → Int) 0, (![1, 2, 3, 4, 5, 6, 7, 0] : Fin 8 → Int) 7]
        16
        ![(![3, -5, 7, 9, 0, 0, 0, 0] : Fin 8 → Int) 0, (![3, -5, 7, 9, 0, 0, 0, 0] : Fin 8 → Int) 1,
          (![3, -5, 7, 9, 0, 0, 0, 0] : Fin 8 → Int) 2, (![3, -5, 7, 9, 0, 0, 0, 0] : Fin 8 → Int) 3,
          (![3, -5, 7, 9, 0, 0, 0, 0] : Fin 8 → Int) 2, (![3, -5, 7, 9, 0, 0, 0, 0] : Fin 8 → Int) 1,
          (![3, -5, 7, 9, 0, 0, 0, 0] : Fin 8 → Int) 0, (![3, -5, 7, 9, 0, 0, 0, 0] : Fin 8 → Int) 7]
        16 8 2 ⟨3, 11⟩ 8 :=
  C19_first_four_taps (fun r0 bd => 2 ^ (bd + 8 - r0)) 20 (fun _ => 0) (fun a => a % 256) 32
    (fun _ => 0) 8 ![1, 2, 3, 4, 5, 6, 7, 0] ![1, 2, 3, 4, -9, 100, 7000, 0]
    ![3, -5, 7, 9, 0, 0, 0, 0] ![3, -5, 7, 9, 1, 1, 1, 0] 16 16 8 2 ⟨3, 11⟩ 8
    (fun j hj => by
      fin_cases j
      · decide
      · decide
      · decide
      · decide
      · exact absurd hj (by decide)
      · exact absurd hj (by decide)
      · exact absurd hj (by decide)
      · decide)
    (fun j hj => by
      fin_cases j
      · decide
      · decide
      · decide
      · decide
      · exact absurd hj (by decide)
      · exact absurd hj (by decide)
      · exact absurd hj (by decide)
      · decide)

/-- The horizontal kernel gives the same lane for the seven inputs reversed. -/
theorem h_lane_rev (f : int16x4_t) (rv sh mx s0 s1 s2 s3 s4 s5 s6 : Int) :
    h_lane f rv sh mx s6 s5 s4 s3 s2 s1 s0 = h_lane f rv sh mx s0 s1 s2 s3 s4 s5 s6 := by
  simp only [h_lane, add_comm s6 s0, add_comm s5 s1, add_comm s4 s2]

/-- The vertical kernel gives the same lane for the seven inputs reversed. -/
theorem v_lane_rev (f : int16x4_t) (rv sh mx s0 s1 s2 s3 s4 s5 s6 : Int) :
    v_lane f rv sh mx s6 s5 s4 s3 s2 s1 s0 = v_lane f rv sh mx s0 s1 s2 s3 s4 s5 s6 := by
  simp only [v_lane, add_comm s6 s0, add_comm s5 s1, add_comm s4 s2]

/-- An intermediate sample of a source whose row window is the reversed row
window of another source, around column `c'` of row `i'`. -/
theorem im_pixel_rev (lim : Nat → Nat → Int) (src src' : Int → Int) (ss ss' : Int)
    (x_filter : Fin 8 → Int) (cp : WienerConvolveParams) (bd : Nat) (i i' c c' : Int)
    (hs : ∀ t : Int, -3 ≤ t → t ≤ 3 →
      src' ((i - 3) * ss' + (c + t)) = src ((i' - 3) * ss + (c' - t))) :
    im_pixel lim src' ss' x_filter cp bd i c = im_pixel lim src ss x_filter cp bd i' c' := by
  have e0 := hs (-3) (by omega) (by omega)
  have e1 := hs (-2) (by omega) (by omega)
  have e2 := hs (-1) (by omega) (by omega)
  have e3 := hs 0 (by omega) (by omega)
  have e4 := hs 1 (by omega) (by omega)
  have e5 := hs 2 (by omega) (by omega)
  have e6 := hs 3 (by omega) (by omega)
  rw [show c + -3 = c - 3 by ring, show c' - -3 = c' + 3 by ring] at e0
  rw [show c + -2 = c - 2 by ring, show c' - -2 = c' + 2 by ring] at e1
  rw [show c + -1 = c - 1 by ring, show c' - -1 = c' + 1 by ring] at e2
  rw [add_zero, sub_zero] at e3
  simp only [im_pixel, e0, e1, e2, e3, e4, e5, e6]
  exact h_lane_rev _ _ _ _ _ _ _ _ _ _ _

/-- An intermediate sample of a source whose row window is the row window of
another source at row `i'`. -/
theorem im_pixel_row (lim : Nat → Nat → Int) (src src' : Int → Int) (ss ss' : Int)
    (x_filter : Fin 8 → Int) (cp : WienerConvolveParams) (bd : Nat) (i i' c : Int)
    (hs : ∀ cc, c - 3 ≤ cc → cc ≤ c + 3 →
      src' ((i - 3) * ss' + cc) = src ((i' - 3) * ss + cc)) :
    im_pixel lim src' ss' x_filter cp bd i c = im_pixel lim src ss x_filter cp bd i' c := by
  simp only [im_pixel, hs (c - 3) (by omega) (by omega), hs (c - 2) (by omega) (by omega),
    hs (c - 1) (by omega) (by omega), hs c (by omega) (by omega),
    hs (c + 1) (by omega) (by omega), hs (c + 2) (by omega) (by omega),
    hs (c + 3) (by omega) (by omega)]

/-- Left-right mirror at the level of one destination sample. -/
theorem dst_pixel_mirror_lr (lim : Nat → Nat → Int) (src src' : Int → Int) (ss ss' : Int)
    (x_filter y_filter : Fin 8 → Int) (cp : WienerConvolveParams) (bd : Nat) (r c c' : Int)
    (hs : ∀ rr t : Int, r - 3 ≤ rr → rr ≤ r + 3 → -3 ≤ t → t ≤ 3 →
      src' (rr * ss' + (c + t)) = src (rr * ss + (c' - t))) :
    dst_pixel lim src' ss' x_filter y_filter cp bd r c
      = dst_pixel lim src ss x_filter y_filter cp bd r c' := by
  have e : ∀ j : Int, 0 ≤ j → j ≤ 6 → im_pixel lim src' ss' x_filter cp bd (r + j) c
      = im_pixel lim src ss x_filter cp bd (r + j) c' := fun j h0 h1 =>
    im_pixel_rev lim src src' ss ss' x_filter cp bd (r + j) (r + j) c c'
      (fun t a0 a1 => hs (r + j - 3) t (by omega) (by omega) a0 a1)
  have e0 := e 0 (by omega) (by omega)
  rw [add_zero] at e0
  simp only [dst_pixel, e0, e 1 (by omega) (by omega), e 2 (by omega) (by omega),
    e 3 (by omega) (by omega), e 4 (by omega) (by omega), e 5 (by omega) (by omega),
    e 6 (by omega) (by omega)]

/-- Top-bottom mirror at the level of one destination sample. -/
theorem dst_pixel_mirror_tb (lim : Nat → Nat → Int) (src src' : Int → Int) (ss ss' : Int)
    (x_filter y_filter : Fin 8 → Int) (cp : WienerConvolveParams) (bd : Nat) (r r' c : Int)
    (hs : ∀ t cc : Int, -3 ≤ t → t ≤ 3 → c - 3 ≤ cc → cc ≤ c + 3 →
      src' ((r + t) * ss' + cc) = src ((r' - t) * ss + cc)) :
    dst_pixel lim src' ss' x_filter y_filter cp bd r c
      = dst_pixel lim src ss x_filter y_filter cp bd r' c := by
  have e : ∀ j : Int, 0 ≤ j → j ≤ 6 → im_pixel lim src' ss' x_filter cp bd (r + j) c
      = im_pixel lim src ss x_filter cp bd (r' + (6 - j)) c := fun j h0 h1 =>
    im_pixel_row lim src src' ss ss' x_filter cp bd (r + j) (r' + (6 - j)) c
      (fun cc a0 a1 => by
        have := hs (j - 3) cc (by omega) (by omega) a0 a1
        rw [show r + (j - 3) = r + j - 3 by ring,
          show r' - (j - 3) = r' + (6 - j) - 3 by ring] at this
        exact this)
  have e0 := e 0 (by omega) (by omega)
  have e1 := e 1 (by omega) (by omega)
  have e2 := e 2 (by omega) (by omega)
  have e3 := e 3 (by omega) (by omega)
  have e4 := e 4 (by omega) (by omega)
  have e5 := e 5 (by omega) (by omega)
  have e6 := e 6 (by omega) (by omega)
  norm_num at e0 e1 e2 e3 e4 e5 e6
  simp only [dst_pixel, e0, e1, e2, e3, e4, e5, e6]
  exact v_lane_rev _ _ _ _ _ _ _ _ _ _ _

/-- C20: for a valid geometry and any rounding configuration, tap sets and
source (the bound `2^14 - 1` on the samples is not needed: the 16-bit pair sum
is the same for both orders of its operands even when it wraps), the call on
the source, the call on a source `srcL` that is its left-right mirror on rows
`-3 .. h + 2`, columns `-3 .. w + 2`, and the call on a source `srcT` that is its
top-bottom mirror there all return, with `dstL[r][c] = dst[r][w-1-c]` and
`dstT[r][c] = dst[h-1-r][c]` on the block. -/
theorem C20_mirror_equivariance (lim : Nat → Nat → Int) (fuel : Nat)
    (im0 imL imT src srcL srcT : Int → Int) (ss ssL ssT : Int) (dst dstL dstT : Int → Int)
    (ds : Int) (x_filter y_filter : Fin 8 → Int) (w h : Int)
    (cp : WienerConvolveParams) (bd : Nat)
    (hw8 : w % 8 = 0) (hw : 8 ≤ w) (hw' : w ≤ 128) (hh : 1 ≤ h) (hh' : h ≤ 128)
    (hds : w ≤ ds) (hx : x_filter 7 = 0) (hy : y_filter 7 = 0)
    (hL : ∀ r c, -3 ≤ r → r ≤ h + 2 → -3 ≤ c → c ≤ w + 2 →
      srcL (r * ssL + c) = src (r * ss + (w - 1 - c)))
    (hT : ∀ r c, -3 ≤ r → r ≤ h + 2 → -3 ≤ c → c ≤ w + 2 →
      srcT (r * ssT + c) = src ((h - 1 - r) * ss + c))
    (hf : w + h + 6 ≤ (fuel : Int)) :
    ∃ m mL mT, av1_highbd_wiener_convolve_add_src_neon lim fuel im0 src ss dst ds x_filter 16
        y_filter 16 w h cp bd = .returned m ∧
      av1_highbd_wiener_convolve_add_src_neon lim fuel imL srcL ssL dstL ds x_filter 16
        y_filter 16 w h cp bd = .returned mL ∧
      av1_highbd_wiener_convolve_add_src_neon lim fuel imT srcT ssT dstT ds x_filter 16
        y_filter 16 w h cp bd = .returned mT ∧
      ∀ r c, 0 ≤ r → r < h → 0 ≤ c → c < w →
        mL.dst (r * ds + c) = m.dst (r * ds + (w - 1 - c)) ∧
        mT.dst (r * ds + c) = m.dst ((h - 1 - r) * ds + c) := by
  obtain ⟨m, hrun, hdst, -, -⟩ := neon_call lim fuel im0 src ss dst ds x_filter y_filter w h
    cp bd hw8 (by omega) hw' (by omega) hh' hds hx hy hf
  obtain ⟨mL, hrunL, hdstL, -, -⟩ := neon_call lim fuel imL srcL ssL dstL ds x_filter
    y_filter w h cp bd hw8 (by omega) hw' (by omega) hh' hds hx hy hf
  obtain ⟨mT, hrunT, hdstT, -, -⟩ := neon_call lim fuel imT srcT ssT dstT ds x_filter
    y_filter w h cp bd hw8 (by omega) hw' (by omega) hh' hds hx hy hf
  refine ⟨m, mL, mT, hrun, hrunL, hrunT, fun r c h0 h1 h2 h3 => ⟨?_, ?_⟩⟩
  · rw [hdstL r c h0 h1 h2 h3, hdst r (w - 1 - c) h0 h1 (by omega) (by omega)]
    apply dst_pixel_mirror_lr
    intro rr t a0 a1 a2 a3
    rw [hL rr (c + t) (by omega) (by omega) (by omega) (by omega)]
    congr 2
    ring
  · rw [hdstT r c h0 h1 h2 h3, hdst (h - 1 - r) c (by omega) (by omega) h2 h3]
    apply dst_pixel_mirror_tb
    intro t cc a0 a1 a2 a3
    rw [hT (r + t) cc (by omega) (by omega) (by omega) (by omega)]
    congr 3
    ring

/-- An instance of C20: an 8x2 block of a source of stride 32 and its two mirrors. -/
theorem C20_mirror_equivariance_witness :
    ∃ m mL mT, av1_highbd_wiener_convolve_add_src_neon (fun r0 bd => 2 ^ (bd + 8 - r0)) 20
        (fun _ => 0) (fun a => a % 256) 32 (fun _ => 0) 8 ![1, 2, 3, 4, 5, 6, 7, 0] 16
        ![3, -5, 7, 9, 0, 0, 0, 0] 16 8 2 ⟨3, 11⟩ 8 = .returned m ∧
      av1_highbd_wiener_convolve_add_src_neon (fun r0 bd => 2 ^ (bd + 8 - r0)) 20
        (fun _ => 1) (fun a => ((a + 3) / 32 * 32 + (10 - (a + 3) % 32)) % 256) 32 (fun _ => 2) 8
        ![1, 2, 3, 4, 5, 6, 7, 0] 16 ![3, -5, 7, 9, 0, 0, 0, 0] 16 8 2 ⟨3, 11⟩ 8
          = .returned mL ∧
      av1_highbd_wiener_convolve_add_src_neon (fun r0 bd => 2 ^ (bd + 8 - r0)) 20
        (fun _ => 3) (fun a => ((1 - (a + 3) / 32) * 32 + ((a + 3) % 32 - 3)) % 256) 32
        (fun _ => 4) 8 ![1, 2, 3, 4, 5, 6, 7, 0] 16 ![3, -5, 7, 9, 0, 0, 0, 0] 16 8 2 ⟨3, 11⟩ 8
          = .returned mT ∧
      ∀ r c, 0 ≤ r → r < 2 → 0 ≤ c → c < 8 →
        mL.dst (r * 8 + c) = m.dst (r * 8 + (8 - 1 - c)) ∧
        mT.dst (r * 8 + c) = m.dst ((2 - 1 - r) * 8 + c) :=
  C20_mirror_equivariance (fun r0 bd => 2 ^ (bd + 8 - r0)) 20 (fun _ => 0) (fun _ => 1)
    (fun _ => 3) (fun a => a % 256) (fun a => ((a + 3) / 32 * 32 + (10 - (a + 3) % 32)) % 256)
    (fun a => ((1 - (a + 3) / 32) * 32 + ((a + 3) % 32 - 3)) % 256) 32 32 32
    (fun _ => 0) (fun _ => 2) (fun _ => 4) 8 ![1, 2, 3, 4, 5, 6, 7, 0]
    ![3, -5, 7, 9, 0, 0, 0, 0] 8 2 ⟨3, 11⟩ 8
    (by decide) (by decide) (by decide) (by decide) (by decide) (by decide) rfl rfl
    (fun r c h0 h1 h2 h3 => by simp only []; omega)
    (fun r c h0 h1 h2 h3 => by simp only []; omega) (by decide)

/-- The vertical kernel with taps of true sum 128 on seven exactly scaled
samples `2^(bd+6-round_0) + 2^(7-round_0) P` that are symmetric about the middle
one gives back the middle `P`, for the codec rounding configurations. -/
theorem v_lane_unity_scaled (f : int16x4_t) (cp : WienerConvolveParams) (bd : Nat)
    (P0 P1 P2 P3 P4 P5 P6 : Int)
    (hf : f 3 = -2 * (f 0 + f 1 + f 2) + 128)
    (hcfg : (bd = 8 ∧ cp.round_0 = 3 ∧ cp.round_1 = 11) ∨
      (bd = 10 ∧ cp.round_0 = 3 ∧ cp.round_1 = 11) ∨
      (bd = 12 ∧ cp.round_0 = 5 ∧ cp.round_1 = 9))
    (p0 : 0 ≤ P0 ∧ P0 ≤ 2 ^ bd - 1) (p1 : 0 ≤ P1 ∧ P1 ≤ 2 ^ bd - 1)
    (p2 : 0 ≤ P2 ∧ P2 ≤ 2 ^ bd - 1) (p3 : 0 ≤ P3 ∧ P3 ≤ 2 ^ bd - 1)
    (p4 : 0 ≤ P4 ∧ P4 ≤ 2 ^ bd - 1) (p5 : 0 ≤ P5 ∧ P5 ≤ 2 ^ bd - 1)
    (p6 : 0 ≤ P6 ∧ P6 ≤ 2 ^ bd - 1)
    (q0 : P0 + P6 = 2 * P3) (q1 : P1 + P5 = 2 * P3) (q2 : P2 + P4 = 2 * P3) :
    v_lane f (vert_round cp bd) (vert_shift cp) (res_max bd)
      (wrap16 (2 ^ (bd + 6 - cp.round_0) + 2 ^ (7 - cp.round_0) * P0))
      (wrap16 (2 ^ (bd + 6 - cp.round_0) + 2 ^ (7 - cp.round_0) * P1))
      (wrap16 (2 ^ (bd + 6 - cp.round_0) + 2 ^ (7 - cp.round_0) * P2))
      (wrap16 (2 ^ (bd + 6 - cp.round_0) + 2 ^ (7 - cp.round_0) * P3))
      (wrap16 (2 ^ (bd + 6 - cp.round_0) + 2 ^ (7 - cp.round_0) * P4))
      (wrap16 (2 ^ (bd + 6 - cp.round_0) + 2 ^ (7 - cp.round_0) * P5))
      (wrap16 (2 ^ (bd + 6 - cp.round_0) + 2 ^ (7 - cp.round_0) * P6)) = P3 := by
  have hsh : vert_shift cp = -(cp.round_1 : Int) := wrap32_eq _ (by omega) (by omega)
  rw [vert_round_eq cp bd (by omega), hsh, res_max_eq bd (by omega)]
  rcases hcfg with ⟨rfl, hr0, hr1⟩ | ⟨rfl, hr0, hr1⟩ | ⟨rfl, hr0, hr1⟩ <;>
  · rw [hr0, hr1]
    norm_num at p0 p1 p2 p3 p4 p5 p6
    rw [wrap16_eq _ (by norm_num; omega) (by norm_num; omega),
      wrap16_eq _ (by norm_num; omega) (by norm_num; omega),
      wrap16_eq _ (by norm_num; omega) (by norm_num; omega),
      wrap16_eq _ (by norm_num; omega) (by norm_num; omega),
      wrap16_eq _ (by norm_num; omega) (by norm_num; omega),
      wrap16_eq _ (by norm_num; omega) (by norm_num; omega),
      wrap16_eq _ (by norm_num; omega) (by norm_num; omega),
      v_lane_unity _ _ _ _ _ _ _ _ _ _ _ hf (by norm_num; omega) (by norm_num; omega)
        (by norm_num; omega) (by norm_num; omega),
      clamp_sqrshl _ _ _ (by norm_num) (by norm_num) (by norm_num) (by norm_num)]
    norm_num
    omega

/-- C18: for the codec rounding configurations, stored tap sets with
`|t0|, |t1|, |t2| ≤ 128` and `t3 = -2 (t0 + t1 + t2)` in both directions, and a
source that is affine on the block and its border of 3 samples,
`src[r][c] = a + b c + d r` with all values in `[0, 2^bd - 1]`, the call returns
and `dst[r][c] = src[r][c]` on the whole block. -/
theorem C18_affine_unity_gain (lim : Nat → Nat → Int) (fuel : Nat) (im0 src : Int → Int)
    (ss : Int) (dst : Int → Int) (ds : Int) (x_filter y_filter : Fin 8 → Int) (w h : Int)
    (cp : WienerConvolveParams) (bd : Nat) (a b d : Int)
    (hw8 : w % 8 = 0) (hw : 8 ≤ w) (hw' : w ≤ 128) (hh : 1 ≤ h) (hh' : h ≤ 128)
    (hcfg : (bd = 8 ∧ cp.round_0 = 3 ∧ cp.round_1 = 11) ∨
      (bd = 10 ∧ cp.round_0 = 3 ∧ cp.round_1 = 11) ∨
      (bd = 12 ∧ cp.round_0 = 5 ∧ cp.round_1 = 9))
    (hlim : lim cp.round_0 bd = 2 ^ (bd + 8 - cp.round_0))
    (hsrc : ∀ r c, -3 ≤ r → r ≤ h + 2 → -3 ≤ c → c ≤ w + 2 →
      src (r * ss + c) = a + b * c + d * r)
    (hrange : ∀ r c, -3 ≤ r → r ≤ h + 2 → -3 ≤ c → c ≤ w + 2 →
      0 ≤ a + b * c + d * r ∧ a + b * c + d * r ≤ 2 ^ bd - 1)
    (htx : ∀ j : Fin 8, j.1 < 3 → |x_filter j| ≤ 128)
    (hx3 : x_filter 3 = -2 * (x_filter 0 + x_filter 1 + x_filter 2))
    (hty : ∀ j : Fin 8, j.1 < 3 → |y_filter j| ≤ 128)
    (hy3 : y_filter 3 = -2 * (y_filter 0 + y_filter 1 + y_filter 2))
    (hx : x_filter 7 = 0) (hy : y_filter 7 = 0) (hds : w ≤ ds)
    (hf : w + h + 6 ≤ (fuel : Int)) :
    ∃ m, av1_highbd_wiener_convolve_add_src_neon lim fuel im0 src ss dst ds x_filter 16
        y_filter 16 w h cp bd = .returned m ∧
      ∀ r c, 0 ≤ r → r < h → 0 ≤ c → c < w → m.dst (r * ds + c) = src (r * ss + c) := by
  obtain ⟨m, hrun, hdst, -, -⟩ := neon_call lim fuel im0 src ss dst ds x_filter y_filter w h cp
    bd hw8 (by omega) hw' (by omega) hh' hds hx hy hf
  refine ⟨m, hrun, fun r c h0 h1 h2 h3 => ?_⟩
  have hlim' : 1 ≤ lim cp.round_0 bd ∧ lim cp.round_0 bd ≤ 32768 := by
    rw [hlim]
    rcases hcfg with ⟨rfl, e, -⟩ | ⟨rfl, e, -⟩ | ⟨rfl, e, -⟩ <;> rw [e] <;> norm_num
  have hbd : bd ≤ 12 := by omega
  -- the taps are 16-bit values
  have x0 := abs_le.mp (htx 0 (by decide))
  have x1 := abs_le.mp (htx 1 (by decide))
  have x2 := abs_le.mp (htx 2 (by decide))
  have y0 := abs_le.mp (hty 0 (by decide))
  have y1 := abs_le.mp (hty 1 (by decide))
  have y2 := abs_le.mp (hty 2 (by decide))
  have htx' : ∀ j : Fin 8, j.1 < 4 → -32768 ≤ x_filter j ∧ x_filter j ≤ 32767 := by
    intro j hj
    have e : j = 0 ∨ j = 1 ∨ j = 2 ∨ j = 3 := by
      rcases j with ⟨j, hj8⟩
      simp only [Fin.ext_iff]
      simp only [] at hj
      omega
    rcases e with rfl | rfl | rfl | rfl <;> omega
  have hty' : ∀ j : Fin 8, j.1 < 4 → -32768 ≤ y_filter j ∧ y_filter j ≤ 32767 := by
    intro j hj
    have e : j = 0 ∨ j = 1 ∨ j = 2 ∨ j = 3 := by
      rcases j with ⟨j, hj8⟩
      simp only [Fin.ext_iff]
      simp only [] at hj
      omega
    rcases e with rfl | rfl | rfl | rfl <;> omega
  -- the seven source samples of column `c` that enter `dst[r][c]`
  have hp : ∀ k : Int, 0 ≤ k → k ≤ 6 →
      0 ≤ src ((r + k - 3) * ss + c) ∧ src ((r + k - 3) * ss + c) ≤ 2 ^ bd - 1 := by
    intro k hk0 hk6
    rw [hsrc (r + k - 3) c (by omega) (by omega) (by omega) (by omega)]
    exact hrange (r + k - 3) c (by omega) (by omega) (by omega) (by omega)
  have hpsym : ∀ k : Int, 0 ≤ k → k ≤ 3 →
      src ((r + k - 3) * ss + c) + src ((r + (6 - k) - 3) * ss + c)
        = 2 * src ((r + 3 - 3) * ss + c) := by
    intro k hk0 hk3
    rw [hsrc (r + k - 3) c (by omega) (by omega) (by omega) (by omega),
      hsrc (r + (6 - k) - 3) c (by omega) (by omega) (by omega) (by omega),
      hsrc (r + 3 - 3) c (by omega) (by omega) (by omega) (by omega)]
    ring
  have him : ∀ k : Int, 0 ≤ k → k ≤ 6 → im_pixel lim src ss x_filter cp bd (r + k) c
      = min (lim cp.round_0 bd - 1)
          (max 0 ((2 ^ (bd + 6) + 128 * src ((r + k - 3) * ss + c) + 2 ^ (cp.round_0 - 1))
            / 2 ^ cp.round_0)) := by
    intro k hk0 hk6
    exact im_pixel_unity lim src ss x_filter cp bd (r + k) c (by omega) (by omega) (by omega)
      hlim'.1 (by omega) htx' hx3 (by omega)
      (fun cc a0 a1 => by
        rw [hsrc (r + k - 3) cc (by omega) (by omega) (by omega) (by omega)]
        exact hrange (r + k - 3) cc (by omega) (by omega) (by omega) (by omega))
      (fun j hj0 hj3 => by
        rw [hsrc (r + k - 3) (c - j) (by omega) (by omega) (by omega) (by omega),
          hsrc (r + k - 3) (c + j) (by omega) (by omega) (by omega) (by omega),
          hsrc (r + k - 3) c (by omega) (by omega) (by omega) (by omega)]
        ring)
  -- both rounding shifts are exact on these values
  have hI : ∀ k : Int, 0 ≤ k → k ≤ 6 → im_pixel lim src ss x_filter cp bd (r + k) c
      = 2 ^ (bd + 6 - cp.round_0) + 2 ^ (7 - cp.round_0) * src ((r + k - 3) * ss + c) := by
    intro k hk0 hk6
    rw [him k hk0 hk6, hlim]
    have := hp k hk0 hk6
    generalize src ((r + k - 3) * ss + c) = P at this ⊢
    rcases hcfg with ⟨rfl, e, -⟩ | ⟨rfl, e, -⟩ | ⟨rfl, e, -⟩ <;>
    · rw [e]
      norm_num at this ⊢
      omega
  have e0 := hI 0 (by omega) (by omega)
  rw [show r + 0 = r by ring] at e0
  have q0 : src ((r - 3) * ss + c) + src ((r + 6 - 3) * ss + c)
      = 2 * src ((r + 3 - 3) * ss + c) := by
    have := hpsym 0 (by omega) (by omega)
    rw [show r + 0 - 3 = r - 3 by ring, show r + (6 - 0) - 3 = r + 6 - 3 by ring] at this
    exact this
  have q1 : src ((r + 1 - 3) * ss + c) + src ((r + 5 - 3) * ss + c)
      = 2 * src ((r + 3 - 3) * ss + c) := by
    have := hpsym 1 (by omega) (by omega)
    rw [show r + (6 - 1) - 3 = r + 5 - 3 by ring] at this
    exact this
  have q2 : src ((r + 2 - 3) * ss + c) + src ((r + 4 - 3) * ss + c)
      = 2 * src ((r + 3 - 3) * ss + c) := by
    have := hpsym 2 (by omega) (by omega)
    rw [show r + (6 - 2) - 3 = r + 4 - 3 by ring] at this
    exact this
  have p0 := hp 0 (by omega) (by omega)
  rw [show r + 0 - 3 = r - 3 by ring] at p0
  have hrc : src (r * ss + c) = src ((r + 3 - 3) * ss + c) := by congr 2; ring
  rw [hdst r c h0 h1 h2 h3, hrc, dst_pixel, e0, hI 1 (by omega) (by omega),
    hI 2 (by omega) (by omega), hI 3 (by omega) (by omega), hI 4 (by omega) (by omega),
    hI 5 (by omega) (by omega), hI 6 (by omega) (by omega)]
  exact v_lane_unity_scaled _ cp bd _ _ _ _ _ _ _ (filter_s16_unity y_filter hty' hy3 (by omega))
    hcfg p0 (hp 1 (by omega) (by omega)) (hp 2 (by omega) (by omega))
    (hp 3 (by omega) (by omega)) (hp 4 (by omega) (by omega)) (hp 5 (by omega) (by omega))
    (hp 6 (by omega) (by omega)) q0 q1 q2

/-- An instance of C18: `bd = 8`, the affine block `100 + 2 c + 3 r` on 8x2
samples, stored taps `(3, -5, 7, -10)` and `(1, 2, -6, 6)`. -/
theorem C18_affine_unity_gain_witness :
    ∃ m, av1_highbd_wiener_convolve_add_src_neon (fun r0 bd => 2 ^ (bd + 8 - r0)) 20
        (fun _ => 0) (fun a => 100 + 2 * ((a + 32) % 64 - 32) + 3 * ((a + 32) / 64)) 64
        (fun _ => 0) 8 ![3, -5, 7, -10, 0, 0, 0, 0] 16 ![1, 2, -6, 6, 0, 0, 0, 0] 16 8 2 ⟨3, 11⟩ 8
        = .returned m ∧
      ∀ r c, 0 ≤ r → r < 2 → 0 ≤ c → c < 8 →
        m.dst (r * 8 + c)
          = (fun a : Int => 100 + 2 * ((a + 32) % 64 - 32) + 3 * ((a + 32) / 64)) (r * 64 + c) :=
  C18_affine_unity_gain (fun r0 bd => 2 ^ (bd + 8 - r0)) 20 (fun _ => 0)
    (fun a => 100 + 2 * ((a + 32) % 64 - 32) + 3 * ((a + 32) / 64)) 64 (fun _ => 0) 8
    ![3, -5, 7, -10, 0, 0, 0, 0] ![1, 2, -6, 6, 0, 0, 0, 0] 8 2 ⟨3, 11⟩ 8 100 2 3
    (by decide) (by decide) (by decide) (by decide) (by decide) (Or.inl ⟨rfl, rfl, rfl⟩) rfl
    (fun r c _ _ _ _ => by simp only; omega) (fun r c _ _ _ _ => by norm_num; omega)
    (fun j hj => by
      have e : j = 0 ∨ j = 1 ∨ j = 2 := by
        rcases j with ⟨j, hj8⟩
        simp only [Fin.ext_iff]
        simp only [] at hj
        omega
      rcases e with rfl | rfl | rfl <;> decide)
    (by decide)
    (fun j hj => by
      have e : j = 0 ∨ j = 1 ∨ j = 2 := by
        rcases j with ⟨j, hj8⟩
        simp only [Fin.ext_iff]
        simp only [] at hj
        omega
      rcases e with rfl | rfl | rfl <;> decide)
    (by decide) rfl rfl (by decide) (by decide)

/-- The lane of the horizontal kernel is the rounding shift and clamp of the
last of its steps. -/
theorem h_lane_eq_steps (f : int16x4_t) (rv sh mx s0 s1 s2 s3 s4 s5 s6 : Int) :
    h_lane f rv sh mx s0 s1 s2 s3 s4 s5 s6
      = min (usat16 (sqrshl32 ((h_lane_steps f rv s0 s1 s2 s3 s4 s5 s6).getLastD 0) sh)) mx :=
  rfl

/-- With samples of at most 14 bits and taps whose true values fit 11 bits, no
step of a lane of the horizontal kernel wraps. -/
theorem h_lane_steps_exact (bd : Nat) (t0 t1 t2 t3 s0 s1 s2 s3 s4 s5 s6 : Int)
    (hbd : bd + 6 ≤ 30)
    (ht0 : -1024 ≤ t0 ∧ t0 ≤ 1024) (ht1 : -1024 ≤ t1 ∧ t1 ≤ 1024)
    (ht2 : -1024 ≤ t2 ∧ t2 ≤ 1024) (ht3 : -1024 ≤ t3 + 128 ∧ t3 + 128 ≤ 1024)
    (hs0 : 0 ≤ s0 ∧ s0 ≤ 16383) (hs1 : 0 ≤ s1 ∧ s1 ≤ 16383) (hs2 : 0 ≤ s2 ∧ s2 ≤ 16383)
    (hs3 : 0 ≤ s3 ∧ s3 ≤ 16383) (hs4 : 0 ≤ s4 ∧ s4 ≤ 16383) (hs5 : 0 ≤ s5 ∧ s5 ≤ 16383)
    (hs6 : 0 ≤ s6 ∧ s6 ≤ 16383) (f : int16x4_t) (hf0 : f 0 = t0) (hf1 : f 1 = t1)
    (hf2 : f 2 = t2) (hf3 : f 3 = t3 + 128) :
    h_lane_steps f (2 ^ (bd + 6)) s0 s1 s2 s3 s4 s5 s6
      = H_formula_steps bd t0 t1 t2 t3 s0 s1 s2 s3 s4 s5 s6 := by
  have hp : (2 : Int) ^ (bd + 6) ≤ 2 ^ 30 := pow_le_pow_right₀ (by norm_num) hbd
  have hp0 : (0 : Int) < 2 ^ (bd + 6) := by positivity
  norm_num at hp
  have b0 := mul_bound (s0 + s6) t0 65534 1024 (by omega) (by omega) ht0.1 ht0.2
  have b1 := mul_bound (s1 + s5) t1 65534 1024 (by omega) (by omega) ht1.1 ht1.2
  have b2 := mul_bound (s2 + s4) t2 65534 1024 (by omega) (by omega) ht2.1 ht2.2
  have b3 := mul_bound s3 (t3 + 128) 65534 1024 (by omega) (by omega) ht3.1 ht3.2
  simp only [h_lane_steps, H_formula_steps, wiener_acc, hf0, hf1, hf2, hf3]
  rw [wrap16_eq (s0 + s6) (by omega) (by omega), wrap16_eq (s1 + s5) (by omega) (by omega),
    wrap16_eq (s2 + s4) (by omega) (by omega),
    wrap32_eq (2 ^ (bd + 6) + (s0 + s6) * t0) (by omega) (by omega),
    wrap32_eq (2 ^ (bd + 6) + (s0 + s6) * t0 + (s1 + s5) * t1) (by omega) (by omega),
    wrap32_eq (2 ^ (bd + 6) + (s0 + s6) * t0 + (s1 + s5) * t1 + (s2 + s4) * t2) (by omega)
      (by omega),
    wrap32_eq (2 ^ (bd + 6) + (s0 + s6) * t0 + (s1 + s5) * t1 + (s2 + s4) * t2
      + s3 * (t3 + 128)) (by omega) (by omega)]
  simp only [mul_comm]

/-- C14, as stated, fails at `bd = 16`: with all source samples `40000`, zero
stored taps, `round_0 = 8` and clamp limit `2^(16+8-8) = 65536`, the load reads
the sample as the `int16_t` value `-25536` and the call stores `3616` at
intermediate position `(0, 0)`, where the formula on the unsigned samples
gives `36384`. -/
theorem C14_counterexample :
    ∃ m, av1_highbd_wiener_convolve_add_src_neon (fun r0 bd => 2 ^ (bd + 8 - r0)) 15
        (fun _ => 0) (fun _ => 40000) 16 (fun _ => 0) 8 ![0, 0, 0, 0, 0, 0, 0, 0] 16
        ![0, 0, 0, 0, 0, 0, 0, 0] 16 8 1 ⟨8, 6⟩ 16 = .returned m ∧
      (0 ≤ (40000 : Int) ∧ (40000 : Int) ≤ 2 ^ 16 - 1) ∧
      vld1q_s16 (fun _ => 40000) (0 - WIENER_HALFWIN - WIENER_HALFWIN * 16) 0 = -25536 ∧
      m.im_block (0 * 128 + 0) = 3616 ∧
      I_formula 16 8 (2 ^ (16 + 8 - 8)) ![0, 0, 0, 0, 0, 0, 0, 0] (fun _ => 40000) 16 0 0
        = 36384 := by
  obtain ⟨m, hrun, -, -, him⟩ := neon_call (fun r0 bd => 2 ^ (bd + 8 - r0)) 15
    (fun _ => 0) (fun _ => 40000) 16 (fun _ => 0) 8
    ![0, 0, 0, 0, 0, 0, 0, 0] ![0, 0, 0, 0, 0, 0, 0, 0] 8 1 ⟨8, 6⟩ 16 (by decide) (by decide)
    (by decide) (by decide) (by decide) (by decide) rfl rfl (by decide)
  refine ⟨m, hrun, by decide, by decide, ?_, by decide⟩
  rw [him 0 0 (by decide) (by decide) (by decide) (by decide)]
  decide

/-- C14 (amended: `bd ≤ 14`, and `1 ≤ round_0 ≤ 128`, `1 ≤ clamp_limit ≤ 65536`):
for a valid geometry, source samples in `[0, 2^bd - 1]` on the block and its
border of 3 samples and stored taps of magnitude at most 128, the call returns
and at every intermediate position `(i, c)` the stored sample is the formula of
the specification on the unsigned samples; the load reads each of the 7 samples
as itself, the taps handed to the kernel are `(t0, t1, t2, t3 + 128)`, and the
three 16-bit pair sums and the four 32-bit accumulations of the lane are the
values in unbounded integers. -/
theorem C14_overflow_free (lim : Nat → Nat → Int) (fuel : Nat) (im0 src : Int → Int) (ss : Int)
    (dst : Int → Int) (ds : Int) (x_filter y_filter : Fin 8 → Int) (w h : Int)
    (cp : WienerConvolveParams) (bd : Nat)
    (hw8 : w % 8 = 0) (hw : 8 ≤ w) (hw' : w ≤ 128) (hh : 1 ≤ h) (hh' : h ≤ 128)
    (hbd : bd ≤ 14) (hr : 1 ≤ cp.round_0) (hr' : cp.round_0 ≤ 128)
    (hc : 1 ≤ lim cp.round_0 bd) (hc' : lim cp.round_0 bd ≤ 65536)
    (hsrc : ∀ r c, -3 ≤ r → r ≤ h + 2 → -3 ≤ c → c ≤ w + 2 →
      0 ≤ src (r * ss + c) ∧ src (r * ss + c) ≤ 2 ^ bd - 1)
    (htx : ∀ j : Fin 8, j.1 < 4 → |x_filter j| ≤ 128)
    (hx : x_filter 7 = 0) (hy : y_filter 7 = 0)
    (hf : w + h + 6 ≤ (fuel : Int)) :
    ∃ m, av1_highbd_wiener_convolve_add_src_neon lim fuel im0 src ss dst ds x_filter 16
        y_filter 16 w h cp bd = .returned m ∧
      (filter_s16 x_filter 0 = x_filter 0 ∧ filter_s16 x_filter 1 = x_filter 1 ∧
        filter_s16 x_filter 2 = x_filter 2 ∧ filter_s16 x_filter 3 = x_filter 3 + 128) ∧
      ∀ i c, 0 ≤ i → i < h + 6 → 0 ≤ c → c < w →
        m.im_block (i * 128 + c) = I_formula bd cp.round_0 (lim cp.round_0 bd) x_filter src ss i c ∧
        (∀ cc, c - 3 ≤ cc → cc ≤ c + 3 →
          wrap16 (src ((i - 3) * ss + cc)) = src ((i - 3) * ss + cc)) ∧
        h_lane_steps (filter_s16 x_filter) (horiz_round bd)
            (wrap16 (src ((i - 3) * ss + (c - 3)))) (wrap16 (src ((i - 3) * ss + (c - 2))))
            (wrap16 (src ((i - 3) * ss + (c - 1)))) (wrap16 (src ((i - 3) * ss + c)))
            (wrap16 (src ((i - 3) * ss + (c + 1)))) (wrap16 (src ((i - 3) * ss + (c + 2))))
            (wrap16 (src ((i - 3) * ss + (c + 3))))
          = H_formula_steps bd (x_filter 0) (x_filter 1) (x_filter 2) (x_filter 3)
            (src ((i - 3) * ss + (c - 3))) (src ((i - 3) * ss + (c - 2)))
            (src ((i - 3) * ss + (c - 1))) (src ((i - 3) * ss + c))
            (src ((i - 3) * ss + (c + 1))) (src ((i - 3) * ss + (c + 2)))
            (src ((i - 3) * ss + (c + 3))) := by
  obtain ⟨k, n, rfl, rfl, hk, hn⟩ := valid_geometry w h hw8 (by omega) hw' (by omega) hh'
  obtain ⟨m, hrun, hwr, -⟩ := neon_returns lim fuel im0 src ss dst ds x_filter
    y_filter cp bd k n hk hn hx hy (by omega)
  have hp : (2 : Int) ^ bd ≤ 2 ^ 14 := pow_le_pow_right₀ (by norm_num) hbd
  norm_num at hp
  obtain ⟨f0, f1, f2, f3⟩ := filter_s16_apply x_filter
  have t0 := abs_le.mp (htx 0 (by decide))
  have t1 := abs_le.mp (htx 1 (by decide))
  have t2 := abs_le.mp (htx 2 (by decide))
  have t3 := abs_le.mp (htx 3 (by decide))
  rw [wrap16_eq _ (by omega) (by omega)] at f0 f1 f2 f3
  refine ⟨m, hrun, ⟨f0, f1, f2, f3⟩, fun i c h0 h1 h2 h3 => ?_⟩
  have hs : ∀ cc, c - 3 ≤ cc → cc ≤ c + 3 →
      0 ≤ src ((i - 3) * ss + cc) ∧ src ((i - 3) * ss + cc) ≤ 2 ^ bd - 1 :=
    fun cc a0 a1 => hsrc (i - 3) cc (by omega) (by omega) (by omega) (by omega)
  have hw16 : ∀ cc, c - 3 ≤ cc → cc ≤ c + 3 →
      wrap16 (src ((i - 3) * ss + cc)) = src ((i - 3) * ss + cc) := fun cc a0 a1 =>
    wrap16_eq _ (by have := hs cc a0 a1; omega) (by have := hs cc a0 a1; omega)
  refine ⟨?_, hw16, ?_⟩
  · have e := hwr.1 i c h0 h1 h2 h3
    rw [zero_add] at e
    rw [e]
    exact im_pixel_eq lim src ss x_filter cp bd i c hbd hr hr' hc hc'
      (fun j hj => abs_le.mp (htx j hj)) hs
  · have s0 := hs (c - 3) (by omega) (by omega)
    have s1 := hs (c - 2) (by omega) (by omega)
    have s2 := hs (c - 1) (by omega) (by omega)
    have s3 := hs c (by omega) (by omega)
    have s4 := hs (c + 1) (by omega) (by omega)
    have s5 := hs (c + 2) (by omega) (by omega)
    have s6 := hs (c + 3) (by omega) (by omega)
    rw [hw16 (c - 3) (by omega) (by omega), hw16 (c - 2) (by omega) (by omega),
      hw16 (c - 1) (by omega) (by omega), hw16 c (by omega) (by omega),
      hw16 (c + 1) (by omega) (by omega), hw16 (c + 2) (by omega) (by omega),
      hw16 (c + 3) (by omega) (by omega), horiz_round_eq bd (by omega)]
    exact h_lane_steps_exact bd _ _ _ _ _ _ _ _ _ _ _ (by omega) (by omega) (by omega)
      (by omega) (by omega) (by omega) (by omega) (by omega) (by omega) (by omega) (by omega)
      (by omega) _ f0 f1 f2 f3

/-- An instance of C14: `bd = 14`, an 8x1 block of samples `16383`, stored taps
`(128, -128, 128, -128)`. -/
theorem C14_overflow_free_witness :
    ∃ m, av1_highbd_wiener_convolve_add_src_neon (fun r0 bd => 2 ^ (bd + 8 - r0)) 15
        (fun _ => 0) (fun _ => 16383) 16 (fun _ => 0) 8 ![128, -128, 128, -128, 0, 0, 0, 0] 16
        ![0, 0, 0, 0, 0, 0, 0, 0] 16 8 1 ⟨7, 7⟩ 14 = .returned m ∧
      (filter_s16 ![128, -128, 128, -128, 0, 0, 0, 0] 0
          = (![128, -128, 128, -128, 0, 0, 0, 0] : Fin 8 → Int) 0 ∧
        filter_s16 ![128, -128, 128, -128, 0, 0, 0, 0] 1
          = (![128, -128, 128, -128, 0, 0, 0, 0] : Fin 8 → Int) 1 ∧
        filter_s16 ![128, -128, 128, -128, 0, 0, 0, 0] 2
          = (![128, -128, 128, -128, 0, 0, 0, 0] : Fin 8 → Int) 2 ∧
        filter_s16 ![128, -128, 128, -128, 0, 0, 0, 0] 3
          = (![128, -128, 128, -128, 0, 0, 0, 0] : Fin 8 → Int) 3 + 128) ∧
      ∀ i c, 0 ≤ i → i < 1 + 6 → 0 ≤ c → c < 8 →
        m.im_block (i * 128 + c) = I_formula 14 7 (2 ^ (14 + 8 - 7))
          ![128, -128, 128, -128, 0, 0, 0, 0] (fun _ => 16383) 16 i c ∧
        (∀ cc, c - 3 ≤ cc → cc ≤ c + 3 →
          wrap16 ((fun _ => 16383) ((i - 3) * 16 + cc)) = (fun _ => 16383) ((i - 3) * 16 + cc)) ∧
        h_lane_steps (filter_s16 ![128, -128, 128, -128, 0, 0, 0, 0]) (horiz_round 14)
            (wrap16 ((fun _ => 16383) ((i - 3) * 16 + (c - 3))))
            (wrap16 ((fun _ => 16383) ((i - 3) * 16 + (c - 2))))
            (wrap16 ((fun _ => 16383) ((i - 3) * 16 + (c - 1))))
            (wrap16 ((fun _ => 16383) ((i - 3) * 16 + c)))
            (wrap16 ((fun _ => 16383) ((i - 3) * 16 + (c + 1))))
            (wrap16 ((fun _ => 16383) ((i - 3) * 16 + (c + 2))))
            (wrap16 ((fun _ => 16383) ((i - 3) * 16 + (c + 3))))
          = H_formula_steps 14 ((![128, -128, 128, -128, 0, 0, 0, 0] : Fin 8 → Int) 0)
            ((![128, -128, 128, -128, 0, 0, 0, 0] : Fin 8 → Int) 1)
            ((![128, -128, 128, -128, 0, 0, 0, 0] : Fin 8 → Int) 2)
            ((![128, -128, 128, -128, 0, 0, 0, 0] : Fin 8 → Int) 3)
            ((fun _ => 16383) ((i - 3) * 16 + (c - 3))) ((fun _ => 16383) ((i - 3) * 16 + (c - 2)))
            ((fun _ => 16383) ((i - 3) * 16 + (c - 1))) ((fun _ => 16383) ((i - 3) * 16 + c))
            ((fun _ => 16383) ((i - 3) * 16 + (c + 1))) ((fun _ => 16383) ((i - 3) * 16 + (c + 2)))
            ((fun _ => 16383) ((i - 3) * 16 + (c + 3))) :=
  C14_overflow_free (fun r0 bd => 2 ^ (bd + 8 - r0)) 15 (fun _ => 0) (fun _ => 16383) 16
    (fun _ => 0) 8 ![128, -128, 128, -128, 0, 0, 0, 0] ![0, 0, 0, 0, 0, 0, 0, 0] 8 1 ⟨7, 7⟩ 14
    (by decide) (by decide) (by decide) (by decide) (by decide) (by decide) (by decide)
    (by decide) (by norm_num) (by norm_num) (fun _ _ _ _ _ _ => by norm_num)
    (fun j _ => by fin_cases j <;> decide)
    rfl rfl (by decide)

/-- The direct 7-tap sum with the bias-restored kernel is the folded sum. -/
theorem fir_sum_eq (filter : Fin 8 → Int) (s : Fin 7 → Int) :
    ∑ k : Fin 7, true_kernel filter k * s k
      = filter 0 * (s 0 + s 6) + filter 1 * (s 1 + s 5) + filter 2 * (s 2 + s 4)
        + (filter 3 + 128) * s 3 := by
  have k0 : true_kernel filter 0 = filter 0 := rfl
  have k1 : true_kernel filter 1 = filter 1 := rfl
  have k2 : true_kernel filter 2 = filter 2 := rfl
  have k3 : true_kernel filter 3 = filter 3 + 128 := rfl
  have k4 : true_kernel filter 4 = filter 2 := rfl
  have k5 : true_kernel filter 5 = filter 1 := rfl
  have k6 : true_kernel filter 6 = filter 0 := rfl
  simp only [Fin.sum_univ_seven, k0, k1, k2, k3, k4, k5, k6]
  ring

/-- For 16-bit stored taps with `t3 ≤ 32639`, the four taps of `filter_s16` are
`(t0, t1, t2, t3 + 128)`; the folded sum is the direct sum of `K[k] s_k` over
`k = 0 .. 6` with `K = [t0, t1, t2, t3 + 128, t2, t1, t0]`; and in every lane whose
three pair sums fit 16 bits the accumulator of the horizontal kernel, and in
every lane that of the vertical kernel, is the rounding term plus that direct
sum, reduced to 32 bits. -/
theorem convolve7_true_kernel (filter : Fin 8 → Int) (s : Fin 7 → int16x8_t) (rv sh mx : Int)
    (i : Fin 8)
    (ht : ∀ j : Fin 8, j.1 < 4 → -32768 ≤ filter j ∧ filter j ≤ 32767)
    (h3 : filter 3 ≤ 32639)
    (h06 : -32768 ≤ s 0 i + s 6 i ∧ s 0 i + s 6 i ≤ 32767)
    (h15 : -32768 ≤ s 1 i + s 5 i ∧ s 1 i + s 5 i ≤ 32767)
    (h24 : -32768 ≤ s 2 i + s 4 i ∧ s 2 i + s 4 i ≤ 32767) :
    (filter_s16 filter 0 = filter 0 ∧ filter_s16 filter 1 = filter 1 ∧
      filter_s16 filter 2 = filter 2 ∧ filter_s16 filter 3 = filter 3 + 128) ∧
    wiener_acc rv (filter 0) (filter 1) (filter 2) (filter 3) (s 0 i) (s 1 i) (s 2 i) (s 3 i)
        (s 4 i) (s 5 i) (s 6 i)
      = rv + ∑ k : Fin 7, true_kernel filter k * s k i ∧
    (h_lane_steps (filter_s16 filter) rv (s 0 i) (s 1 i) (s 2 i) (s 3 i) (s 4 i) (s 5 i)
        (s 6 i)).getLastD 0
      = wrap32 (rv + ∑ k : Fin 7, true_kernel filter k * s k i) ∧
    highbd_wiener_convolve7_8_2d_h (s 0) (s 1) (s 2) (s 3) (s 4) (s 5) (s 6) (filter_s16 filter)
        (fun _ => rv) (fun _ => sh) (fun _ => mx) i
      = min (usat16 (sqrshl32 (wrap32 (rv + ∑ k : Fin 7, true_kernel filter k * s k i)) sh))
          mx ∧
    highbd_wiener_convolve7_8_2d_v (s 0) (s 1) (s 2) (s 3) (s 4) (s 5) (s 6) (filter_s16 filter)
        (fun _ => rv) (fun _ => sh) (fun _ => mx) i
      = min (usat16 (sqrshl32 (wrap32 (rv + ∑ k : Fin 7, true_kernel filter k * s k i)) sh))
          mx := by
  obtain ⟨f0, f1, f2, f3⟩ := filter_s16_apply filter
  have t0 := ht 0 (by decide)
  have t1 := ht 1 (by decide)
  have t2 := ht 2 (by decide)
  have t3 := ht 3 (by decide)
  rw [wrap16_eq _ (by omega) (by omega)] at f0 f1 f2 f3
  have hsum := fir_sum_eq filter (fun k => s k i)
  simp only [] at hsum
  have hacc : wrap32 (wrap32 (wrap32 (wrap32 (rv + (s 0 i + s 6 i) * filter 0)
      + (s 1 i + s 5 i) * filter 1) + (s 2 i + s 4 i) * filter 2) + s 3 i * (filter 3 + 128))
      = wrap32 (rv + ∑ k : Fin 7, true_kernel filter k * s k i) := by
    rw [wrap32_chain, hsum]
    congr 1
    ring
  refine ⟨⟨f0, f1, f2, f3⟩, ?_, ?_, ?_, ?_⟩
  · rw [hsum, wiener_acc]
    ring
  · simp only [h_lane_steps, List.getLastD_cons, List.getLastD_nil, f0, f1, f2, f3]
    rw [wrap16_eq _ h06.1 h06.2, wrap16_eq _ h15.1 h15.2, wrap16_eq _ h24.1 h24.2, hacc]
  · rw [convolve7_h_lane, h_lane, f0, f1, f2, f3, wrap16_eq _ h06.1 h06.2,
      wrap16_eq _ h15.1 h15.2, wrap16_eq _ h24.1 h24.2, hacc]
  · rw [convolve7_v_lane, v_lane, f0, f1, f2, f3, hacc]


/-- A sequence of single stores leaves at each stored address the value stored
there, when stores to the same address store the same value, and leaves every
other address alone. -/
theorem foldl_update_spec {α : Type} (addr : α → Int) (val : α → Int) :
    ∀ (l : List α) (out : Int → Int),
      (∀ p ∈ l, ∀ q ∈ l, addr p = addr q → val p = val q) →
      (∀ p ∈ l, l.foldl (fun o p => Function.update o (addr p) (val p)) out (addr p) = val p) ∧
      (∀ a, (∀ p ∈ l, a ≠ addr p) →
        l.foldl (fun o p => Function.update o (addr p) (val p)) out a = out a) := by
  intro l
  induction l with
  | nil =>
    intro out _
    exact ⟨fun p hp => absurd hp (List.not_mem_nil p), fun a _ => rfl⟩
  | cons x l ih =>
    intro out hinj
    obtain ⟨ih1, ih2⟩ := ih (Function.update out (addr x) (val x))
      (fun p hp q hq => hinj p (List.mem_cons_of_mem x hp) q (List.mem_cons_of_mem x hq))
    simp only [List.foldl_cons]
    refine ⟨fun p hp => ?_, fun a ha => ?_⟩
    · rcases List.mem_cons.mp hp with rfl | hp'
      · by_cases hex : ∃ q ∈ l, addr q = addr p
        · obtain ⟨q, hq, hqa⟩ := hex
          have e := ih1 q hq
          rw [hqa] at e
          rw [e]
          exact hinj q (List.mem_cons_of_mem p hq) p (List.mem_cons_self p l) hqa
        · rw [ih2 (addr p) (fun q hq hqa => hex ⟨q, hq, hqa.symm⟩)]
          exact Function.update_same _ _ _
      · exact ih1 p hp'
    · rw [ih2 a (fun q hq => ha q (List.mem_cons_of_mem x hq))]
      exact Function.update_noteq (ha x (List.mem_cons_self x l)) _ _

/-- Two memories that are the same memory with the same rectangle written are
equal. -/
theorem Wrote.unique {out out1 out2 : Int → Int} {d ds : Int} {val : Int → Int → Int}
    {r0 r1 c0 c1 : Int} (h1 : Wrote out out1 d ds val r0 r1 c0 c1)
    (h2 : Wrote out out2 d ds val r0 r1 c0 c1) : out1 = out2 := by
  funext a
  by_cases hex : ∃ r c, r0 ≤ r ∧ r < r1 ∧ c0 ≤ c ∧ c < c1 ∧ a = d + r * ds + c
  · obtain ⟨r, c, a0, a1, a2, a3, rfl⟩ := hex
    rw [h1.1 r c a0 a1 a2 a3, h2.1 r c a0 a1 a2 a3]
  · have hne : ∀ r c, r0 ≤ r → r < r1 → c0 ≤ c → c < c1 → a ≠ d + r * ds + c :=
      fun r c a0 a1 a2 a3 e => hex ⟨r, c, a0, a1, a2, a3, e⟩
    rw [h1.2 a hne, h2.2 a hne]

/-- The batch-width-1 stage writes the rectangle its order covers. -/
theorem scalar_stage_wrote (kernel : Int → Int) (ss ds s d : Int) (order : List (Int × Int))
    (out : Int → Int) (w h : Int) (hds : w ≤ ds)
    (horder : ∀ r c, (r, c) ∈ order ↔ (0 ≤ r ∧ r < h ∧ 0 ≤ c ∧ c < w)) :
    Wrote out (scalar_stage kernel ss ds s d order out) d ds
      (fun r c => kernel (s + r * ss + c)) 0 h 0 w := by
  obtain ⟨e1, e2⟩ := foldl_update_spec (fun p : Int × Int => d + p.1 * ds + p.2)
    (fun p : Int × Int => kernel (s + p.1 * ss + p.2)) order out (by
      rintro ⟨r, c⟩ hp ⟨r', c'⟩ hq hpq
      obtain ⟨a0, a1, a2, a3⟩ := (horder r c).mp hp
      obtain ⟨b0, b1, b2, b3⟩ := (horder r' c').mp hq
      simp only [] at hpq
      obtain ⟨rfl, rfl⟩ := pos_unique ds 0 w r r' c c' (by omega) a2 a3 b2 b3 (by omega)
      rfl)
  refine ⟨fun r c a0 a1 a2 a3 => ?_, fun a ha => ?_⟩
  · exact e1 (r, c) ((horder r c).mpr ⟨a0, a1, a2, a3⟩)
  · apply e2
    rintro ⟨r, c⟩ hp
    obtain ⟨a0, a1, a2, a3⟩ := (horder r c).mp hp
    exact ha r c a0 a1 a2 a3

theorem scalar_convolve7_h_eq (src : Int → Int) (f : int16x4_t) (rv sh mx p : Int) :
    scalar_convolve7_h src f rv sh mx p = hpix src f rv sh mx p := by
  rw [scalar_convolve7_h, convolve7_h_lane, hpix]

theorem scalar_convolve7_v_eq (src : Int → Int) (ss : Int) (f : int16x4_t) (rv sh mx p : Int) :
    scalar_convolve7_v src ss f rv sh mx p = vpix src ss f rv sh mx p := by
  rw [scalar_convolve7_v, convolve7_v_lane, vpix]

/-- C13: for `w` a positive multiple of 8, `h ≥ 1` (whatever `h mod 4`) and
output rows that do not overlap (`dst_stride ≥ w`), either stage returns, and
the memory it leaves is the memory a batch-width-1 stage leaves that visits
the positions `(row, col)`, `0 ≤ row < h`, `0 ≤ col < w`, one at a time in any
order and stores the kernel's value for one sample at each. -/
theorem C13_batch_grouping (src out0 : Int → Int) (f : int16x4_t) (rv sh mx : Int)
    (ss ds s d w h : Int) (fuel : Nat) (loads stores : List Int) (order : List (Int × Int))
    (hw8 : w % 8 = 0) (hw : 8 ≤ w) (hh : 1 ≤ h) (hds : w ≤ ds)
    (horder : ∀ r c, (r, c) ∈ order ↔ (0 ≤ r ∧ r < h ∧ 0 ≤ c ∧ c < w))
    (hf : w + h + 4 ≤ (fuel : Int)) :
    (∃ st, highbd_convolve_add_src_horiz_hip src ss ds w f (fun _ => rv) (fun _ => sh)
        (fun _ => mx) fuel s d h { out := out0, loads := loads, stores := stores } = some st ∧
      st.out = scalar_stage (scalar_convolve7_h src f rv sh mx) ss ds s d order out0) ∧
    (∃ st, highbd_convolve_add_src_vert_hip src ss ds h f (fun _ => rv) (fun _ => sh)
        (fun _ => mx) fuel s d w { out := out0, loads := loads, stores := stores } = some st ∧
      st.out = scalar_stage (scalar_convolve7_v src ss f rv sh mx) ss ds s d order out0) := by
  obtain ⟨k, hk⟩ : ∃ k : Nat, w = 8 * ((k : Int) + 1) := ⟨(w / 8 - 1).toNat, by omega⟩
  obtain ⟨n, hn⟩ : ∃ n : Nat, h = (n : Int) + 1 := ⟨(h - 1).toNat, by omega⟩
  constructor
  · obtain ⟨st, hrun, hwr, -, -⟩ := highbd_convolve_add_src_horiz_hip_spec src f rv sh mx ss ds
      s d k (by omega) n fuel s d 0 { out := out0, loads := loads, stores := stores }
      (by omega) (by ring) (by ring)
    refine ⟨st, by rw [hk, hn]; exact hrun, ?_⟩
    have hs := scalar_stage_wrote (scalar_convolve7_h src f rv sh mx) ss ds s d order out0 w h
      hds horder
    simp only [scalar_convolve7_h_eq] at hs
    rw [zero_add, ← hn, ← hk] at hwr
    exact Wrote.unique hwr hs
  · obtain ⟨st, hrun, hwr, -, -⟩ := highbd_convolve_add_src_vert_hip_spec src f rv sh mx ss ds
      s d (n + 1) k fuel s d 0 { out := out0, loads := loads, stores := stores }
      (by omega) (by ring) (by ring)
    have hn' : (((n + 1 : Nat) : Int)) = h := by push_cast; omega
    rw [hn', ← hk] at hrun hwr
    refine ⟨st, hrun, ?_⟩
    have hs := scalar_stage_wrote (scalar_convolve7_v src ss f rv sh mx) ss ds s d order out0 w
      h hds horder
    simp only [scalar_convolve7_v_eq] at hs
    have hwr' := hwr hds
    rw [zero_add] at hwr'
    exact Wrote.unique hwr' hs

/-- An instance of C13: an 8x5 block (one 4-row step and one single row in the
vertical stage) against the scalar stage that visits the positions from the
bottom right to the top left. -/
theorem C13_batch_grouping_witness :
    (∃ st, highbd_convolve_add_src_horiz_hip (fun a => a % 256) 32 16 8 ![3, -5, 7, 118]
        (fun _ => 16384) (fun _ => -3) (fun _ => 8191) 20 0 0 5
        { out := fun _ => 0, loads := [], stores := [] } = some st ∧
      st.out = scalar_stage (scalar_convolve7_h (fun a => a % 256) ![3, -5, 7, 118] 16384 (-3)
        8191) 32 16 0 0
        ((List.range 5).reverse.flatMap (fun (r : Nat) =>
          (List.range 8).reverse.map (fun (c : Nat) => ((r : Int), (c : Int)))))
        (fun _ => 0)) ∧
    (∃ st, highbd_convolve_add_src_vert_hip (fun a => a % 256) 32 16 5 ![3, -5, 7, 118]
        (fun _ => 16384) (fun _ => -3) (fun _ => 8191) 20 0 0 8
        { out := fun _ => 0, loads := [], stores := [] } = some st ∧
      st.out = scalar_stage (scalar_convolve7_v (fun a => a % 256) 32 ![3, -5, 7, 118] 16384
        (-3) 8191) 32 16 0 0
        ((List.range 5).reverse.flatMap (fun (r : Nat) =>
          (List.range 8).reverse.map (fun (c : Nat) => ((r : Int), (c : Int)))))
        (fun _ => 0)) :=
  C13_batch_grouping (fun a => a % 256) (fun _ => 0) ![3, -5, 7, 118] 16384 (-3) 8191 32 16 0 0
    8 5 20 [] []
    ((List.range 5).reverse.flatMap (fun (r : Nat) =>
      (List.range 8).reverse.map (fun (c : Nat) => ((r : Int), (c : Int)))))
    (by decide) (by decide) (by decide) (by decide)
    (fun r c => by
      simp only [List.mem_flatMap, List.mem_reverse, List.mem_range, List.mem_map,
        Prod.mk.injEq]
      constructor
      · rintro ⟨a, ha, b, hb, rfl, rfl⟩
        omega
      · rintro ⟨h0, h1, h2, h3⟩
        exact ⟨r.toNat, by omega, c.toNat, by omega, by omega, by omega⟩)
    (by decide)

/-- A lane of the horizontal kernel with the taps the entry point derives from
a stored tap set: the rounding term plus the direct 7-tap sum with the
bias-restored kernel, reduced to 32 bits, then shifted and clamped. -/
theorem h_lane_true_kernel (filter : Fin 8 → Int) (s : Fin 7 → Int) (rv sh mx : Int)
    (ht : ∀ j : Fin 8, j.1 < 4 → -32768 ≤ filter j ∧ filter j ≤ 32767)
    (h3 : filter 3 ≤ 32639)
    (h06 : -32768 ≤ s 0 + s 6 ∧ s 0 + s 6 ≤ 32767)
    (h15 : -32768 ≤ s 1 + s 5 ∧ s 1 + s 5 ≤ 32767)
    (h24 : -32768 ≤ s 2 + s 4 ∧ s 2 + s 4 ≤ 32767) :
    h_lane (filter_s16 filter) rv sh mx (s 0) (s 1) (s 2) (s 3) (s 4) (s 5) (s 6)
      = min (usat16 (sqrshl32 (wrap32 (rv + ∑ k : Fin 7, true_kernel filter k * s k)) sh))
          mx := by
  obtain ⟨f0, f1, f2, f3⟩ := filter_s16_apply filter
  have t0 := ht 0 (by decide)
  have t1 := ht 1 (by decide)
  have t2 := ht 2 (by decide)
  have t3 := ht 3 (by decide)
  rw [wrap16_eq _ (by omega) (by omega)] at f0 f1 f2 f3
  rw [h_lane, f0, f1, f2, f3, wrap16_eq _ h06.1 h06.2, wrap16_eq _ h15.1 h15.2,
    wrap16_eq _ h24.1 h24.2, wrap32_chain, fir_sum_eq]
  congr 4
  ring

/-- A lane of the vertical kernel with the taps the entry point derives from a
stored tap set. -/
theorem v_lane_true_kernel (filter : Fin 8 → Int) (s : Fin 7 → Int) (rv sh mx : Int)
    (ht : ∀ j : Fin 8, j.1 < 4 → -32768 ≤ filter j ∧ filter j ≤ 32767)
    (h3 : filter 3 ≤ 32639) :
    v_lane (filter_s16 filter) rv sh mx (s 0) (s 1) (s 2) (s 3) (s 4) (s 5) (s 6)
      = min (usat16 (sqrshl32 (wrap32 (rv + ∑ k : Fin 7, true_kernel filter k * s k)) sh))
          mx := by
  obtain ⟨f0, f1, f2, f3⟩ := filter_s16_apply filter
  have t0 := ht 0 (by decide)
  have t1 := ht 1 (by decide)
  have t2 := ht 2 (by decide)
  have t3 := ht 3 (by decide)
  rw [wrap16_eq _ (by omega) (by omega)] at f0 f1 f2 f3
  rw [v_lane, f0, f1, f2, f3, wrap32_chain, fir_sum_eq]
  congr 4
  ring

/-- C15: for a valid geometry, 16-bit stored taps with `t3 ≤ 32639` in both
directions and a source whose samples, read as `int16_t`, have pair sums that
fit 16 bits, the call returns; the taps it hands to each stage are
`(t0, t1, t2, t3 + 128)`; every intermediate sample it stores is the rounding
shift and clamp of the horizontal rounding term plus the direct sum of
`K[k] s_k` over `k = 0 .. 6`, with `K = [t0, t1, t2, t3 + 128, t2, t1, t0]` from
the stored horizontal taps and `s_k` the source samples of the row window; every
destination sample it stores is the same with the vertical rounding term, the
stored vertical taps and the 7 intermediate samples of the column window (both
accumulated modulo `2^32`); and the folded sum of the specification is that
direct sum. -/
theorem C15_true_kernel (lim : Nat → Nat → Int) (fuel : Nat) (im0 src : Int → Int) (ss : Int)
    (dst : Int → Int) (ds : Int) (x_filter y_filter : Fin 8 → Int) (w h : Int)
    (cp : WienerConvolveParams) (bd : Nat)
    (hw8 : w % 8 = 0) (hw : 8 ≤ w) (hw' : w ≤ 128) (hh : 1 ≤ h) (hh' : h ≤ 128)
    (hds : w ≤ ds) (hx : x_filter 7 = 0) (hy : y_filter 7 = 0)
    (htx : ∀ j : Fin 8, j.1 < 4 → -32768 ≤ x_filter j ∧ x_filter j ≤ 32767)
    (hx3 : x_filter 3 ≤ 32639)
    (hty : ∀ j : Fin 8, j.1 < 4 → -32768 ≤ y_filter j ∧ y_filter j ≤ 32767)
    (hy3 : y_filter 3 ≤ 32639)
    (hpair : ∀ r c c', -3 ≤ r → r ≤ h + 2 → -3 ≤ c → c ≤ w + 2 → -3 ≤ c' → c' ≤ w + 2 →
      -32768 ≤ wrap16 (src (r * ss + c)) + wrap16 (src (r * ss + c')) ∧
        wrap16 (src (r * ss + c)) + wrap16 (src (r * ss + c')) ≤ 32767)
    (hf : w + h + 6 ≤ (fuel : Int)) :
    ∃ m, av1_highbd_wiener_convolve_add_src_neon lim fuel im0 src ss dst ds x_filter 16
        y_filter 16 w h cp bd = .returned m ∧
      (filter_s16 x_filter 0 = x_filter 0 ∧ filter_s16 x_filter 1 = x_filter 1 ∧
        filter_s16 x_filter 2 = x_filter 2 ∧ filter_s16 x_filter 3 = x_filter 3 + 128) ∧
      (filter_s16 y_filter 0 = y_filter 0 ∧ filter_s16 y_filter 1 = y_filter 1 ∧
        filter_s16 y_filter 2 = y_filter 2 ∧ filter_s16 y_filter 3 = y_filter 3 + 128) ∧
      (∀ i c, 0 ≤ i → i < h + 6 → 0 ≤ c → c < w →
        m.im_block (i * 128 + c)
          = min (usat16 (sqrshl32 (wrap32 (horiz_round bd +
              ∑ k : Fin 7, true_kernel x_filter k *
                wrap16 (src ((i - 3) * ss + (c - 3 + (k.1 : Int))))))
              (horiz_shift cp))) (im_max (lim cp.round_0 bd))) ∧
      (∀ r c, 0 ≤ r → r < h → 0 ≤ c → c < w →
        m.dst (r * ds + c)
          = min (usat16 (sqrshl32 (wrap32 (vert_round cp bd +
              ∑ k : Fin 7, true_kernel y_filter k *
                wrap16 (m.im_block ((r + (k.1 : Int)) * 128 + c))))
              (vert_shift cp))) (res_max bd)) ∧
      ∀ (rv : Int) (s : Fin 7 → Int),
        wiener_acc rv (x_filter 0) (x_filter 1) (x_filter 2) (x_filter 3) (s 0) (s 1) (s 2)
            (s 3) (s 4) (s 5) (s 6) = rv + ∑ k : Fin 7, true_kernel x_filter k * s k ∧
        wiener_acc rv (y_filter 0) (y_filter 1) (y_filter 2) (y_filter 3) (s 0) (s 1) (s 2)
            (s 3) (s 4) (s 5) (s 6) = rv + ∑ k : Fin 7, true_kernel y_filter k * s k := by
  obtain ⟨m, hrun, hdst, -, him⟩ := neon_call lim fuel im0 src ss dst ds x_filter y_filter w h
    cp bd hw8 (by omega) hw' (by omega) hh' hds hx hy hf
  have v0 : (((0 : Fin 7) : Nat) : Int) = 0 := rfl
  have v1 : (((1 : Fin 7) : Nat) : Int) = 1 := rfl
  have v2 : (((2 : Fin 7) : Nat) : Int) = 2 := rfl
  have v3 : (((3 : Fin 7) : Nat) : Int) = 3 := rfl
  have v4 : (((4 : Fin 7) : Nat) : Int) = 4 := rfl
  have v5 : (((5 : Fin 7) : Nat) : Int) = 5 := rfl
  have v6 : (((6 : Fin 7) : Nat) : Int) = 6 := rfl
  obtain ⟨fx0, fx1, fx2, fx3⟩ := filter_s16_apply x_filter
  obtain ⟨fy0, fy1, fy2, fy3⟩ := filter_s16_apply y_filter
  have tx0 := htx 0 (by decide)
  have tx1 := htx 1 (by decide)
  have tx2 := htx 2 (by decide)
  have tx3 := htx 3 (by decide)
  have ty0 := hty 0 (by decide)
  have ty1 := hty 1 (by decide)
  have ty2 := hty 2 (by decide)
  have ty3 := hty 3 (by decide)
  rw [wrap16_eq _ (by omega) (by omega)] at fx0 fx1 fx2 fx3 fy0 fy1 fy2 fy3
  refine ⟨m, hrun, ⟨fx0, fx1, fx2, fx3⟩, ⟨fy0, fy1, fy2, fy3⟩, fun i c h0 h1 h2 h3 => ?_,
    fun r c h0 h1 h2 h3 => ?_, fun rv s => ⟨?_, ?_⟩⟩
  · have key := h_lane_true_kernel x_filter
      (fun k => wrap16 (src ((i - 3) * ss + (c - 3 + (k.1 : Int))))) (horiz_round bd)
      (horiz_shift cp) (im_max (lim cp.round_0 bd)) htx hx3
      (hpair (i - 3) _ _ (by omega) (by omega) (by rw [v0]; omega) (by rw [v0]; omega)
        (by rw [v6]; omega) (by rw [v6]; omega))
      (hpair (i - 3) _ _ (by omega) (by omega) (by rw [v1]; omega) (by rw [v1]; omega)
        (by rw [v5]; omega) (by rw [v5]; omega))
      (hpair (i - 3) _ _ (by omega) (by omega) (by rw [v2]; omega) (by rw [v2]; omega)
        (by rw [v4]; omega) (by rw [v4]; omega))
    simp only [v0, v1, v2, v3, v4, v5, v6] at key
    rw [show c - 3 + 0 = c - 3 by ring, show c - 3 + 1 = c - 2 by ring,
      show c - 3 + 2 = c - 1 by ring, show c - 3 + 3 = c by ring,
      show c - 3 + 4 = c + 1 by ring, show c - 3 + 5 = c + 2 by ring,
      show c - 3 + 6 = c + 3 by ring] at key
    rw [him i c h0 h1 h2 h3, im_pixel]
    exact key
  · have key := v_lane_true_kernel y_filter
      (fun k => wrap16 (m.im_block ((r + (k.1 : Int)) * 128 + c))) (vert_round cp bd)
      (vert_shift cp) (res_max bd) hty hy3
    simp only [v0, v1, v2, v3, v4, v5, v6] at key
    rw [add_zero, him r c (by omega) (by omega) h2 h3,
      him (r + 1) c (by omega) (by omega) h2 h3, him (r + 2) c (by omega) (by omega) h2 h3,
      him (r + 3) c (by omega) (by omega) h2 h3, him (r + 4) c (by omega) (by omega) h2 h3,
      him (r + 5) c (by omega) (by omega) h2 h3, him (r + 6) c (by omega) (by omega) h2 h3]
      at key
    rw [hdst r c h0 h1 h2 h3, dst_pixel]
    exact key
  · rw [fir_sum_eq, wiener_acc]
    ring
  · rw [fir_sum_eq, wiener_acc]
    ring

/-- An instance of C15: an 8x2 block with `bd = 8`, stored taps
`(3, -5, 7, 32639)` and `(1, 2, -6, 6)`. -/
theorem C15_true_kernel_witness :
    ∃ m, av1_highbd_wiener_convolve_add_src_neon (fun r0 bd => 2 ^ (bd + 8 - r0)) 20
        (fun _ => 0) (fun a => a % 256) 32 (fun _ => 0) 8 ![3, -5, 7, 32639, 0, 0, 0, 0] 16
        ![1, 2, -6, 6, 0, 0, 0, 0] 16 8 2 ⟨3, 11⟩ 8 = .returned m ∧
      (filter_s16 ![3, -5, 7, 32639, 0, 0, 0, 0] 0 = 3 ∧
        filter_s16 ![3, -5, 7, 32639, 0, 0, 0, 0] 1 = -5 ∧
        filter_s16 ![3, -5, 7, 32639, 0, 0, 0, 0] 2 = 7 ∧
        filter_s16 ![3, -5, 7, 32639, 0, 0, 0, 0] 3 = 32639 + 128) ∧
      (filter_s16 ![1, 2, -6, 6, 0, 0, 0, 0] 0 = 1 ∧
        filter_s16 ![1, 2, -6, 6, 0, 0, 0, 0] 1 = 2 ∧
        filter_s16 ![1, 2, -6, 6, 0, 0, 0, 0] 2 = -6 ∧
        filter_s16 ![1, 2, -6, 6, 0, 0, 0, 0] 3 = 6 + 128) ∧
      (∀ i c, 0 ≤ i → i < 2 + 6 → 0 ≤ c → c < 8 →
        m.im_block (i * 128 + c)
          = min (usat16 (sqrshl32 (wrap32 (horiz_round 8 +
              ∑ k : Fin 7, true_kernel ![3, -5, 7, 32639, 0, 0, 0, 0] k *
                wrap16 ((fun a => a % 256) ((i - 3) * 32 + (c - 3 + (k.1 : Int))))))
              (horiz_shift ⟨3, 11⟩)))
            (im_max ((fun (r0 bd : Nat) => (2 : Int) ^ (bd + 8 - r0)) 3 8))) ∧
      (∀ r c, 0 ≤ r → r < 2 → 0 ≤ c → c < 8 →
        m.dst (r * 8 + c)
          = min (usat16 (sqrshl32 (wrap32 (vert_round ⟨3, 11⟩ 8 +
              ∑ k : Fin 7, true_kernel ![1, 2, -6, 6, 0, 0, 0, 0] k *
                wrap16 (m.im_block ((r + (k.1 : Int)) * 128 + c))))
              (vert_shift ⟨3, 11⟩))) (res_max 8)) ∧
      ∀ (rv : Int) (s : Fin 7 → Int),
        wiener_acc rv 3 (-5) 7 32639 (s 0) (s 1) (s 2) (s 3) (s 4) (s 5) (s 6)
          = rv + ∑ k : Fin 7, true_kernel ![3, -5, 7, 32639, 0, 0, 0, 0] k * s k ∧
        wiener_acc rv 1 2 (-6) 6 (s 0) (s 1) (s 2) (s 3) (s 4) (s 5) (s 6)
          = rv + ∑ k : Fin 7, true_kernel ![1, 2, -6, 6, 0, 0, 0, 0] k * s k :=
  C15_true_kernel (fun r0 bd => 2 ^ (bd + 8 - r0)) 20 (fun _ => 0) (fun a => a % 256) 32
    (fun _ => 0) 8 ![3, -5, 7, 32639, 0, 0, 0, 0] ![1, 2, -6, 6, 0, 0, 0, 0] 8 2 ⟨3, 11⟩ 8
    (by decide) (by decide) (by decide) (by decide) (by decide) (by decide) rfl rfl
    (fun j _ => by fin_cases j <;> decide) (by decide)
    (fun j _ => by fin_cases j <;> decide) (by decide)
    (fun r c c' _ _ _ _ _ _ => by simp only [wrap16]; omega) (by decide)

end Wiener
